import Mathlib

/-!
# Upload job queue and transfer scheduler

A shallow embedding of the `spQueue`, `spApi` and `spAlbum` services, of the
`spApp` event handlers and of the queue actions of the job detail, the
settings and the dialogs of `index-CgF8N2_--9498f428518f9b97.js`.

JavaScript objects are mutable and shared by reference: the active window
`C.active` holds the very photo objects that the jobs list in `photos`, and
`d.indexOf(ae)` compares them by identity.  The embedding therefore keeps the
job and photo objects in two stores indexed by references (`JobRef`,
`PhotoRef`); arrays of objects are lists of references.  Numbers that the
source computes by division (`transferred`, `progress`) are exact rationals.
The functions `join`, `normalize`, `parse` and `dirname` of the POSIX `path`
module of Node are embedded on lists of characters, and the `size` of a path
entry, which is `undefined` for an entry that is not a file, is a `Size`.
-/

namespace Federation

/-- The constants of `spPhotoStatus` and `spJobStatus`:
`{ PENDING: 0, IN_PROGRESS: 1, COMPLETED: 2, CANCELED: 3 }`. -/
inductive Status where
  | PENDING
  | IN_PROGRESS
  | COMPLETED
  | CANCELED
deriving DecidableEq, Repr

/-- The number behind a status constant, used by the comparison
`f.status <= v.IN_PROGRESS`. -/
def Status.toNat : Status → Nat
  | .PENDING => 0
  | .IN_PROGRESS => 1
  | .COMPLETED => 2
  | .CANCELED => 3

/-- A parsed response body `H` that is truthy.  Each field is `none` when the
property is absent or is not a string (a truthy JSON value that is not an
object has all three absent). -/
structure Body where
  stat : Option String
  code : Option String
  msg : Option String
deriving DecidableEq, Repr

/-- The values stored in `photo.error`: the two constants of `spApi`
(`"sp-api-at-plan-photo-count-limit"`, `"sp-api-at-gallery-photo-count-limit"`)
or the parsed body `H` of a response, where `body none` is a falsy `H`
(`null` after a failed parse, or a falsy JSON value). -/
inductive ErrorTag where
  | AT_PLAN_PHOTO_LIMIT_ERROR
  | AT_GALLERY_PHOTO_LIMIT_ERROR
  | body (H : Option Body)
deriving DecidableEq, Repr

/-- A `size` property: a number of bytes, or `undefined` for an entry that
`inspectTree` or `inspect` reports without `size` (an entry that is not a
regular file, such as a symbolic link).  A numeral stands for a number of
bytes. -/
inductive Size where
  | undefined
  | bytes (n : Nat)
deriving DecidableEq, Repr

instance (n : Nat) : OfNat Size n := ⟨Size.bytes n⟩

/-- The comparison `size > n`, which is false for `undefined`. -/
def Size.exceeds (s : Size) (n : Nat) : Bool :=
  match s with
  | .bytes k => decide (k > n)
  | .undefined => false

/-- The sum `Q += size` of numbers: `none` is `NaN`, which any sum with
`undefined` or with `NaN` gives. -/
def Size.addTo (Q : Option Nat) (s : Size) : Option Nat :=
  match Q, s with
  | some q, .bytes k => some (q + k)
  | _, _ => none

abbrev PhotoRef := Nat

abbrev JobRef := Nat

/-- A photo object as built by `jobFromStaging` (function `oe`), with the
fields that `spApi.uploadPhoto` adds later (`duplicate`, `error`,
`shouldRetry`, `socketError`); an absent field is `false` or `none`. -/
structure Photo where
  requestId : String
  path : String
  jobId : String
  albumPath : String
  albumId : Option String
  size : Size
  transferred : ℚ
  status : Status
  skipDuplicates : Bool
  duplicate : Bool
  error : Option ErrorTag
  shouldRetry : Bool
  socketError : Option String

/-- A job object as built by `jobFromStaging`.  `progress` is `none` when the
source holds `NaN` there (the quotient `0 / 0` of a job without photos), and
so is `totalFilesize` (the sum over an entry without size).
`errors` is the truthiness of the property `errors`, which the start-up
predicate of `restore` reads: `jobFromStaging` does not create that property
and no function assigns it, so it is `false` (absent) on every job object
that the program builds. -/
structure Job where
  id : String
  status : Status
  progress : Option ℚ
  totalFilesize : Option Nat
  basePath : Option String
  photos : List PhotoRef
  errors : Bool := false

/-- The `spQueue` service object `C` (`isPaused`, `jobs`, `active`) together
with the stores of the job and photo objects it refers to, and the next unused
references. -/
structure Queue where
  isPaused : Bool
  jobs : List JobRef
  active : List PhotoRef
  jobObj : JobRef → Job
  photoObj : PhotoRef → Photo
  nextJob : JobRef
  nextPhoto : PhotoRef

/-- What an operation asks of its collaborators: the calls of
`spApi.uploadPhoto` (by photo), the calls of `spApi.abortRequest` (by request
id), and the broadcasts of `spQueue:uploadComplete` (by job). -/
structure Effects where
  uploads : List PhotoRef
  aborts : List String
  signals : List JobRef
deriving DecidableEq, Repr

/-- No call and no broadcast. -/
def Effects.none : Effects := ⟨[], [], []⟩

/-- Effects of two steps run one after the other. -/
def Effects.append (a b : Effects) : Effects :=
  ⟨a.uploads ++ b.uploads, a.aborts ++ b.aborts, a.signals ++ b.signals⟩

namespace spQueue

/-- `spQueue.pause` (function `h`): `C.isPaused = !0`. -/
def pause (C : Queue) : Queue :=
  { C with isPaused := true }

/-- The job `$` that `activeFromJobs` picks with
`f.reduce((x, B) => !x && B.status !== b.COMPLETED && B.status !== b.CANCELED ? B : x, null)`. -/
def selectJob (C : Queue) (f : List JobRef) : Option JobRef :=
  f.foldl
    (fun x B =>
      if x.isNone && (C.jobObj B).status != Status.COMPLETED
          && (C.jobObj B).status != Status.CANCELED then some B else x)
    none

/-- `spQueue.activeFromJobs` (function `S(d, f, y = [])`).  The first
component is the returned window, the second lists the photos handed to
`l.uploadPhoto`, in call order.  `U.take(B, I - d.length)` takes nothing when
`I - d.length` is negative, as the truncated subtraction does here. -/
def activeFromJobs (C : Queue) (d : List PhotoRef) (f : List JobRef)
    (y : List (PhotoRef → Bool)) : List PhotoRef × List PhotoRef :=
  if C.isPaused then (d, [])
  else
    match selectJob C f with
    | none => (d, [])
    | some j =>
      if d.length = 5 ∨ (C.jobObj j).photos.isEmpty then (d, [])
      else
        let x := y ++ [fun ae => !(d.contains ae)]
        let B := (C.jobObj j).photos.filter (fun p => x.all (fun t => t p))
        let oe := B.take (5 - d.length)
        if !oe.isEmpty then (d ++ oe, oe) else (d, [])

/-- The body of `spQueue.activateNext` (function `W`):
`C.active = C.activeFromJobs(C.active, C.jobs, [(d) => d.status === v.PENDING])`. -/
def activateNext (C : Queue) : Queue × Effects :=
  let r := activeFromJobs C C.active C.jobs
    [fun p => (C.photoObj p).status == Status.PENDING]
  ({ C with active := r.1 }, ⟨r.2, [], []⟩)

/-- A call of the throttled `W = U.throttle(..., 16)`: it either runs the body
at once (`fire = true`) or is postponed to the trailing edge, which then is
an `activateNext` of its own at a later time. -/
def throttledActivate (fire : Bool) (C : Queue) : Queue × Effects :=
  if fire then activateNext C else (C, Effects.none)

/-- One round of the loop of `resume`:
`f.shouldRetry && (d(f), (f.shouldRetry = !1))` with
`d(f) = ((f.status = v.PENDING), (f.transferred = 0))`. -/
def resetRetry (h : PhotoRef → Photo) (f : PhotoRef) : PhotoRef → Photo :=
  if (h f).shouldRetry then
    Function.update h f
      { h f with status := Status.PENDING, transferred := 0, shouldRetry := false }
  else h

/-- `spQueue.resume` (function `k`) up to, and without, its last call
`C.activateNext()`: the flag is cleared, the photos of the window that are
flagged `shouldRetry` are reset, and
`C.active = U.reject(C.active, { status: v.PENDING })`. -/
def resumeBody (C : Queue) : Queue :=
  let heap := C.active.foldl resetRetry C.photoObj
  { C with
    isPaused := false
    photoObj := heap
    active := C.active.filter (fun p => (heap p).status != Status.PENDING) }

/-- `spQueue.resume` (function `k`). -/
def resume (fire : Bool) (C : Queue) : Queue × Effects :=
  throttledActivate fire (resumeBody C)

/-- One round of the `map` of `cancel`, on the photo store and the list of
request ids handed to `l.abortRequest`:
`f.status <= v.IN_PROGRESS && (l.abortRequest(f.requestId), (f.status = v.CANCELED), (f.transferred = 1))`. -/
def cancelPhoto (s : (PhotoRef → Photo) × List String) (f : PhotoRef) :
    (PhotoRef → Photo) × List String :=
  if (s.1 f).status.toNat ≤ Status.IN_PROGRESS.toNat then
    (Function.update s.1 f { s.1 f with status := Status.CANCELED, transferred := 1 },
      s.2 ++ [(s.1 f).requestId])
  else s

/-- `spQueue.cancel` (function `O(d)`): the window is emptied, the job gets
`progress = 1` and `status = CANCELED`, and its photos are mapped in place.
The effects list the `abortRequest` calls.  (`C.persist()` only writes
`C.jobs` to the store.) -/
def cancel (C : Queue) (d : JobRef) : Queue × Effects :=
  let job := C.jobObj d
  let r := job.photos.foldl cancelPhoto (C.photoObj, [])
  ({ C with
      active := []
      jobObj := Function.update C.jobObj d
        { job with progress := some 1, status := Status.CANCELED }
      photoObj := r.1 },
    ⟨[], r.2, []⟩)

/-- The quotient `y.photos.reduce(I, 0) / y.photos.length` of
`uploadCompleteHandler`, with `I($, x) = $ + x.transferred`; `0 / 0` is
`NaN`. -/
def meanTransferred (C : Queue) (photos : List PhotoRef) : Option ℚ :=
  if photos.length = 0 then none
  else some (photos.foldl (fun s x => s + (C.photoObj x).transferred) 0 / photos.length)

/-- The status part of `uploadCompleteHandler`, for a job whose status is
PENDING or IN_PROGRESS: the new status and whether `spQueue:uploadComplete`
is broadcast.  All three comparisons are false on `NaN`. -/
def statusFromProgress (progress : Option ℚ) : Status × Bool :=
  if progress = some 0 then (Status.PENDING, false)
  else if (match progress with
      | some q => decide (q > 0) && decide (q < 1)
      | none => false) then (Status.IN_PROGRESS, false)
  else (Status.COMPLETED, true)

/-- `spQueue.uploadCompleteHandler` (function `J(d, f)`), `photo` being
`f.photo`.  The result is `none` when `U.find(C.jobs, { id: f.photo.jobId })`
finds no job, where the source throws on `y.photos` before changing
anything. -/
def uploadCompleteHandler (fire : Bool) (C : Queue) (photo : PhotoRef) :
    Option (Queue × Effects) :=
  match C.jobs.find? (fun j => (C.jobObj j).id == (C.photoObj photo).jobId) with
  | none => none
  | some y =>
    let job := C.jobObj y
    let progress := meanTransferred C job.photos
    let upd : Status × Bool :=
      if job.status = Status.PENDING ∨ job.status = Status.IN_PROGRESS then
        statusFromProgress progress
      else (job.status, false)
    let C1 : Queue :=
      { C with
        jobObj := Function.update C.jobObj y
          { job with progress := progress, status := upd.1 } }
    let sig : Effects := ⟨[], [], if upd.2 then [y] else []⟩
    if (C.photoObj photo).status = Status.COMPLETED then
      let C2 : Queue :=
        { C1 with
          active := C1.active.filter
            (fun p => (C1.photoObj p).path != (C1.photoObj photo).path) }
      let r := throttledActivate fire C2
      some (r.1, sig.append r.2)
    else some (C1, sig)

/-- The objects that `jobFromStaging` creates: the photo objects `ps` are
stored at fresh references, and the job object `B` at a fresh reference with
these photos as its `photos`. -/
def newJob (C : Queue) (B : Job) (ps : List Photo) : Queue × JobRef :=
  let refs := (List.range ps.length).map (fun i => C.nextPhoto + i)
  let heap := (ps.zip refs).foldl (fun h pr => Function.update h pr.2 pr.1) C.photoObj
  ({ C with
      photoObj := heap
      nextPhoto := C.nextPhoto + ps.length
      jobObj := Function.update C.jobObj C.nextJob { B with photos := refs }
      nextJob := C.nextJob + 1 },
    C.nextJob)

/-- The last step of `spQueue.enqueueJobFromStaging` (function `se`) once the
job `f` is built: `C.jobs = C.jobs.concat(f)`. -/
def enqueueJob (C : Queue) (B : Job) (ps : List Photo) : Queue :=
  let r := newJob C B ps
  { r.1 with jobs := r.1.jobs ++ [r.2] }

end spQueue

namespace spApi

/-- The two messages that `uploadPhoto` compares `H.msg` with. -/
def planLimitMsg : String :=
  "Studio has reached the photo plan limit, please upgrade your plan or delete photos."

def galleryLimitMsg : String :=
  "The event has reached the maximum photo limit of 100000, please delete photos and retry your upload."

/-- What `uploadPhoto` broadcasts on the root scope. -/
inductive Broadcast where
  | uploadCompleted (photo : PhotoRef)
  | retryUpload (photo : PhotoRef)
deriving DecidableEq, Repr

/-- The start of a transfer in `uploadPhoto` (function `K(te, P)`):
`P.socketError = void 0`; nothing else of the photo is touched. -/
def uploadStart (h : PhotoRef → Photo) (P : PhotoRef) : PhotoRef → Photo :=
  Function.update h P { h P with socketError := none }

/-- The `progress` handler of `uploadPhoto`, `X` being `q.loaded / q.total`:
`P.transferred = X`, then PENDING when `X === 0` and IN_PROGRESS when
`X > 0 && X < 1`. -/
def onProgress (h : PhotoRef → Photo) (P : PhotoRef) (X : ℚ) : PhotoRef → Photo :=
  Function.update h P
    { h P with
      transferred := X
      status :=
        if X = 0 then Status.PENDING
        else if X > 0 ∧ X < 1 then Status.IN_PROGRESS
        else (h P).status }

/-- The `error` handler of `uploadPhoto`: `P.socketError = q`,
`P.shouldRetry = !0`, then the broadcast of `spApi:retryUpload`. -/
def onStreamError (h : PhotoRef → Photo) (P : PhotoRef) (q : String) :
    (PhotoRef → Photo) × Broadcast :=
  (Function.update h P { h P with socketError := some q, shouldRetry := true },
    Broadcast.retryUpload P)

/-- The `response` handler of `uploadPhoto` for the status code
`q.statusCode` and the parsed body `H` (`none` when `L.fromJson` throws or
yields a falsy value). -/
def onResponse (h : PhotoRef → Photo) (P : PhotoRef) (statusCode : Nat)
    (H : Option Body) : (PhotoRef → Photo) × Broadcast :=
  if statusCode = 504 then
    (Function.update h P { h P with shouldRetry := true }, Broadcast.retryUpload P)
  else
    let ee : Bool := match H with
      | some b => b.stat != some "ok"
      | none => false
    let d : Bool := ee && (match H with
      | some b => b.code == some "limit_reached"
      | none => false)
    let f : Bool := d && (match H with
      | some b => b.msg == some planLimitMsg
      | none => false)
    let y : Bool := d && (match H with
      | some b => b.msg == some galleryLimitMsg
      | none => false)
    if f || y then
      (Function.update h P
        { h P with
          status := Status.PENDING
          transferred := 0
          error := some (if f then ErrorTag.AT_PLAN_PHOTO_LIMIT_ERROR
            else ErrorTag.AT_GALLERY_PHOTO_LIMIT_ERROR) },
        Broadcast.uploadCompleted P)
    else
      let I : Bool := decide (statusCode > 399)
      (Function.update h P
        { h P with
          status := Status.COMPLETED
          transferred := 1
          error := if ee || I then some (ErrorTag.body H) else (h P).error },
        Broadcast.uploadCompleted P)

/-- The duplicate branch of `uploadPhoto`, taken when `w.skipDuplicates` and
the remote check reports the photo: `w.transferred = 1`, `w.duplicate = !0`,
`w.status = c.COMPLETED`, then the broadcast of `spApi:uploadCompleted`. -/
def onDuplicate (h : PhotoRef → Photo) (w : PhotoRef) : (PhotoRef → Photo) × Broadcast :=
  (Function.update h w
    { h w with transferred := 1, duplicate := true, status := Status.COMPLETED },
    Broadcast.uploadCompleted w)

end spApi

namespace spApp

/-- The `spApi:uploadCompleted` handler of the `spApp` controller (function
`k`), `j` being `N.photo`.  The two flags say whether the limit-reached
dialog, respectively the pause dialog, is the top dialog already, in which
case the handler returns before `u.pause()`. -/
def uploadCompleted (limitReachedOpen queuePauseOpen : Bool) (C : Queue)
    (j : PhotoRef) : Queue :=
  if (C.photoObj j).error = some ErrorTag.AT_PLAN_PHOTO_LIMIT_ERROR ∧ limitReachedOpen then C
  else
    let C1 :=
      if (C.photoObj j).error = some ErrorTag.AT_PLAN_PHOTO_LIMIT_ERROR then spQueue.pause C
      else C
    if (C1.photoObj j).error = some ErrorTag.AT_GALLERY_PHOTO_LIMIT_ERROR then
      if queuePauseOpen then C1 else spQueue.pause C1
    else C1

/-- The `spApi:retryUpload` handler of the `spApp` controller (function `J`):
`(N.status = l.PENDING), (N.transferred = 0), u.isPaused || u.resume()`. -/
def retryUpload (fire : Bool) (C : Queue) (N : PhotoRef) : Queue × Effects :=
  let C1 : Queue :=
    { C with
      photoObj := Function.update C.photoObj N
        { C.photoObj N with status := Status.PENDING, transferred := 0 } }
  if C1.isPaused then (C1, Effects.none) else spQueue.resume fire C1

end spApp

/-- The events that drive the queue: the operations of `spQueue`, the handlers
of `spApp`, and the transfer events of `spApi.uploadPhoto`.  `fire` tells
whether a throttled `activateNext` inside the operation runs at once. -/
inductive Op where
  | enqueue (B : Job) (ps : List Photo)
  | activate
  | pause
  | resume (fire : Bool)
  | complete (photo : PhotoRef) (fire : Bool)
  | retry (photo : PhotoRef) (fire : Bool)
  | cancel (d : JobRef)
  | appCompleted (photo : PhotoRef) (limitReachedOpen queuePauseOpen : Bool)
  | start (photo : PhotoRef)
  | progress (photo : PhotoRef) (X : ℚ)
  | streamError (photo : PhotoRef) (q : String)
  | response (photo : PhotoRef) (statusCode : Nat) (H : Option Body)
  | duplicate (photo : PhotoRef)

/-- The state after one event.  A completion event whose job is not found
throws and leaves the state as it was. -/
def step (C : Queue) : Op → Queue
  | .enqueue B ps => spQueue.enqueueJob C B ps
  | .activate => (spQueue.activateNext C).1
  | .pause => spQueue.pause C
  | .resume fire => (spQueue.resume fire C).1
  | .complete photo fire =>
    match spQueue.uploadCompleteHandler fire C photo with
    | some r => r.1
    | none => C
  | .retry photo fire => (spApp.retryUpload fire C photo).1
  | .cancel d => (spQueue.cancel C d).1
  | .appCompleted photo a b => spApp.uploadCompleted a b C photo
  | .start photo => { C with photoObj := spApi.uploadStart C.photoObj photo }
  | .progress photo X => { C with photoObj := spApi.onProgress C.photoObj photo X }
  | .streamError photo q => { C with photoObj := (spApi.onStreamError C.photoObj photo q).1 }
  | .response photo code H => { C with photoObj := (spApi.onResponse C.photoObj photo code H).1 }
  | .duplicate photo => { C with photoObj := (spApi.onDuplicate C.photoObj photo).1 }

/-- The state after a sequence of events. -/
def run (C : Queue) (ops : List Op) : Queue :=
  ops.foldl step C

/-! ## Reference definitions after the specification, and sample states -/

namespace spQueue

/-- Whether the status of job `j` is neither COMPLETED nor CANCELED. -/
def nonTerminal (C : Queue) (j : JobRef) : Bool :=
  (C.jobObj j).status != Status.COMPLETED && (C.jobObj j).status != Status.CANCELED

/-- A photo is eligible when its status is PENDING and it is not already in
the window. -/
def eligible (C : Queue) (window : List PhotoRef) (p : PhotoRef) : Bool :=
  (C.photoObj p).status == Status.PENDING && !(window.contains p)

/-- Reference for `activate`, after the words of the specification: a no-op
when paused; otherwise the old window followed by the first
`min (5 − |window|) k` eligible photos of the selected job, `k` being the
number of its eligible photos; a transfer is started for the added photos.
The selected job is the first one that is neither COMPLETED nor CANCELED. -/
def activateReference (C : Queue) (window : List PhotoRef) (jobs : List JobRef) :
    List PhotoRef × List PhotoRef :=
  if C.isPaused then (window, [])
  else
    match jobs.find? (nonTerminal C) with
    | none => (window, [])
    | some j =>
      let elig := (C.jobObj j).photos.filter (eligible C window)
      let added := elig.take (min ((5 : ℤ) - window.length) elig.length).toNat
      (window ++ added, added)

/-- The job that `activate` draws from according to the specification: the
first job in queue order that is neither COMPLETED nor CANCELED and still has
a PENDING photo outside the window. -/
def selectJobSpec (C : Queue) (window : List PhotoRef) (jobs : List JobRef) :
    Option JobRef :=
  jobs.find? (fun j => nonTerminal C j && (C.jobObj j).photos.any (eligible C window))

end spQueue

/-- A photo object right after `jobFromStaging`, with the given path, job id,
`transferred` and status. -/
def examplePhoto (path jobId : String) (transferred : ℚ) (status : Status) : Photo :=
  { requestId := path
    path := path
    jobId := jobId
    albumPath := ""
    albumId := none
    size := 1
    transferred := transferred
    status := status
    skipDuplicates := true
    duplicate := false
    error := none
    shouldRetry := false
    socketError := none }

/-- A job object with the given id, status and photos. -/
def exampleJob (id : String) (status : Status) (photos : List PhotoRef) : Job :=
  { id := id, status := status, progress := some 0, totalFilesize := some photos.length,
    basePath := none, photos := photos }

/-- The queue at start-up: no job, empty window. -/
def emptyQueue : Queue :=
  { isPaused := false
    jobs := []
    active := []
    jobObj := fun _ => exampleJob "" Status.PENDING []
    photoObj := fun _ => examplePhoto "" "" 0 Status.PENDING
    nextJob := 0
    nextPhoto := 0 }

/-- Seven pending photos of one job. -/
def sevenPhotos : List Photo :=
  (List.range 7).map (fun i => examplePhoto (toString i) "job1" 0 Status.PENDING)

/-- Scenario D: one job with three photos, `transferred = [1, 1, 1/2]`, the
second photo having just completed. -/
def scenarioD : Queue :=
  { isPaused := false
    jobs := [0]
    active := [1, 2]
    jobObj := fun _ => exampleJob "job1" Status.IN_PROGRESS [0, 1, 2]
    photoObj := fun p =>
      if p = 0 then examplePhoto "/a/0.jpg" "job1" 1 Status.COMPLETED
      else if p = 1 then examplePhoto "/a/1.jpg" "job1" 1 Status.COMPLETED
      else examplePhoto "/a/2.jpg" "job1" (1 / 2) Status.IN_PROGRESS
    nextJob := 1
    nextPhoto := 3 }

/-- Two jobs: job 0 is IN_PROGRESS and its only photo 0 is in flight in the
window; job 1 is PENDING with its only photo 1 PENDING and not in the window. -/
def twoJobs : Queue :=
  { isPaused := false
    jobs := [0, 1]
    active := [0]
    jobObj := fun j =>
      if j = 0 then exampleJob "job1" Status.IN_PROGRESS [0]
      else exampleJob "job2" Status.PENDING [1]
    photoObj := fun p =>
      if p = 0 then examplePhoto "/a/0.jpg" "job1" (1 / 2) Status.IN_PROGRESS
      else examplePhoto "/b/1.jpg" "job2" 0 Status.PENDING
    nextJob := 2
    nextPhoto := 2 }

/-- One PENDING job with three PENDING photos, none in the window. -/
def freshJob : Queue :=
  { isPaused := false
    jobs := [0]
    active := []
    jobObj := fun _ => exampleJob "job1" Status.PENDING [0, 1, 2]
    photoObj := fun p => examplePhoto (toString p) "job1" 0 Status.PENDING
    nextJob := 1
    nextPhoto := 3 }

/-- A paused queue whose window holds photo 0, PENDING and not flagged
`shouldRetry` (its transfer has started and has not progressed yet), and
photo 1, IN_PROGRESS and flagged `shouldRetry`. -/
def pausedInFlight : Queue :=
  { isPaused := true
    jobs := [0]
    active := [0, 1]
    jobObj := fun _ => exampleJob "job1" Status.IN_PROGRESS [0, 1, 2]
    photoObj := fun p =>
      if p = 1 then
        { examplePhoto "/a/1.jpg" "job1" (1 / 2) Status.IN_PROGRESS with shouldRetry := true }
      else examplePhoto (toString p) "job1" 0 Status.PENDING
    nextJob := 1
    nextPhoto := 3 }

/-- One job with a COMPLETED photo 0, a PENDING photo 1 and an IN_PROGRESS
photo 2, the last two in the window. -/
def mixedJob : Queue :=
  { isPaused := false
    jobs := [0]
    active := [1, 2]
    jobObj := fun _ => exampleJob "job1" Status.IN_PROGRESS [0, 1, 2]
    photoObj := fun p =>
      if p = 0 then examplePhoto "/a/0.jpg" "job1" 1 Status.COMPLETED
      else if p = 1 then examplePhoto "/a/1.jpg" "job1" 0 Status.PENDING
      else examplePhoto "/a/2.jpg" "job1" (1 / 2) Status.IN_PROGRESS
    nextJob := 1
    nextPhoto := 3 }

/-- The body of a response that reports the plan limit. -/
def planLimitBody : Body :=
  { stat := some "fail", code := some "limit_reached", msg := some spApi.planLimitMsg }

/-- The body of a successful response. -/
def okBody : Body :=
  { stat := some "ok", code := none, msg := none }

/-- A quota response for photo `P`, handled by the queue and by the app (which
pauses), then a resume, the restart of the transfer and a successful response
handled by the queue. -/
def quotaThenSuccess (P : PhotoRef) (fire1 fire2 fire3 : Bool) : List Op :=
  [Op.response P 200 (some planLimitBody), Op.complete P fire1, Op.appCompleted P false false,
    Op.resume fire2, Op.start P, Op.response P 200 (some okBody), Op.complete P fire3]

/-! ## Validation gate, folder scan and album resolution -/

/-- A candidate file: `{ path, size }`. -/
structure PathEntry where
  path : String
  size : Size
deriving DecidableEq, Repr

/-- What `readChunk.sync(path, 0, 262)` followed by `fileType.check` yields for
a file: an exception (caught by `checkPathList`), `null` for an unknown
type, or a result with a `mime`. -/
inductive Sniff where
  | threw
  | unknown
  | type (mime : String)
deriving DecidableEq, Repr

/-- The result of `checkPathList`:
`{ valid, invalid: { unsupported, filesize } }`. -/
structure Checked where
  valid : List PathEntry
  unsupported : List PathEntry
  filesize : List PathEntry
deriving DecidableEq, Repr

/-- An entry of the tree that `inspectTree` reports: a file, a directory with
its children, or an entry of another type (a symbolic link). -/
inductive Node where
  | file (name : String) (size : Nat)
  | dir (name : String) (children : List Node)
  | other (name : String)
deriving Repr

/-- The `name` of an entry. -/
def Node.name : Node → String
  | .file name _ => name
  | .dir name _ => name
  | .other name => name

/-- The test `$.type === "dir"`. -/
def Node.isDir : Node → Bool
  | .dir _ _ => true
  | _ => false

/-- The test `$.type === "file"`. -/
def Node.isFile : Node → Bool
  | .file _ _ => true
  | _ => false

/-- The two rejections of the folder validation:
`"upload.new.errors.tooNested"` and `"upload.new.errors.mixedType"`. -/
inductive TreeError where
  | tooNested
  | mixedType
deriving DecidableEq, Repr

namespace path

/-- The function `path.dirname` of Node (POSIX).  The scan runs from the end of
the path down to index 1: trailing separators are skipped, then the last
segment; `end` is the index of the separator in front of it.  Without such a
separator the result is `/` for a path that starts with one and `.`
otherwise; `//` when `end` is 1 after a leading separator; and the slice up
to `end` otherwise. -/
def dirname (p : String) : String :=
  match p.data with
  | [] => "."
  | c :: body =>
    match (body.reverse.dropWhile (fun x => x == '/')).dropWhile (fun x => x != '/') with
    | [] => if c = '/' then "/" else "."
    | _ :: pre =>
      if c = '/' ∧ pre.isEmpty then "//"
      else String.mk (c :: pre.reverse)

/-- The pieces of `s.split(path.sep)` with `path.sep = "/"`: what stands
between the separators, empty pieces included; there is always one piece. -/
def splitSep : List Char → List (List Char)
  | [] => [[]]
  | c :: cs =>
    if c = '/' then [] :: splitSep cs
    else
      match splitSep cs with
      | [] => [[c]]
      | x :: xs => (c :: x) :: xs

/-- The segment loop of `normalizeString(path, allowAboveRoot)` of Node, on
the pieces of the path; `res` holds the kept segments, last one first.  An
empty piece and `.` are skipped; `..` removes the last kept segment unless
there is none or it is `..` itself, in which case `..` is kept when
`allowAboveRoot` holds. -/
def normalizeSegs (allowAboveRoot : Bool) : List String → List String → List String
  | res, [] => res.reverse
  | res, s :: rest =>
    if s = "" ∨ s = "." then normalizeSegs allowAboveRoot res rest
    else if s = ".." then
      match res with
      | [] => normalizeSegs allowAboveRoot (if allowAboveRoot then [".."] else []) rest
      | t :: ts =>
        if t = ".." then
          normalizeSegs allowAboveRoot (if allowAboveRoot then ".." :: t :: ts else t :: ts) rest
        else normalizeSegs allowAboveRoot ts rest
    else normalizeSegs allowAboveRoot (s :: res) rest

/-- The function `path.normalize` of Node (POSIX). -/
def normalize (p : String) : String :=
  if p.data.isEmpty then "."
  else
    let isAbsolute := p.data.head? == some '/'
    let trailingSeparator := p.data.getLast? == some '/'
    let segs := normalizeSegs (!isAbsolute) [] ((splitSep p.data).map String.mk)
    if segs.isEmpty then
      if isAbsolute then "/" else if trailingSeparator then "./" else "."
    else
      (if isAbsolute then "/" else "") ++ "/".intercalate segs
        ++ (if trailingSeparator then "/" else "")

/-- The function `path.join(...args)` of Node (POSIX) with its normalisation:
the non-empty arguments are joined with `/` and the result is normalised;
`.` when there is no non-empty argument. -/
def joinArgs (args : List String) : String :=
  match args.filter (fun a => a != "") with
  | [] => "."
  | a :: rest => normalize ("/".intercalate (a :: rest))

/-- The function `path.join(a, b)` of Node (POSIX), the two-argument case of
`joinArgs`. -/
def join (a b : String) : String :=
  joinArgs [a, b]

/-- The `root`, `dir` and `base` of `path.parse`. -/
structure Parsed where
  root : String
  dir : String
  base : String
deriving DecidableEq, Repr

/-- The function `path.parse` of Node (POSIX), without `ext` and `name`: the
root is `/` for an absolute path; trailing separators are skipped; `base` is
the last segment; `dir` is what stands before the separator in front of
`base`, or the root when there is no such separator after the root. -/
def parse (p : String) : Parsed :=
  let isAbsolute := p.data.head? == some '/'
  let body := if isAbsolute then p.data.tail else p.data
  let r := body.reverse.dropWhile (fun c => c == '/')
  let rest := r.dropWhile (fun c => c != '/')
  let root := if isAbsolute then "/" else ""
  { root := root
    dir :=
      match rest with
      | [] => root
      | _ :: pre => String.mk ((if isAbsolute then ['/'] else []) ++ pre.reverse)
    base := String.mk (r.takeWhile (fun c => c != '/')).reverse }

end path

/-- The replacement `u.replace(new RegExp("^" + e.escape(l)), "")`: `u` without
its leading `l`, and `u` itself when it does not start with `l`. -/
def dropLeading (l u : String) : String :=
  if l.data.isPrefixOf u.data then String.mk (u.data.drop l.data.length) else u

namespace spQueue

/-- `spQueue.checkPathList` (function `w`): a reduce that pushes each entry
onto one of the three lists.  `I` stays `null` when reading or sniffing
throws. -/
def checkPathList (sniff : String → Sniff) (d : List PathEntry) : Checked :=
  d.foldl
    (fun f y =>
      let I : Option String :=
        match sniff y.path with
        | .type mime => some mime
        | _ => none
      if I.isNone || I != some "image/jpeg" then
        { f with unsupported := f.unsupported ++ [y] }
      else if y.size.exceeds (50 * 1024 ^ 2) then
        { f with filesize := f.filesize ++ [y] }
      else { f with valid := f.valid ++ [y] })
    { valid := [], unsupported := [], filesize := [] }

/-- The filter `K(d) = !/^\./.test(d) && Ie.not(d)`: the name does not start
with a dot and the `junk` package does not list it. -/
def K (junk : String → Bool) (d : String) : Bool :=
  !(d.data.head? == some '.') && !(junk d)

/-- The outcome of `$q.all` on the promises of the children: resolved with
all values when none is rejected, and otherwise rejected with the reason that
`first` picks among the rejections (the one that settles first). -/
def qAll (first : List TreeError → TreeError) (rs : List (Except TreeError Node)) :
    Except TreeError (List Node) :=
  let errs := rs.filterMap (fun r =>
    match r with
    | .error e => some e
    | .ok _ => none)
  if errs.isEmpty then
    .ok (rs.filterMap (fun r =>
      match r with
      | .error _ => none
      | .ok n => some n))
  else .error (first errs)

mutual
/-- The tree validation `R(d, f = 1)`.  `d.children` is filtered in place, so
the tree that is resolved holds the filtered children at every level.  `R`
is only ever applied to directories. -/
def R (junk : String → Bool) (first : List TreeError → TreeError) (f : Nat) :
    Node → Except TreeError Node
  | .dir name children =>
    let kept := children.filter (fun c => K junk c.name)
    if f > 4 then .error TreeError.tooNested
    else
      let y := kept.filter Node.isFile
      let I := kept.filter Node.isDir
      if y.length > 0 ∧ I.length > 0 then .error TreeError.mixedType
      else if I.length > 0 then
        match qAll first (RChildren junk first (f + 1) children) with
        | .ok kids => .ok (.dir name kids)
        | .error e => .error e
      else .ok (.dir name kept)
  | n => .ok n
/-- The children of a directory after the filter, with `R` applied to each
directory among them (`I.map(($) => R($, f + 1))`). -/
def RChildren (junk : String → Bool) (first : List TreeError → TreeError) (f : Nat) :
    List Node → List (Except TreeError Node)
  | [] => []
  | c :: cs =>
    if K junk c.name then
      (if c.isDir then R junk first f c else .ok c) :: RChildren junk first f cs
    else RChildren junk first f cs
end

mutual
/-- `spQueue.folderListFromTree` (function `z(d, f)`), on `f.children`. -/
def folderListFromTree (d : String) : List Node → List String
  | [] => []
  | y :: ys => folderListEntry d y ++ folderListFromTree d ys
/-- The callback of the `map` in `folderListFromTree`: the path of a
directory, followed by the list of its subtree when it has a subdirectory. -/
def folderListEntry (d : String) : Node → List String
  | .dir name children =>
    path.join d name ::
      (if (children.filter Node.isDir).isEmpty then []
        else folderListFromTree (path.join d name) children)
  | _ => []
end

end spQueue

/-- A remote album without its `sub_albums` (`U.omit(l, "sub_albums")`).  Ids
are strings; the falsy id is the empty string. -/
structure Album where
  id : String
  name : String
deriving DecidableEq, Repr

/-- A remote album with its `sub_albums`, `none` when the field is absent. -/
inductive AlbumNode where
  | mk (album : Album) (sub_albums : Option (List AlbumNode))
deriving Repr

/-- An entry `{ path, album }` of the flattened album tree. -/
structure AlbumPathEntry where
  path : String
  album : Album
deriving DecidableEq, Repr

/-- The calls to the remote album service: `createAlbum({ event_id, album_name })`
and `nestAlbum(parentId, childId)`. -/
inductive RemoteCall where
  | createAlbum (event_id : String) (album_name : String)
  | nestAlbum (parentId : String) (childId : String)
deriving DecidableEq, Repr

namespace spAlbum

mutual
/-- `spAlbum.albumPathsFromAlbums` (function `t(g, p)`). -/
def albumPathsFromAlbums (g : String) : List AlbumNode → List AlbumPathEntry
  | [] => []
  | l :: ls => albumPathsEntry g l ++ albumPathsFromAlbums g ls
/-- The callback of the `map` in `albumPathsFromAlbums`; the recursion is
taken when `sub_albums` is present. -/
def albumPathsEntry (g : String) : AlbumNode → List AlbumPathEntry
  | .mk album (some subs) =>
    { path := path.join g album.name, album := album } ::
      albumPathsFromAlbums (path.join g album.name) subs
  | .mk album none => [{ path := path.join g album.name, album := album }]
end

/-- `spAlbum.getMissingAlbums` (function `i(g, p)`):
`U.difference(p, g.map((l) => l.path))`, which keeps the elements of `p`
that are not among the values, in the order of `p`. -/
def getMissingAlbums (g : List AlbumPathEntry) (p : List String) : List String :=
  p.filter (fun x => !((g.map (fun l => l.path)).contains x))

/-- The parent album `_` of the nest phase for the directory `dir`:
`E === -1 ? U.find(p, { path: v.dir }).album : u[E]` with
`E = l.indexOf(v.dir)`; `none` when `U.find` finds nothing, where the source
throws. -/
def parentAlbum (u : List Album) (p : List AlbumPathEntry) (l : List String)
    (dir : String) : Option Album :=
  if l.contains dir then u[l.indexOf dir]?
  else (p.find? (fun e => e.path == dir)).map (fun e => e.album)

/-- The nest phase of `createMissingAlbums` from index `m` on, `bs` being the
created albums and their paths from that index: the calls issued, and the
entries, `none` when a parent lookup throws (the calls of the earlier
indices are issued by then). -/
def nestFrom (nest : String → String → Album) (u : List Album) (p : List AlbumPathEntry)
    (l : List String) : List (Album × String) → List RemoteCall × Option (List AlbumPathEntry)
  | [] => ([], some [])
  | (b, lm) :: bs =>
    let v := path.parse lm
    if v.dir ≠ v.root then
      match parentAlbum u p l v.dir with
      | none => ([], none)
      | some par =>
        let r := nestFrom nest u p l bs
        (RemoteCall.nestAlbum par.id b.id :: r.1,
          r.2.map (fun es => { album := nest par.id b.id, path := lm } :: es))
    else
      let r := nestFrom nest u p l bs
      (r.1, r.2.map (fun es => { album := b, path := lm } :: es))

/-- The albums `u` that the create phase resolves with, index-aligned with
`l`: `create m name` is the album that the `m`-th `createAlbum` call, made
with `album_name = name`, resolves with. -/
def createdAlbums (create : Nat → String → Album) (l : List String) : List Album :=
  (List.range l.length).map (fun m => create m ((l.map (fun u => (path.parse u).base)).getD m ""))

/-- `spAlbum.createMissingAlbums` (function `r(g, p, l)`).  `nest parentId
childId` is the album that `nestAlbum` resolves with.  The first component
lists the remote calls in order; the second is `none` when the promise is
rejected, `some none` when it resolves with `undefined` (empty `l`), and the
resolved list otherwise. -/
def createMissingAlbums (create : Nat → String → Album) (nest : String → String → Album)
    (g : String) (p : List AlbumPathEntry) (l : List String) :
    List RemoteCall × Option (Option (List AlbumPathEntry)) :=
  if l.isEmpty then ([], some none)
  else
    let u := createdAlbums create l
    let r := nestFrom nest u p l (u.zip l)
    (l.map (fun u => RemoteCall.createAlbum g (path.parse u).base) ++ r.1,
      r.2.map (fun es => some (p ++ es)))

/-- `spAlbum.albumFromPhoto` (function `c(g, p)`), on `p.albumPath`:
`(v && v.album.id) || null`. -/
def albumFromPhoto (g : List AlbumPathEntry) (p : Photo) : Option String :=
  let v := path.parse p.albumPath
  let m := dropLeading v.root v.dir
  match g.find? (fun e => e.path == path.join m v.base) with
  | some e => if e.album.id = "" then none else some e.album.id
  | none => none

end spAlbum

/-! ## Reference definitions and sample data for the scan and the albums -/

/-- The three buckets of the validation gate. -/
inductive Bucket where
  | valid
  | unsupported
  | oversize
deriving DecidableEq, Repr

/-- The classification order of the specification: not JPEG (or unreadable)
gives `unsupported`; else a size above 50 MiB gives `oversize`; else
`valid`. -/
def classify (sniff : String → Sniff) (e : PathEntry) : Bucket :=
  if sniff e.path ≠ Sniff.type "image/jpeg" then Bucket.unsupported
  else if e.size.exceeds 52428800 then Bucket.oversize
  else Bucket.valid

/-- Scenario A: `a.jpg` and `b.jpg` are JPEG files, `c.txt` is not, and
`gone.jpg` cannot be read. -/
def scenarioASniff (p : String) : Sniff :=
  if p = "a.jpg" ∨ p = "b.jpg" ∨ p = "edge.jpg" ∨ p = "over.jpg" then Sniff.type "image/jpeg"
  else if p = "gone.jpg" then Sniff.threw
  else if p = "big.png" then Sniff.type "image/png"
  else Sniff.unknown

/-- Scenario A: `a.jpg` (1 MB), `b.jpg` (60 MB), `c.txt`. -/
def scenarioAList : List PathEntry :=
  [⟨"a.jpg", 1048576⟩, ⟨"b.jpg", 62914560⟩, ⟨"c.txt", 10⟩]

/-- Boundary cases: a JPEG of exactly 50 MiB, one of a byte more, a PNG of
60 MB and an unreadable file. -/
def boundaryList : List PathEntry :=
  [⟨"edge.jpg", 52428800⟩, ⟨"over.jpg", 52428801⟩, ⟨"big.png", 62914560⟩, ⟨"gone.jpg", 5⟩]

/-- Reference for the entries that the validation drops: the dot-files, whose
name starts with a dot, and the junk entries, which the `junk` package
lists. -/
def dropped (junk : String → Bool) (name : String) : Bool :=
  name.data.head? = some '.' || junk name

mutual
/-- The tree with the dot-files and junk entries dropped at every level. -/
def filterTree (junk : String → Bool) : Node → Node
  | .dir name cs => .dir name (filterChildren junk cs)
  | n => n
/-- The children that are not dropped, each filtered in turn. -/
def filterChildren (junk : String → Bool) : List Node → List Node
  | [] => []
  | c :: cs =>
    if dropped junk c.name then filterChildren junk cs
    else filterTree junk c :: filterChildren junk cs
end

mutual
/-- The number of levels of directory nesting below an entry: 0 for a
directory without subdirectories, and one more than the deepest subdirectory
otherwise. -/
def height : Node → Nat
  | .dir _ cs => heightChildren cs
  | _ => 0
/-- One more than the height of the deepest directory of the list, 0 when it
holds no directory. -/
def heightChildren : List Node → Nat
  | [] => 0
  | c :: cs => max (if c.isDir then height c + 1 else 0) (heightChildren cs)
end

mutual
/-- Whether some directory of the tree directly contains both a file and a
subdirectory. -/
def anyMixed : Node → Bool
  | .dir _ cs => (cs.any Node.isFile && cs.any Node.isDir) || anyMixedChildren cs
  | _ => false
/-- Whether some entry of the list has a mixed directory. -/
def anyMixedChildren : List Node → Bool
  | [] => false
  | c :: cs => anyMixed c || anyMixedChildren cs
end

/-- A chain of directories `names[0]/names[1]/...` with one file `img.jpg` in
the last one. -/
def chainTree : List String → List Node
  | [] => [Node.file "img.jpg" 1]
  | n :: ns => [Node.dir n (chainTree ns)]

/-- The package `junk`, reduced to two of the names it matches (`^Thumbs\.db$`
and `^Desktop\.ini$`). -/
def sampleJunk (d : String) : Bool :=
  d = "Thumbs.db" ∨ d = "Desktop.ini"

/-- The first rejection in the order of the children. -/
def firstInOrder (es : List TreeError) : TreeError :=
  es.headD TreeError.tooNested

/-- The tree `root/1/2/3/4/img.jpg`. -/
def fourBelow : Node := Node.dir "root" (chainTree ["1", "2", "3", "4"])

/-- The tree `root/1/2/3/4/5/img.jpg`. -/
def fiveBelow : Node := Node.dir "root" (chainTree ["1", "2", "3", "4", "5"])

/-- The tree `root/1/2/3/img.jpg` with a dot-file and a junk file next to the
image. -/
def threeBelow : Node :=
  Node.dir "root" [Node.dir "1" [Node.dir "2" [Node.dir "3"
    [Node.file "img.jpg" 1, Node.file ".hidden" 1, Node.file "Thumbs.db" 1]]]]

/-- The tree `root/A/1/2/3/img.jpg`, `root/B/img.jpg`: no directory holds both
a file and a directory, and the deepest directory lies 4 levels below the
root. -/
def fourDeep : Node :=
  Node.dir "root" [Node.dir "A" (chainTree ["1", "2", "3"]), Node.dir "B" [Node.file "img.jpg" 1]]

/-- The tree `root/.DS_Store`, `root/Thumbs.db`, `root/X/img.jpg`: the root
holds a dot-file and a junk file next to a directory. -/
def hiddenNextToDir : Node :=
  Node.dir "root" [Node.file ".DS_Store" 1, Node.file "Thumbs.db" 1,
    Node.dir "X" [Node.file "img.jpg" 1]]

/-- The tree `root/X/img1.jpg`, `root/X/Y/img2.jpg`: `X` holds a file and a
directory. -/
def mixedTree : Node :=
  Node.dir "root" [Node.dir "X" [Node.file "img1.jpg" 1, Node.dir "Y" [Node.file "img2.jpg" 1]]]

mutual
/-- Reference for `folderListFromTree`: the traversal that recurses into every
directory. -/
def folderListAll (d : String) : List Node → List String
  | [] => []
  | y :: ys => folderListAllEntry d y ++ folderListAll d ys
/-- The path of a directory followed by the list of its subtree. -/
def folderListAllEntry (d : String) : Node → List String
  | .dir name children => path.join d name :: folderListAll (path.join d name) children
  | _ => []
end

mutual
/-- The number of directories at any depth among the entries of a list. -/
def countDirs : List Node → Nat
  | [] => 0
  | y :: ys => countDirsEntry y + countDirs ys
/-- The number of directories of a subtree, its top included. -/
def countDirsEntry : Node → Nat
  | .dir _ children => 1 + countDirs children
  | _ => 0
end

mutual
/-- The directories at any depth, each as the chain of names that leads to it
from the root (`pre` is the chain of the directory that holds the list), in
depth-first order, a directory before its subtree. -/
def dirChains (pre : List String) : List Node → List (List String)
  | [] => []
  | y :: ys => dirChainsEntry pre y ++ dirChains pre ys
/-- The chain of a directory followed by the chains of its subtree. -/
def dirChainsEntry (pre : List String) : Node → List (List String)
  | .dir name children => (pre ++ [name]) :: dirChains (pre ++ [name]) children
  | _ => []
end

/-- The names of a chain joined one after the other by `path.join`, from the
empty path. -/
def joinAll (names : List String) : String :=
  names.foldl path.join ""

/-- A plain entry name: not empty and without separator. -/
def plainName (n : String) : Bool :=
  n.data ≠ [] && !(n.data.contains '/')

/-- The name of a directory entry as a file system lists it: plain, and
neither `.` nor `..`. -/
def entryName (n : String) : Bool :=
  plainName n && n != "." && n != ".."

mutual
/-- A well-formed directory, as a file system holds it: its name is the name
of a directory entry, no two of its subdirectories have the same name, and
its entries are well formed. -/
def wfTree : Node → Bool
  | .dir name children =>
    entryName name && decide (((children.filter Node.isDir).map Node.name).Nodup)
      && wfChildren children
  | _ => true
/-- All entries of the list are well formed. -/
def wfChildren : List Node → Bool
  | [] => true
  | y :: ys => wfTree y && wfChildren ys
end

/-- The children of the root in scenario B without the deep branch: `X` with
its subdirectory `Y`, and `Z`. -/
def sampleChildren : List Node :=
  [Node.dir "X" [Node.dir "Y" [Node.file "img2.jpg" 1]], Node.file "notes.txt" 1,
    Node.dir "Z" [Node.file "img3.jpg" 1]]

/-- The characters of the names of a chain with a separator between two
names. -/
def joinChars : List String → List Char
  | [] => []
  | [n] => n.data
  | n :: m :: ns => n.data ++ '/' :: joinChars (m :: ns)

namespace spAlbum

/-- Whether a path has a parent directory: `v.dir !== v.root`. -/
def hasParent (q : String) : Bool :=
  (path.parse q).dir != (path.parse q).root

/-- The nest call for a created album `x.1` with path `x.2`: none for a
top-level path, and otherwise the call that nests the album under the parent
that `parentAlbum` resolves. -/
def nestCall (u : List Album) (p : List AlbumPathEntry) (l : List String)
    (x : Album × String) : Option RemoteCall :=
  if hasParent x.2 then
    (parentAlbum u p l (path.parse x.2).dir).map (fun par => RemoteCall.nestAlbum par.id x.1.id)
  else none

/-- The entry for a created album `x.1` with path `x.2`: the created album
itself for a top-level path, and the album that the nest call resolves with
otherwise. -/
def nestEntry (nest : String → String → Album) (u : List Album) (p : List AlbumPathEntry)
    (l : List String) (x : Album × String) : AlbumPathEntry :=
  if hasParent x.2 then
    { album := nest (((parentAlbum u p l (path.parse x.2).dir).map (fun par => par.id)).getD "")
        x.1.id
      path := x.2 }
  else { album := x.1, path := x.2 }

end spAlbum

/-- Scenario C: the remote gallery has the album `X`. -/
def existingX : List AlbumPathEntry :=
  [{ path := "X", album := { id := "x1", name := "X" } }]

/-- The album that the `m`-th create call resolves with, in the samples. -/
def sampleCreate (m : Nat) (name : String) : Album :=
  { id := "new" ++ toString m, name := name }

/-- The album that a nest call resolves with, in the samples. -/
def sampleNest (_parentId childId : String) : Album :=
  { id := childId, name := "nested" }

mutual
/-- Reference for `albumPathsFromAlbums`: the albums at any depth in
depth-first order, an album before its sub-albums, each with the chain of
names from the top (`pre` is the chain of the album that holds the list) and
without its sub-albums. -/
def albumChains (pre : List String) : List AlbumNode → List (List String × Album)
  | [] => []
  | l :: ls => albumChainsEntry pre l ++ albumChains pre ls
/-- An album followed by the albums below it. -/
def albumChainsEntry (pre : List String) : AlbumNode → List (List String × Album)
  | .mk album (some subs) =>
    (pre ++ [album.name], album) :: albumChains (pre ++ [album.name]) subs
  | .mk album none => [(pre ++ [album.name], album)]
end

mutual
/-- The number of albums at any depth. -/
def countAlbums : List AlbumNode → Nat
  | [] => 0
  | l :: ls => countAlbumsEntry l + countAlbums ls
/-- The number of albums of a subtree, its top included. -/
def countAlbumsEntry : AlbumNode → Nat
  | .mk _ (some subs) => 1 + countAlbums subs
  | .mk _ none => 1
end

/-- A remote tree: `X` with the sub-album `Y` (which has an empty list of
sub-albums), and `Z` without the field. -/
def sampleAlbums : List AlbumNode :=
  [AlbumNode.mk { id := "x1", name := "X" }
      (some [AlbumNode.mk { id := "y1", name := "Y" } (some [])]),
    AlbumNode.mk { id := "z1", name := "Z" } none]

/-- The entries of `sampleAlbums`. -/
def sampleEntries : List AlbumPathEntry :=
  [{ path := "X", album := { id := "x1", name := "X" } },
    { path := "X/Y", album := { id := "y1", name := "Y" } },
    { path := "Z", album := { id := "z1", name := "Z" } }]


/-! ## Staging, enqueue, restore, the job actions and the offline monitor -/

namespace spQueue

/-- The pieces `T.dirname(p).split(T.sep)` of the directory of a path. -/
def dirComponents (p : String) : List String :=
  (path.splitSep (path.dirname p).data).map String.mk

/-- `U.takeWhile(xs, ($, x) => y[x] === $)` from index `x` on: the leading
elements of `xs` that equal the element of `y` at the same index; `y[x]` is
`undefined` past the end of `y`, which equals no string. -/
def takeWhileIdx (y : List String) : Nat → List String → List String
  | _, [] => []
  | x, s :: rest => if y[x]? = some s then s :: takeWhileIdx y (x + 1) rest else []

/-- `spQueue.basePathFromPathList` (function `N(d)`): `null` for an empty list,
else `T.join("/", ...f)` for the components `f` that the `reduce` over all
entries leaves, starting from the components of the first entry. -/
def basePathFromPathList (d : List PathEntry) : Option String :=
  match d with
  | [] => none
  | d0 :: _ =>
    let f := d.foldl (fun y I => takeWhileIdx y 0 (dirComponents I.path))
      (dirComponents d0.path)
    some (path.joinArgs ("/" :: f))

end spQueue

/-- Whether a value stored in `photo.error` is truthy: an absent property and
a falsy body (`null`) are not; the two constants of `spApi` are non-empty
strings, and a truthy body is truthy. -/
def ErrorTag.truthy : Option ErrorTag → Bool
  | none => false
  | some (ErrorTag.body none) => false
  | some _ => true

namespace spQueue

/-- `spQueue.restore` (function `H(d = [])`), `persisted` being what
`getItem("queue", true)` resolves with, and `none` when it rejects (no item
stored): `C.jobs = f.filter(ee(d))` with
`ee(d) = (f) => d.every((y) => y(f))`.  The objects of the persisted jobs
and photos are in the stores of `C`. -/
def restore (C : Queue) (persisted : Option (List JobRef)) (d : List (JobRef → Bool)) :
    Option Queue :=
  persisted.map (fun f => { C with jobs := f.filter (fun j => d.all (fun y => y j)) })

/-- The predicate that the start-up block hands to `restore`:
`(t) => t.status !== s.COMPLETED || t.errors`. -/
def startupPredicate (C : Queue) (t : JobRef) : Bool :=
  (C.jobObj t).status != Status.COMPLETED || (C.jobObj t).errors

end spQueue

namespace spQueueJobDetail

/-- The filter `l(h)` of the job detail: `h.status === r.COMPLETED && h.error`. -/
def isError (h : Photo) : Bool :=
  h.status == Status.COMPLETED && ErrorTag.truthy h.error

/-- The filter `m(h)` of the job detail:
`h.status === r.COMPLETED && !(l(h) || u(h))` with `u(h) = h.duplicate`. -/
def isComplete (h : Photo) : Bool :=
  h.status == Status.COMPLETED && !(isError h || h.duplicate)

/-- `photosError(h)`: `h.photos.filter(l)`. -/
def photosError (C : Queue) (h : JobRef) : List PhotoRef :=
  (C.jobObj h).photos.filter (fun p => isError (C.photoObj p))

/-- `photosComplete(h)`: `h.photos.filter(m)`. -/
def photosComplete (C : Queue) (h : JobRef) : List PhotoRef :=
  (C.jobObj h).photos.filter (fun p => isComplete (C.photoObj p))

/-- `showClear(h)`: `h.status !== t.IN_PROGRESS`. -/
def showClear (C : Queue) (h : JobRef) : Bool :=
  (C.jobObj h).status != Status.IN_PROGRESS

/-- `showResubmit(h)`: `h.status === t.CANCELED`. -/
def showResubmit (C : Queue) (h : JobRef) : Bool :=
  (C.jobObj h).status == Status.CANCELED

/-- The action `clear` of the job detail (function `W(h)`):
`i.jobs = i.jobs.filter((O) => O.id !== h.id)`; the window `i.active` is not
touched.  (`i.persist` writes the jobs to the store; the rest selects the
job to show.) -/
def clear (C : Queue) (h : JobRef) : Queue :=
  { C with jobs := C.jobs.filter (fun O => (C.jobObj O).id != (C.jobObj h).id) }

/-- The action `resubmit` of the job detail (function `C(h)`).  The new job
object is `Object.assign({}, h, { status: PENDING }, { photos })`, its photos
being copies `Object.assign({}, S, { status: PENDING })` and then
`{ transferred: 0 }` of the photos of `h`; every other property, `progress`
among them, is copied as it is.  The jobs with the id of `h` leave the queue,
the new job is appended, and `i.resume()` runs. -/
def resubmit (fire : Bool) (C : Queue) (h : JobRef) : Queue × Effects :=
  let job := C.jobObj h
  let ps := job.photos.map
    (fun p => { C.photoObj p with status := Status.PENDING, transferred := 0 })
  let r := spQueue.newJob C { job with status := Status.PENDING } ps
  spQueue.resume fire
    { r.1 with
      jobs := C.jobs.filter (fun O => job.id != (C.jobObj O).id) ++ [r.2] }

end spQueueJobDetail

namespace spSettingsBody

/-- What `deauthorize` (function `p`) does to the queue: `r.jobs = []`; the
window `r.active` is not touched. -/
def deauthorize (C : Queue) : Queue :=
  { C with jobs := [] }

end spSettingsBody

namespace spLimitReached

/-- The action `cancelAll` of the limit-reached dialog once confirmed:
`s.jobs.forEach((t) => s.cancel(t))`. -/
def cancelAll (C : Queue) : Queue × Effects :=
  C.jobs.foldl (fun s t => ((spQueue.cancel s.1 t).1, s.2.append (spQueue.cancel s.1 t).2))
    (C, Effects.none)

end spLimitReached

namespace spQueuePause

/-- The filter `i(r)` of the pause dialog:
`r.status === o.PENDING || r.status === o.IN_PROGRESS`. -/
def isActiveJob (C : Queue) (r : JobRef) : Bool :=
  (C.jobObj r).status == Status.PENDING || (C.jobObj r).status == Status.IN_PROGRESS

/-- The function `a(r)` of the pause dialog:
`L.forEach(r, (c) => e.cancel(c)), e.resume()`. -/
def cancelJobs (fire : Bool) (C : Queue) (r : List JobRef) : Queue × Effects :=
  let s := r.foldl
    (fun s t => ((spQueue.cancel s.1 t).1, s.2.append (spQueue.cancel s.1 t).2))
    (C, Effects.none)
  ((spQueue.resume fire s.1).1, s.2.append (spQueue.resume fire s.1).2)

/-- The action `confirmCancelAll(r)` of the pause dialog once confirmed:
`a.call(this, r.filter(i))`. -/
def confirmCancelAll (fire : Bool) (C : Queue) (r : List JobRef) : Queue × Effects :=
  cancelJobs fire C (r.filter (isActiveJob C))

end spQueuePause

namespace spApp

/-- The start value of the counter `E` of the `spApp` controller:
`let E = 3`. -/
def offlineCountStart : Nat := 3

/-- The `isOnline` handler of the `spApp` controller (function `O(S, N)`) on
the counter `E` and the queue: `N ? (E = 0) : (E += 1)`, then, when
`E === 4`, `u.pause()` and the offline dialog.  The result holds the new
counter, the queue, and whether the pause was triggered.  (`i.status = N`
only feeds the display.) -/
def isOnline (E : Nat) (C : Queue) (N : Bool) : Nat × Queue × Bool :=
  let E1 := if N then 0 else E + 1
  if E1 = 4 then (E1, spQueue.pause C, true) else (E1, C, false)

/-- The handler run over a sequence of samples, in order: the last counter,
the last queue, and for every sample whether it triggered the pause. -/
def monitor (E : Nat) (C : Queue) : List Bool → Nat × Queue × List Bool
  | [] => (E, C, [])
  | N :: rest =>
    let r := isOnline E C N
    let t := monitor r.1 r.2.1 rest
    (t.1, t.2.1, r.2.2 :: t.2.2)

end spApp

/-- A queue with two jobs: job 0 is COMPLETED with its only photo COMPLETED,
job 1 is PENDING with its only photo PENDING. -/
def doneAndPending : Queue :=
  { isPaused := true
    jobs := [0, 1]
    active := []
    jobObj := fun j =>
      if j = 0 then { exampleJob "job1" Status.COMPLETED [0] with progress := some 1 }
      else exampleJob "job2" Status.PENDING [1]
    photoObj := fun p =>
      if p = 0 then examplePhoto "/a/0.jpg" "job1" 1 Status.COMPLETED
      else examplePhoto "/b/1.jpg" "job2" 0 Status.PENDING
    nextJob := 2
    nextPhoto := 2 }

/-- The body of a response that reports a failure other than a quota. -/
def failBody : Body :=
  { stat := some "fail", code := some "invalid", msg := some "Invalid photo" }

/-- A persisted queue of one job that is COMPLETED and whose only photo is
COMPLETED and carries the body of a failure response as its error. -/
def completedWithError : Queue :=
  { isPaused := false
    jobs := []
    active := []
    jobObj := fun _ => { exampleJob "job1" Status.COMPLETED [0] with progress := some 1 }
    photoObj := fun _ =>
      { examplePhoto "/a/0.jpg" "job1" 1 Status.COMPLETED with
        error := some (ErrorTag.body (some failBody)) }
    nextJob := 1
    nextPhoto := 1 }

/-- A job whose three photos were handed to the transfer and that was then
canceled: its status is CANCELED and its progress 1, its photos are
CANCELED with `transferred = 1`. -/
def canceledJob : Queue :=
  (spQueue.cancel (spQueue.activateNext freshJob).1 0).1

/-- The children of a directory of the tree; other entries have none. -/
def Node.children : Node → List Node
  | .dir _ children => children
  | _ => []

/-- The `galleryOptions` of the staging draft.  The brand, gallery and
watermark objects are held by their `id`; `none` is `null`. -/
structure GalleryOptions where
  brand : Option String
  gallery : Option String
  watermark : Option String
  skipDuplicates : Bool
deriving DecidableEq, Repr

/-- The staging draft `C.staging`: the properties of the template `M`, and the
properties `checked` and `folderList` that the upload views assign to it
(`none` while absent). -/
structure Staging where
  galleryOptions : GalleryOptions
  basePath : Option String
  pathList : List PathEntry
  fromFolder : Bool
  checked : Option Checked
  folderList : Option (List String)
deriving DecidableEq, Repr

/-- What `pathListToStaging` returns: `{ basePath, checked, pathList }`. -/
structure Staged where
  basePath : Option String
  checked : Checked
  pathList : List PathEntry
deriving DecidableEq, Repr

namespace spQueue

/-- The template `M` of the staging draft. -/
def stagingTemplate : Staging :=
  { galleryOptions := { brand := none, gallery := none, watermark := none, skipDuplicates := true }
    basePath := none
    pathList := []
    fromFolder := false
    checked := none
    folderList := none }

/-- `spQueue.resetStaging` (function `q`): `C.staging = L.copy(M)`. -/
def resetStaging : Staging := stagingTemplate

/-- `spQueue.pathListFromFileList` (function `Y(d, f)`), the files being given
by name together with the size that `inspect` reports for the joined path:
`C.staging.fromFolder = !1`, and `{ pathList, folderList: [] }` is returned.
No other property of the draft is assigned. -/
def pathListFromFileList (staging : Staging) (d : String) (f : List (String × Size)) :
    Staging × List PathEntry × List String :=
  ({ staging with fromFolder := false },
    f.map (fun file => { path := path.join d file.1, size := file.2 }), [])

mutual
/-- `spQueue.pathListFromTree` (function `j(d, f)`), on `f.children`. -/
def pathListFromTree (d : String) : List Node → List PathEntry
  | [] => []
  | y :: ys => pathListEntry d y ++ pathListFromTree d ys
/-- The callback of the `map` in `pathListFromTree`: the list of the subtree
of a directory, and `{ path, size: y.size }` for any other entry, where the
size of an entry that is not a file is `undefined`. -/
def pathListEntry (d : String) : Node → List PathEntry
  | .dir name children => pathListFromTree (path.join d name) children
  | .file name size => [{ path := path.join d name, size := Size.bytes size }]
  | .other name => [{ path := path.join d name, size := Size.undefined }]
end

/-- `spQueue.maybeGetPathListFromFolder` (function `F(d)`), `tree` being what
`inspectTree` reports for `d`: `C.staging.fromFolder = !0` and
`C.staging.basePath = d` are assigned before the scan, then the tree is
validated by `R` and flattened. -/
def maybeGetPathListFromFolder (junk : String → Bool) (first : List TreeError → TreeError)
    (staging : Staging) (d : String) (tree : Node) :
    Staging × Except TreeError (List PathEntry × List String) :=
  ({ staging with fromFolder := true, basePath := some d },
    match R junk first 1 tree with
    | .error e => .error e
    | .ok f => .ok (pathListFromTree d f.children, folderListFromTree "" f.children))

/-- Whether a string-or-null value is truthy: `null` and the empty string are
not. -/
def truthyString : Option String → Bool
  | some s => s != ""
  | none => false

/-- `spQueue.pathListToStaging` (function `P(d)`):
`basePath: C.staging.basePath || C.basePathFromPathList(d)`,
`checked: C.checkPathList(d)`, `pathList: d`. -/
def pathListToStaging (sniff : String → Sniff) (staging : Staging) (d : List PathEntry) :
    Staged :=
  { basePath := if truthyString staging.basePath then staging.basePath
      else basePathFromPathList d
    checked := checkPathList sniff d
    pathList := d }

end spQueue

namespace spUploadNew

/-- The function `b({ pathList: m, folderList: v })` of the upload view, which
follows every selection:
`g.staging = U.assign({}, g.staging, g.pathListToStaging(m), { folderList: v })`. -/
def toStaging (sniff : String → Sniff) (staging : Staging) (m : List PathEntry)
    (v : List String) : Staging :=
  let p := spQueue.pathListToStaging sniff staging m
  { staging with
    basePath := p.basePath
    checked := some p.checked
    pathList := p.pathList
    folderList := some v }

/-- A selection of files in the directory `d`, as in the `change` handler of
the upload view: `b(g.pathListFromFileList(d, files))`. -/
def selectFiles (sniff : String → Sniff) (staging : Staging) (d : String)
    (f : List (String × Size)) : Staging :=
  let r := spQueue.pathListFromFileList staging d f
  toStaging sniff r.1 r.2.1 r.2.2

end spUploadNew

namespace spQueue

/-- The photo object that `jobFromStaging` builds for a valid entry (function
`oe(Z)`), `y` being the id of the job, `rid` the fresh request id and `bp` the
base path of the draft; `albumPath` is
`T.dirname(Z.path).replace(new RegExp("^" + E.escape(bp)), "")`.  The
properties `galleryId` and `watermarkId`, which only feed the upload request,
have no field in `Photo`. -/
def photoFromEntry (y rid bp : String) (skipDuplicates : Bool) (Z : PathEntry) : Photo :=
  { requestId := rid
    path := Z.path
    jobId := y
    albumPath := dropLeading bp (path.dirname Z.path)
    albumId := none
    size := Z.size
    transferred := 0
    status := Status.PENDING
    skipDuplicates := skipDuplicates
    duplicate := false
    error := none
    shouldRetry := false
    socketError := none }

/-- The photo objects `d.checked.valid.map(oe)`, the `i`-th with the request
id `rid i`.  With a valid entry, `oe` throws when the watermark of the draft
is `null` (`d.galleryOptions.watermark.id`) or when its base path is `null`
(`E.escape` expects a string); the result is `none` then. -/
def photosFromStaging (y : String) (rid : Nat → String) (d : Staging) (valid : List PathEntry) :
    Option (List Photo) :=
  if valid.isEmpty then some []
  else
    match d.galleryOptions.watermark, d.basePath with
    | some _, some bp =>
      some ((List.range valid.length).zip valid |>.map
        (fun iz => photoFromEntry y (rid iz.1) bp d.galleryOptions.skipDuplicates iz.2))
    | _, _ => none

/-- `spQueue.jobFromStaging` (function `X(d, f)`), `y` being the fresh id of
the job and `create`, `nest` the answers of the remote album service.  The
first component lists the remote calls.  The second is the job object `B`
(its `photos` are stored by `newJob`) and its photo objects, each with
`albumId: g.albumFromPhoto(B.albumPaths, Q)` where
`B.albumPaths = Z || I`; it is `none` when the promise is rejected: the
gallery of the draft is `null`, `createMissingAlbums` is rejected, the draft
has no `checked`, or `oe` throws. -/
def jobFromStaging (create : Nat → String → Album) (nest : String → String → Album)
    (y : String) (rid : Nat → String) (d : Staging) (f : List AlbumNode) :
    List RemoteCall × Option (Job × List Photo) :=
  match d.galleryOptions.gallery with
  | none => ([], none)
  | some g =>
    let I := spAlbum.albumPathsFromAlbums "" f
    let missing := spAlbum.getMissingAlbums I (d.folderList.getD [])
    let r := spAlbum.createMissingAlbums create nest g I missing
    match r.2, d.checked with
    | some Z, some checked =>
      match photosFromStaging y rid d checked.valid with
      | some photos =>
        let B : Job :=
          { id := y
            status := Status.PENDING
            progress := some 0
            totalFilesize := checked.valid.foldl (fun Q pe => Size.addTo Q pe.size) (some 0)
            basePath := d.basePath
            photos := []
            errors := false }
        (r.1, some (B, photos.map
          (fun Q => { Q with albumId := spAlbum.albumFromPhoto (Z.getD I) Q })))
      | none => (r.1, none)
    | _, _ => (r.1, none)

/-- `spQueue.enqueueJobFromStaging` (function `se(d)`), called with the draft
`C.staging` as both callers do; `albums` is what `getAlbums` resolves with,
`none` when it is rejected.  On success the job is appended
(`C.jobs = C.jobs.concat(f)`) and the draft is reset; the second component
then holds the queue and the draft.  It is `none` when the chain ends in the
`catch` (or `se` throws on a `null` gallery), which leaves the jobs and the
draft as they were. -/
def enqueueJobFromStaging (create : Nat → String → Album) (nest : String → String → Album)
    (y : String) (rid : Nat → String) (albums : Option (List AlbumNode))
    (C : Queue) (d : Staging) : List RemoteCall × Option (Queue × Staging) :=
  match d.galleryOptions.gallery, albums with
  | some _, some f =>
    let r := jobFromStaging create nest y rid d f
    match r.2 with
    | some (B, photos) => (r.1, some (enqueueJob C B photos, resetStaging))
    | none => (r.1, none)
  | _, _ => ([], none)

end spQueue

/-- A sniff that reports a JPEG for the paths that end in `.jpg` and an
unknown type for the others. -/
def sniffByName (p : String) : Sniff :=
  if ".jpg".data.isSuffixOf p.data then Sniff.type "image/jpeg" else Sniff.unknown

/-- A draft after a selection of three files in `/a`, two of them valid, with
a gallery and a watermark chosen. -/
def sampleStaging : Staging :=
  { spUploadNew.selectFiles sniffByName spQueue.stagingTemplate "/a"
      [("1.jpg", 10), ("2.png", 20), ("3.jpg", 30)] with
    galleryOptions :=
      { brand := some "b1", gallery := some "g1", watermark := some "no", skipDuplicates := true } }

/-- A folder `/a` that holds a JPEG file and a symbolic link whose name ends
in `.jpg`. -/
def linkTree : Node :=
  Node.dir "a" [Node.file "1.jpg" 10, Node.other "link.jpg"]

/-- A draft after the scan of the folder `/a` of `linkTree`, with a gallery
and a watermark chosen; the draft is left as it is when the scan fails. -/
def linkStaging : Staging :=
  match spQueue.maybeGetPathListFromFolder sampleJunk firstInOrder spQueue.stagingTemplate
    "/a" linkTree with
  | (s, .ok (m, v)) =>
    { spUploadNew.toStaging sniffByName s m v with
      galleryOptions :=
        { brand := some "b1", gallery := some "g1", watermark := some "no",
          skipDuplicates := true } }
  | (s, .error _) => s

/-- The events of a transfer: the activation and start of transfers, the
progress events with `loaded / total` between 0 and 1, the responses, the
duplicate reports and the completion events. -/
def transferEvent : Op → Bool
  | .activate => true
  | .start _ => true
  | .progress _ X => decide (0 ≤ X) && decide (X ≤ 1)
  | .response _ _ _ => true
  | .duplicate _ => true
  | .complete _ _ => true
  | _ => false

/-- A fresh job with three photos: the transfers start, the first two photos
are sent in full (their last progress event reports `loaded = total`) while
their responses are outstanding, and the third photo is answered with
success. -/
def sentNotAnswered : List Op :=
  [Op.activate, Op.start 0, Op.start 1, Op.start 2,
    Op.progress 0 (1 / 2), Op.progress 0 1, Op.progress 1 (1 / 2), Op.progress 1 1,
    Op.response 2 200 (some okBody)]
/-! ## Theorems -/

open spQueue

theorem activeFromJobs_length_le (C : Queue) (d : List PhotoRef) (f : List JobRef)
    (y : List (PhotoRef → Bool)) (hd : d.length ≤ 5) :
    (activeFromJobs C d f y).1.length ≤ 5 := by
  unfold activeFromJobs
  split_ifs with hp
  · exact hd
  · cases selectJob C f with
    | none => exact hd
    | some j =>
      dsimp only
      generalize List.filter _ (C.jobObj j).photos = B
      split_ifs
      · exact hd
      · have hB := List.length_take_le (5 - d.length) B
        simp only [List.length_append]
        omega
      · exact hd

theorem activateNext_length_le (C : Queue) (hd : C.active.length ≤ 5) :
    (activateNext C).1.active.length ≤ 5 := by
  unfold activateNext
  exact activeFromJobs_length_le C C.active C.jobs _ hd

theorem throttledActivate_length_le (fire : Bool) (C : Queue) (hd : C.active.length ≤ 5) :
    (throttledActivate fire C).1.active.length ≤ 5 := by
  unfold throttledActivate
  split
  · exact activateNext_length_le C hd
  · exact hd

theorem resumeBody_length_le (C : Queue) (hd : C.active.length ≤ 5) :
    (resumeBody C).active.length ≤ 5 := by
  unfold resumeBody
  exact le_trans (List.length_filter_le _ _) hd

theorem resume_length_le (fire : Bool) (C : Queue) (hd : C.active.length ≤ 5) :
    (resume fire C).1.active.length ≤ 5 :=
  throttledActivate_length_le fire _ (resumeBody_length_le C hd)

theorem uploadCompleteHandler_length_le (fire : Bool) (C : Queue) (photo : PhotoRef)
    (r : Queue × Effects) (h : uploadCompleteHandler fire C photo = some r)
    (hd : C.active.length ≤ 5) : r.1.active.length ≤ 5 := by
  unfold uploadCompleteHandler at h
  split at h
  · exact absurd h (by simp)
  · simp only [] at h
    split at h
    · injection h with h
      subst h
      apply throttledActivate_length_le
      exact le_trans (List.length_filter_le _ _) hd
    · injection h with h
      subst h
      exact hd

theorem step_length_le (C : Queue) (op : Op) (hd : C.active.length ≤ 5) :
    (step C op).active.length ≤ 5 := by
  cases op with
  | enqueue B ps => exact hd
  | activate => exact activateNext_length_le C hd
  | pause => exact hd
  | resume fire => exact resume_length_le fire C hd
  | complete photo fire =>
    simp only [step]
    cases h : uploadCompleteHandler fire C photo with
    | none => exact hd
    | some r => exact uploadCompleteHandler_length_le fire C photo r h hd
  | retry photo fire =>
    simp only [step, spApp.retryUpload]
    split
    · exact hd
    · exact resume_length_le fire _ hd
  | cancel d => simp [step, cancel]
  | appCompleted photo a b =>
    simp only [step, spApp.uploadCompleted]
    split
    · exact hd
    · split <;> split <;> (try split) <;> exact hd
  | start photo => exact hd
  | progress photo X => exact hd
  | streamError photo q => exact hd
  | response photo code H => exact hd
  | duplicate photo => exact hd

theorem run_length_le (ops : List Op) (C : Queue) (hd : C.active.length ≤ 5) :
    (run C ops).active.length ≤ 5 := by
  induction ops generalizing C with
  | nil => exact hd
  | cons op ops ih => exact ih (step C op) (step_length_le C op hd)

/-- C1: starting from an empty active window, after any finite sequence of
events (enqueue, activate, pause, resume, completion, retry, cancel, and the
transfer events in between) the active window holds at most 5 photos. -/
theorem C1_active_window_at_most_five (C : Queue) (h : C.active = []) (ops : List Op) :
    (run C ops).active.length ≤ 5 :=
  run_length_le ops C (by simp [h])

theorem foldl_add_eq_sum {α : Type} (g : α → ℚ) (l : List α) (a : ℚ) :
    l.foldl (fun s x => s + g x) a = a + (l.map g).sum := by
  induction l generalizing a with
  | nil => simp
  | cons x l ih => simp [List.foldl_cons, ih, add_assoc]

theorem meanTransferred_eq (C : Queue) (photos : List PhotoRef) (hne : photos ≠ []) :
    meanTransferred C photos =
      some ((photos.map (fun p => (C.photoObj p).transferred)).sum / photos.length) := by
  unfold meanTransferred
  rw [if_neg (by simpa using hne), foldl_add_eq_sum]
  simp

theorem throttledActivate_jobObj (fire : Bool) (C : Queue) :
    (throttledActivate fire C).1.jobObj = C.jobObj := by
  unfold throttledActivate activateNext
  split <;> rfl

theorem throttledActivate_photoObj (fire : Bool) (C : Queue) :
    (throttledActivate fire C).1.photoObj = C.photoObj := by
  unfold throttledActivate activateNext
  split <;> rfl

theorem throttledActivate_signals (fire : Bool) (C : Queue) :
    (throttledActivate fire C).2.signals = [] := by
  unfold throttledActivate activateNext
  split <;> rfl

/-- The job store, the photo store and the broadcasts after
`uploadCompleteHandler`, when the owning job `y` is found. -/
theorem uploadCompleteHandler_found (fire : Bool) (C : Queue) (photo : PhotoRef) (y : JobRef)
    (hfind : C.jobs.find? (fun j => (C.jobObj j).id == (C.photoObj photo).jobId) = some y) :
    ∃ r, uploadCompleteHandler fire C photo = some r ∧
      r.1.photoObj = C.photoObj ∧
      r.1.jobObj = Function.update C.jobObj y
        { C.jobObj y with
          progress := meanTransferred C (C.jobObj y).photos
          status :=
            (if (C.jobObj y).status = Status.PENDING ∨ (C.jobObj y).status = Status.IN_PROGRESS
              then statusFromProgress (meanTransferred C (C.jobObj y).photos)
              else ((C.jobObj y).status, false)).1 } ∧
      r.2.signals =
        if (if (C.jobObj y).status = Status.PENDING ∨ (C.jobObj y).status = Status.IN_PROGRESS
              then statusFromProgress (meanTransferred C (C.jobObj y).photos)
              else ((C.jobObj y).status, false)).2 then [y] else [] := by
  unfold uploadCompleteHandler
  rw [hfind]
  dsimp only
  split_ifs <;>
    simp [throttledActivate_jobObj, throttledActivate_photoObj, throttledActivate_signals,
      Effects.append]

/-- C2: after `uploadCompleteHandler` has processed a completion event for a
photo whose job `y` is found in the queue and has at least one photo, the
progress of `y` is the sum of its photos' `transferred` divided by the number
of its photos. -/
theorem C2_progress_is_mean (fire : Bool) (C : Queue) (photo : PhotoRef) (y : JobRef)
    (hfind : C.jobs.find? (fun j => (C.jobObj j).id == (C.photoObj photo).jobId) = some y)
    (hne : (C.jobObj y).photos ≠ []) :
    ∃ r, uploadCompleteHandler fire C photo = some r ∧
      (r.1.jobObj y).progress =
        some (((r.1.jobObj y).photos.map (fun p => (r.1.photoObj p).transferred)).sum
          / (r.1.jobObj y).photos.length) := by
  obtain ⟨r, hr, hp, hj, -⟩ := uploadCompleteHandler_found fire C photo y hfind
  refine ⟨r, hr, ?_⟩
  rw [hj, hp]
  simp only [Function.update_same]
  exact meanTransferred_eq C _ hne

theorem statusFromProgress_some (q : ℚ) (h0 : 0 ≤ q) (h1 : q ≤ 1) :
    statusFromProgress (some q) =
      if q = 0 then (Status.PENDING, false)
      else if q = 1 then (Status.COMPLETED, true)
      else (Status.IN_PROGRESS, false) := by
  unfold statusFromProgress
  by_cases hq0 : q = 0
  · simp [hq0]
  · by_cases hq1 : q = 1
    · simp [hq1]
    · have hpos : 0 < q := lt_of_le_of_ne h0 (Ne.symm hq0)
      have hlt : q < 1 := lt_of_le_of_ne h1 hq1
      simp [hq0, hq1, hpos, hlt]

theorem mean_mem_unit (C : Queue) (photos : List PhotoRef) (hne : photos ≠ [])
    (hrange : ∀ p ∈ photos, 0 ≤ (C.photoObj p).transferred ∧ (C.photoObj p).transferred ≤ 1) :
    0 ≤ (photos.map (fun p => (C.photoObj p).transferred)).sum / photos.length ∧
      (photos.map (fun p => (C.photoObj p).transferred)).sum / photos.length ≤ 1 := by
  have hlen : (0 : ℚ) < photos.length := by
    have : 0 < photos.length := List.length_pos.mpr hne
    exact_mod_cast this
  have hs0 : 0 ≤ (photos.map (fun p => (C.photoObj p).transferred)).sum := by
    apply List.sum_nonneg
    intro x hx
    obtain ⟨p, hp, rfl⟩ := List.mem_map.mp hx
    exact (hrange p hp).1
  have hs1 : (photos.map (fun p => (C.photoObj p).transferred)).sum ≤ photos.length := by
    have h := List.sum_le_card_nsmul (photos.map (fun p => (C.photoObj p).transferred)) 1
      (by
        intro x hx
        obtain ⟨p, hp, rfl⟩ := List.mem_map.mp hx
        exact (hrange p hp).2)
    simpa using h
  exact ⟨div_nonneg hs0 hlen.le, (div_le_one hlen).mpr hs1⟩

/-- C3: after a completion event for a photo whose job `y` has photos, all
with `transferred` in [0,1]: a PENDING or IN_PROGRESS job becomes PENDING when
the recomputed progress is 0, IN_PROGRESS when it lies strictly between 0 and
1, COMPLETED exactly when it is 1, and `spQueue:uploadComplete` is broadcast
(once, for `y`) exactly when it is 1; a COMPLETED or CANCELED job keeps its
status and nothing is broadcast; no other job object changes. -/
theorem C3_status_follows_progress (fire : Bool) (C : Queue) (photo : PhotoRef) (y : JobRef)
    (hfind : C.jobs.find? (fun j => (C.jobObj j).id == (C.photoObj photo).jobId) = some y)
    (hne : (C.jobObj y).photos ≠ [])
    (hrange : ∀ p ∈ (C.jobObj y).photos,
      0 ≤ (C.photoObj p).transferred ∧ (C.photoObj p).transferred ≤ 1) :
    ∃ r q, uploadCompleteHandler fire C photo = some r ∧
      (r.1.jobObj y).progress = some q ∧
      ((C.jobObj y).status = Status.PENDING ∨ (C.jobObj y).status = Status.IN_PROGRESS →
        (q = 0 → (r.1.jobObj y).status = Status.PENDING) ∧
        (0 < q ∧ q < 1 → (r.1.jobObj y).status = Status.IN_PROGRESS) ∧
        ((r.1.jobObj y).status = Status.COMPLETED ↔ q = 1) ∧
        r.2.signals = if q = 1 then [y] else []) ∧
      ((C.jobObj y).status = Status.COMPLETED ∨ (C.jobObj y).status = Status.CANCELED →
        (r.1.jobObj y).status = (C.jobObj y).status ∧ r.2.signals = []) ∧
      ∀ j, j ≠ y → r.1.jobObj j = C.jobObj j := by
  obtain ⟨r, hr, -, hj, hs⟩ := uploadCompleteHandler_found fire C photo y hfind
  obtain ⟨h0, h1⟩ := mean_mem_unit C _ hne hrange
  refine ⟨r, ((C.jobObj y).photos.map (fun p => (C.photoObj p).transferred)).sum
    / (C.jobObj y).photos.length, hr, ?_, ?_, ?_, ?_⟩
  · rw [hj]
    simp only [Function.update_same]
    exact meanTransferred_eq C _ hne
  · intro hact
    rw [hj, hs, meanTransferred_eq C _ hne, if_pos hact, statusFromProgress_some _ h0 h1]
    simp only [Function.update_same]
    refine ⟨?_, ?_, ?_, ?_⟩
    · intro hq
      simp [hq]
    · rintro ⟨hpos, hlt⟩
      simp [hpos.ne', hlt.ne]
    · split_ifs with hq0 hq1
      · simp [hq0]
      · simp [hq1]
      · simp [hq1]
    · by_cases hq0 : (List.map (fun p => (C.photoObj p).transferred) (C.jobObj y).photos).sum
          / ((C.jobObj y).photos.length : ℚ) = 0
      · simp [hq0]
      · by_cases hq1 : (List.map (fun p => (C.photoObj p).transferred) (C.jobObj y).photos).sum
            / ((C.jobObj y).photos.length : ℚ) = 1
        · simp [hq1]
        · simp [hq0, hq1]
  · intro hterm
    have hna : ¬ ((C.jobObj y).status = Status.PENDING ∨ (C.jobObj y).status = Status.IN_PROGRESS) := by
      rcases hterm with h | h <;> simp [h]
    rw [hj, hs, if_neg hna]
    simp
  · intro j hjy
    rw [hj, Function.update_noteq hjy]

/-- C1 at a sample run: a job of seven photos is enqueued and activated,
paused and resumed, one photo completes, one is retried, the job is canceled
and activation runs again. -/
theorem C1_active_window_at_most_five_witness :
    (run emptyQueue
      [Op.enqueue (exampleJob "job1" Status.PENDING []) sevenPhotos, Op.activate, Op.pause,
        Op.resume true, Op.response 0 200 none, Op.complete 0 true, Op.retry 1 true,
        Op.cancel 0, Op.activate]).active.length ≤ 5 :=
  C1_active_window_at_most_five emptyQueue rfl _

theorem scenarioD_find :
    scenarioD.jobs.find? (fun j => (scenarioD.jobObj j).id == (scenarioD.photoObj 1).jobId)
      = some 0 := by
  decide

/-- Scenario D evaluated: the handler returns, with progress 5/6. -/
theorem scenarioD_result :
    ∃ r, uploadCompleteHandler true scenarioD 1 = some r ∧
      (r.1.jobObj 0).progress = some (5 / 6) := by
  obtain ⟨r, hr, -, hjo, -⟩ := uploadCompleteHandler_found true scenarioD 1 0 scenarioD_find
  refine ⟨r, hr, ?_⟩
  rw [hjo]
  simp only [Function.update_same]
  rw [meanTransferred_eq _ _ (by decide)]
  simp [scenarioD, exampleJob, examplePhoto]
  norm_num

/-- C2 at scenario D: three photos with `transferred = [1, 1, 1/2]` give the
progress 5/6. -/
theorem C2_progress_is_mean_witness :
    ∃ r, uploadCompleteHandler true scenarioD 1 = some r ∧
      (r.1.jobObj 0).progress =
        some (((r.1.jobObj 0).photos.map (fun p => (r.1.photoObj p).transferred)).sum
          / (r.1.jobObj 0).photos.length) ∧
      (r.1.jobObj 0).progress = some (5 / 6) := by
  obtain ⟨r, hr, hp⟩ := C2_progress_is_mean true scenarioD 1 0 scenarioD_find (by decide)
  obtain ⟨r', hr', hp'⟩ := scenarioD_result
  have hrr : r = r' := Option.some.inj (hr.symm.trans hr')
  subst hrr
  exact ⟨r, hr, hp, hp'⟩

theorem scenarioD_range :
    ∀ p ∈ (scenarioD.jobObj 0).photos,
      0 ≤ (scenarioD.photoObj p).transferred ∧ (scenarioD.photoObj p).transferred ≤ 1 := by
  intro p hp
  simp only [scenarioD, exampleJob, List.mem_cons, List.mem_singleton, List.not_mem_nil,
    or_false] at hp
  rcases hp with rfl | rfl | rfl
  · simp [scenarioD, examplePhoto]
  · simp [scenarioD, examplePhoto]
  · simp [scenarioD, examplePhoto]
    norm_num

/-- C3 at scenario D: the job stays IN_PROGRESS at progress 5/6 and nothing is
broadcast. -/
theorem C3_status_follows_progress_witness :
    ∃ r, uploadCompleteHandler true scenarioD 1 = some r ∧
      (r.1.jobObj 0).progress = some (5 / 6) ∧
      (r.1.jobObj 0).status = Status.IN_PROGRESS ∧ r.2.signals = [] := by
  obtain ⟨r, q, hr, hq, hact, -, -⟩ :=
    C3_status_follows_progress true scenarioD 1 0 scenarioD_find (by decide) scenarioD_range
  obtain ⟨r', hr', hp'⟩ := scenarioD_result
  have hrr : r = r' := Option.some.inj (hr.symm.trans hr')
  subst hrr
  have hq56 : q = 5 / 6 := Option.some.inj (hq.symm.trans hp')
  obtain ⟨-, hin, -, hsig⟩ := hact (Or.inr (by rfl))
  refine ⟨r, hr, hp', hin ?_, ?_⟩
  · rw [hq56]; norm_num
  · rw [hsig, hq56]; norm_num

theorem selectJob_foldl (C : Queue) (f : List JobRef) (acc : Option JobRef) :
    f.foldl
      (fun x B =>
        if x.isNone && (C.jobObj B).status != Status.COMPLETED
            && (C.jobObj B).status != Status.CANCELED then some B else x)
      acc = if acc.isSome then acc else f.find? (nonTerminal C) := by
  induction f generalizing acc with
  | nil => cases acc <;> simp
  | cons B f ih =>
    rw [List.foldl_cons, ih]
    cases acc with
    | some a => simp
    | none =>
      by_cases hB : nonTerminal C B = true
      · have hB' := hB
        simp only [nonTerminal] at hB'
        simp [List.find?_cons, hB, hB']
      · have hB' := hB
        simp only [nonTerminal] at hB'
        simp [List.find?_cons, hB, hB']

/-- The reduce of `activeFromJobs` picks the first job in queue order that is
neither COMPLETED nor CANCELED. -/
theorem selectJob_eq_find (C : Queue) (f : List JobRef) :
    selectJob C f = f.find? (nonTerminal C) := by
  unfold selectJob
  rw [selectJob_foldl]
  simp

/-- `activeFromJobs` in closed form: the early returns all agree with adding
the first `5 - d.length` photos of the selected job that pass every
predicate and are not in the window. -/
theorem activeFromJobs_eq (C : Queue) (d : List PhotoRef) (f : List JobRef)
    (y : List (PhotoRef → Bool)) :
    activeFromJobs C d f y =
      if C.isPaused then (d, [])
      else
        match f.find? (nonTerminal C) with
        | none => (d, [])
        | some j =>
          (d ++ ((C.jobObj j).photos.filter
              (fun p => y.all (fun t => t p) && !(d.contains p))).take (5 - d.length),
            ((C.jobObj j).photos.filter
              (fun p => y.all (fun t => t p) && !(d.contains p))).take (5 - d.length)) := by
  unfold activeFromJobs
  rw [selectJob_eq_find]
  by_cases hp : C.isPaused = true
  · simp [hp]
  · simp only [hp, if_false, Bool.false_eq_true]
    cases f.find? (nonTerminal C) with
    | none => rfl
    | some j =>
      simp only [List.all_append, List.all_cons, List.all_nil, Bool.and_true]
      by_cases h5 : d.length = 5
      · simp [h5]
      · by_cases hemp : (C.jobObj j).photos = []
        · simp [hemp]
        · have hne : ¬ (d.length = 5 ∨ (C.jobObj j).photos.isEmpty = true) := by
            simp [h5, hemp]
          rw [if_neg hne]
          generalize List.take (5 - d.length) (List.filter _ (C.jobObj j).photos) = oe
          cases oe with
          | nil => simp
          | cons a oe => simp

theorem take_min_length {α : Type} (n : Nat) (l : List α) :
    l.take (min ((5 : ℤ) - n) l.length).toNat = l.take (5 - n) := by
  rw [List.take_eq_take]
  omega

/-- C4: for the PENDING predicate of `activateNext`, `activeFromJobs` equals
the reference `activateReference` (window unchanged and no transfer when
paused; otherwise the old window followed by the first `min (5 − |window|) k`
eligible photos of the selected job, each of which gets a transfer), and
every photo it adds is a photo of the one selected job. -/
theorem C4_activate_refines_reference (C : Queue) (d : List PhotoRef) (f : List JobRef) :
    activeFromJobs C d f [fun p => (C.photoObj p).status == Status.PENDING]
        = activateReference C d f ∧
      (∀ j, selectJob C f = some j →
        ∀ p ∈ (activeFromJobs C d f [fun p => (C.photoObj p).status == Status.PENDING]).2,
          p ∈ (C.jobObj j).photos) ∧
      (selectJob C f = none →
        (activeFromJobs C d f [fun p => (C.photoObj p).status == Status.PENDING]).2 = []) := by
  rw [activeFromJobs_eq, selectJob_eq_find]
  refine ⟨?_, ?_, ?_⟩
  · unfold activateReference
    by_cases hp : C.isPaused = true
    · simp [hp]
    · simp only [hp, if_false, Bool.false_eq_true]
      cases f.find? (nonTerminal C) with
      | none => rfl
      | some j =>
        simp only [take_min_length, List.all_cons, List.all_nil, Bool.and_true]
        rfl
  · intro j hj p hp
    rw [hj] at hp
    by_cases hpa : C.isPaused = true
    · simp [hpa] at hp
    · simp only [hpa, if_false, Bool.false_eq_true] at hp
      exact (List.mem_filter.mp (List.mem_of_mem_take hp)).1
  · intro hnone
    rw [hnone]
    split_ifs <;> rfl

theorem freshJob_select : selectJob freshJob freshJob.jobs = some 0 := by
  decide

/-- C4 at a sample state: three pending photos and an empty window; all three
are added, and each is a photo of job 0. -/
theorem C4_activate_refines_reference_witness :
    activeFromJobs freshJob [] freshJob.jobs
        [fun p => (freshJob.photoObj p).status == Status.PENDING]
        = activateReference freshJob [] freshJob.jobs ∧
      ∀ p ∈ (activeFromJobs freshJob [] freshJob.jobs
          [fun p => (freshJob.photoObj p).status == Status.PENDING]).2,
        p ∈ (freshJob.jobObj 0).photos :=
  ⟨(C4_activate_refines_reference freshJob [] freshJob.jobs).1,
    (C4_activate_refines_reference freshJob [] freshJob.jobs).2.1 0 freshJob_select⟩

/-- C5, counterexample: in `twoJobs` the first job is not terminal and has no
eligible photo left (its photo is in flight), the second job is not terminal
and has a PENDING photo outside the window, the window holds one photo and the
queue is not paused; the specification selects the second job, yet
`activateNext` adds nothing and starts no transfer. -/
theorem C5_counterexample :
    twoJobs.isPaused = false ∧ twoJobs.active.length < 5 ∧
      nonTerminal twoJobs 0 = true ∧
      (twoJobs.jobObj 0).photos.any (eligible twoJobs twoJobs.active) = false ∧
      nonTerminal twoJobs 1 = true ∧
      (twoJobs.jobObj 1).photos.any (eligible twoJobs twoJobs.active) = true ∧
      selectJobSpec twoJobs twoJobs.active twoJobs.jobs = some 1 ∧
      selectJob twoJobs twoJobs.jobs = some 0 ∧
      (activateNext twoJobs).1.active = twoJobs.active ∧
      (activateNext twoJobs).2.uploads = [] := by
  decide

/-- C5, amended: the job `activeFromJobs` draws from is the first job in queue
order that is neither COMPLETED nor CANCELED, whether or not it has an
eligible photo left; the photos added are the first `5 − |window|` eligible
photos of that job, so nothing is added when it has none, whatever the later
jobs hold. -/
theorem C5_draws_from_first_nonterminal (C : Queue) (d : List PhotoRef) (f : List JobRef) :
    selectJob C f = f.find? (nonTerminal C) ∧
      (∀ j, selectJob C f = some j → C.isPaused = false →
        (activeFromJobs C d f [fun p => (C.photoObj p).status == Status.PENDING]).2
          = ((C.jobObj j).photos.filter (eligible C d)).take (5 - d.length)) ∧
      (∀ j, selectJob C f = some j →
        (C.jobObj j).photos.any (eligible C d) = false →
        activeFromJobs C d f [fun p => (C.photoObj p).status == Status.PENDING] = (d, [])) := by
  refine ⟨selectJob_eq_find C f, ?_, ?_⟩
  · intro j hj hp
    rw [selectJob_eq_find] at hj
    rw [activeFromJobs_eq, hj]
    simp only [hp, if_false, Bool.false_eq_true, List.all_cons, List.all_nil, Bool.and_true]
    rfl
  · intro j hj hnone
    rw [selectJob_eq_find] at hj
    rw [activeFromJobs_eq, hj]
    have hfil : (C.jobObj j).photos.filter
        (fun p => [fun p => (C.photoObj p).status == Status.PENDING].all (fun t => t p)
          && !(d.contains p)) = [] := by
      rw [List.filter_eq_nil_iff]
      intro p hp
      have := List.any_eq_false.mp hnone p hp
      simpa [eligible] using this
    split_ifs
    · rfl
    · simp only [hfil]
      simp

/-- C5 amended, at `twoJobs`: job 0 is selected, has no eligible photo, and
nothing is added. -/
theorem C5_draws_from_first_nonterminal_witness :
    activeFromJobs twoJobs twoJobs.active twoJobs.jobs
      [fun p => (twoJobs.photoObj p).status == Status.PENDING] = (twoJobs.active, []) :=
  (C5_draws_from_first_nonterminal twoJobs twoJobs.active twoJobs.jobs).2.2 0
    (by decide) (by decide)

/-- C6: `activeFromJobs` is idempotent, for every predicate list: applied to
its own result, with the queue unchanged, it returns that window as it is and
starts no transfer. -/
theorem C6_activate_idempotent (C : Queue) (d : List PhotoRef) (f : List JobRef)
    (y : List (PhotoRef → Bool)) :
    activeFromJobs C (activeFromJobs C d f y).1 f y = ((activeFromJobs C d f y).1, []) := by
  rw [activeFromJobs_eq C d f y]
  by_cases hp : C.isPaused = true
  · rw [activeFromJobs_eq]
    simp [hp]
  · simp only [hp, if_false, Bool.false_eq_true]
    cases hfind : f.find? (nonTerminal C) with
    | none =>
      rw [activeFromJobs_eq]
      simp [hp, hfind]
    | some j =>
      simp only []
      rw [activeFromJobs_eq]
      simp only [hp, if_false, Bool.false_eq_true, hfind]
      have key : ((C.jobObj j).photos.filter (fun p => y.all (fun t => t p) &&
          !((d ++ ((C.jobObj j).photos.filter
            (fun p => y.all (fun t => t p) && !(d.contains p))).take (5 - d.length)).contains
              p))).take
          (5 - (d ++ ((C.jobObj j).photos.filter
            (fun p => y.all (fun t => t p) && !(d.contains p))).take (5 - d.length)).length)
          = [] := by
        generalize hB : (C.jobObj j).photos.filter
            (fun p => y.all (fun t => t p) && !(d.contains p)) = B
        by_cases hlen : B.length ≤ 5 - d.length
        · rw [List.take_of_length_le hlen]
          have hfil : (C.jobObj j).photos.filter (fun p => y.all (fun t => t p) &&
              !((d ++ B).contains p)) = [] := by
            rw [List.filter_eq_nil_iff]
            intro p hp
            by_cases hy : (y.all (fun t => t p)) = true
            · by_cases hd : p ∈ d
              · simp [hd]
              · have hpB : p ∈ B := by
                  rw [← hB, List.mem_filter]
                  exact ⟨hp, by simp [hy, hd]⟩
                simp [hpB]
            · simp [hy]
          rw [hfil]
          simp
        · have hl : (List.take (5 - d.length) B).length = 5 - d.length := by
            rw [List.length_take]
            omega
          rw [List.length_append, hl]
          have h0 : 5 - (d.length + (5 - d.length)) = 0 := by omega
          rw [h0, List.take_zero]
      rw [key]
      simp

/-- The photo store after the loop of `resume`: exactly the flagged photos of
the window are reset. -/
theorem foldl_resetRetry (l : List PhotoRef) (h : PhotoRef → Photo) (p : PhotoRef) :
    (l.foldl resetRetry h) p =
      if p ∈ l ∧ (h p).shouldRetry = true then
        { h p with status := Status.PENDING, transferred := 0, shouldRetry := false }
      else h p := by
  induction l generalizing h with
  | nil => simp
  | cons f l ih =>
    rw [List.foldl_cons, ih]
    unfold resetRetry
    by_cases hf : (h f).shouldRetry = true
    · rw [if_pos hf]
      by_cases hpf : p = f
      · subst hpf
        simp [hf]
      · simp [Function.update_noteq hpf, hpf]
    · rw [if_neg hf]
      by_cases hpf : p = f
      · subst hpf
        simp [hf]
      · simp [hpf]

/-- C7, counterexample: in `pausedInFlight` photo 0 is in the window, PENDING
and not flagged `shouldRetry`; after `resume`, before it re-activates, photo 0
is no longer in the window. -/
theorem C7_counterexample :
    0 ∈ pausedInFlight.active ∧ (pausedInFlight.photoObj 0).shouldRetry = false ∧
      0 ∉ (resumeBody pausedInFlight).active := by
  decide

/-- C7, amended: `resume` clears the paused flag and, before it re-activates,
resets each photo of the window that is flagged `shouldRetry` to PENDING with
`transferred = 0` (clearing the flag) and removes from the window exactly the
photos that are then PENDING, that is the flagged ones and those that were
PENDING already; a photo that was not flagged keeps its whole record, and
stays in the window exactly when its status is not PENDING. -/
theorem C7_resume_rejects_pending (C : Queue) :
    (resumeBody C).isPaused = false ∧
      (resumeBody C).active = C.active.filter
        (fun p => !(C.photoObj p).shouldRetry && (C.photoObj p).status != Status.PENDING) ∧
      (∀ p ∈ C.active, (C.photoObj p).shouldRetry = true →
        ((resumeBody C).photoObj p).status = Status.PENDING ∧
        ((resumeBody C).photoObj p).transferred = 0 ∧
        ((resumeBody C).photoObj p).shouldRetry = false ∧
        p ∉ (resumeBody C).active) ∧
      (∀ p, (C.photoObj p).shouldRetry = false →
        (resumeBody C).photoObj p = C.photoObj p) ∧
      (∀ p ∈ C.active, (C.photoObj p).shouldRetry = false →
        (p ∈ (resumeBody C).active ↔ (C.photoObj p).status ≠ Status.PENDING)) := by
  have hact : (resumeBody C).active = C.active.filter
      (fun p => !(C.photoObj p).shouldRetry && (C.photoObj p).status != Status.PENDING) := by
    unfold resumeBody
    simp only []
    apply List.filter_congr
    intro p hp
    rw [foldl_resetRetry]
    by_cases hf : (C.photoObj p).shouldRetry = true
    · simp [hp, hf]
    · simp [hf]
  refine ⟨rfl, hact, ?_, ?_, ?_⟩
  · intro p hp hf
    have hobj : (resumeBody C).photoObj p =
        { C.photoObj p with
          status := Status.PENDING, transferred := 0, shouldRetry := false } := by
      unfold resumeBody
      simp only []
      rw [foldl_resetRetry, if_pos ⟨hp, hf⟩]
    refine ⟨by rw [hobj], by rw [hobj], by rw [hobj], ?_⟩
    rw [hact]
    simp [hf]
  · intro p hf
    unfold resumeBody
    simp only []
    rw [foldl_resetRetry]
    simp [hf]
  · intro p hp hf
    rw [hact]
    simp [hp, hf]

/-- C7 amended, at `pausedInFlight`: the flagged photo 1 is reset and leaves
the window, and the unflagged photo 2 keeps its record. -/
theorem C7_resume_rejects_pending_witness :
    ((resumeBody pausedInFlight).photoObj 1).status = Status.PENDING ∧
      ((resumeBody pausedInFlight).photoObj 1).transferred = 0 ∧
      ((resumeBody pausedInFlight).photoObj 1).shouldRetry = false ∧
      1 ∉ (resumeBody pausedInFlight).active ∧
      (resumeBody pausedInFlight).photoObj 2 = pausedInFlight.photoObj 2 :=
  ⟨((C7_resume_rejects_pending pausedInFlight).2.2.1 1 (by decide) (by decide)).1,
    ((C7_resume_rejects_pending pausedInFlight).2.2.1 1 (by decide) (by decide)).2.1,
    ((C7_resume_rejects_pending pausedInFlight).2.2.1 1 (by decide) (by decide)).2.2.1,
    ((C7_resume_rejects_pending pausedInFlight).2.2.1 1 (by decide) (by decide)).2.2.2,
    (C7_resume_rejects_pending pausedInFlight).2.2.2.1 2 (by decide)⟩

/-- The photo store after the `map` of `cancel`: exactly the photos of the
list that were PENDING or IN_PROGRESS are CANCELED with `transferred = 1`. -/
theorem foldl_cancelPhoto_store (l : List PhotoRef) (s : (PhotoRef → Photo) × List String)
    (p : PhotoRef) :
    (l.foldl cancelPhoto s).1 p =
      if p ∈ l ∧ (s.1 p).status.toNat ≤ Status.IN_PROGRESS.toNat then
        { s.1 p with status := Status.CANCELED, transferred := 1 }
      else s.1 p := by
  induction l generalizing s with
  | nil => simp
  | cons f l ih =>
    rw [List.foldl_cons, ih]
    unfold cancelPhoto
    by_cases hf : (s.1 f).status.toNat ≤ Status.IN_PROGRESS.toNat
    · rw [if_pos hf]
      by_cases hpf : p = f
      · subst hpf
        have hf' := hf
        simp only [Status.toNat] at hf'
        simp [Status.toNat, hf']
      · simp [Function.update_noteq hpf, hpf]
    · rw [if_neg hf]
      by_cases hpf : p = f
      · subst hpf
        simp [hf]
      · simp [hpf]

/-- Request ids already handed to `abortRequest` stay in the list. -/
theorem foldl_cancelPhoto_mono (l : List PhotoRef) (s : (PhotoRef → Photo) × List String)
    (a : String) (ha : a ∈ s.2) : a ∈ (l.foldl cancelPhoto s).2 := by
  induction l generalizing s with
  | nil => exact ha
  | cons f l ih =>
    rw [List.foldl_cons]
    apply ih
    unfold cancelPhoto
    split_ifs
    · exact List.mem_append_left _ ha
    · exact ha

/-- Every PENDING or IN_PROGRESS photo of the list gets its request id handed
to `abortRequest`. -/
theorem foldl_cancelPhoto_aborted (l : List PhotoRef) (s : (PhotoRef → Photo) × List String)
    (p : PhotoRef) (hp : p ∈ l) (hs : (s.1 p).status.toNat ≤ Status.IN_PROGRESS.toNat) :
    (s.1 p).requestId ∈ (l.foldl cancelPhoto s).2 := by
  induction l generalizing s with
  | nil => simp at hp
  | cons f l ih =>
    rw [List.foldl_cons]
    by_cases hpf : p = f
    · subst hpf
      apply foldl_cancelPhoto_mono
      unfold cancelPhoto
      rw [if_pos hs]
      simp
    · have hpl : p ∈ l := by
        rcases List.mem_cons.mp hp with h | h
        · exact absurd h hpf
        · exact h
      have hsame : (cancelPhoto s f).1 p = s.1 p := by
        unfold cancelPhoto
        split_ifs
        · simp [Function.update_noteq hpf]
        · rfl
      have := ih (cancelPhoto s f) hpl (by rw [hsame]; exact hs)
      rw [hsame] at this
      exact this

/-- Every request id handed to `abortRequest` is the one of a photo of the
list that was PENDING or IN_PROGRESS. -/
theorem foldl_cancelPhoto_only (l : List PhotoRef) (s : (PhotoRef → Photo) × List String)
    (a : String) (ha : a ∈ (l.foldl cancelPhoto s).2) :
    a ∈ s.2 ∨ ∃ p ∈ l, (s.1 p).status.toNat ≤ Status.IN_PROGRESS.toNat ∧
      (s.1 p).requestId = a := by
  induction l generalizing s with
  | nil => exact Or.inl ha
  | cons f l ih =>
    rw [List.foldl_cons] at ha
    have hstep : ∀ p, (cancelPhoto s f).1 p = s.1 p ∨
        ((cancelPhoto s f).1 p).status = Status.CANCELED := by
      intro p
      unfold cancelPhoto
      split_ifs
      · by_cases hpf : p = f
        · subst hpf
          right
          simp
        · left
          simp [Function.update_noteq hpf]
      · left
        rfl
    rcases ih (cancelPhoto s f) ha with h | ⟨p, hp, hst, hid⟩
    · unfold cancelPhoto at h
      split_ifs at h with hf
      · rcases List.mem_append.mp h with h | h
        · exact Or.inl h
        · right
          refine ⟨f, List.mem_cons_self _ _, hf, ?_⟩
          exact (List.mem_singleton.mp h).symm
      · exact Or.inl h
    · right
      rcases hstep p with heq | hcan
      · rw [heq] at hst hid
        exact ⟨p, List.mem_cons_of_mem _ hp, hst, hid⟩
      · rw [hcan] at hst
        simp [Status.toNat] at hst

/-- C8: after `cancel`, the job is CANCELED with progress 1 and the same photo
list; each of its photos that was PENDING or IN_PROGRESS is CANCELED with
`transferred = 1` and its request id was handed to `abortRequest`; each of its
photos that was COMPLETED keeps its whole record (status, transferred,
duplicate, error), and no abort is requested for it: every request id handed
to `abortRequest` is the one of a photo of the job that was PENDING or
IN_PROGRESS. -/
theorem C8_cancel_photos (C : Queue) (d : JobRef) :
    ((cancel C d).1.jobObj d).status = Status.CANCELED ∧
      ((cancel C d).1.jobObj d).progress = some 1 ∧
      ((cancel C d).1.jobObj d).photos = (C.jobObj d).photos ∧
      (∀ p ∈ (C.jobObj d).photos,
        (C.photoObj p).status = Status.PENDING ∨ (C.photoObj p).status = Status.IN_PROGRESS →
          ((cancel C d).1.photoObj p).status = Status.CANCELED ∧
          ((cancel C d).1.photoObj p).transferred = 1 ∧
          (C.photoObj p).requestId ∈ (cancel C d).2.aborts) ∧
      (∀ p ∈ (C.jobObj d).photos, (C.photoObj p).status = Status.COMPLETED →
        (cancel C d).1.photoObj p = C.photoObj p) ∧
      (∀ a ∈ (cancel C d).2.aborts, ∃ p ∈ (C.jobObj d).photos,
        ((C.photoObj p).status = Status.PENDING ∨ (C.photoObj p).status = Status.IN_PROGRESS) ∧
          (C.photoObj p).requestId = a) := by
  have hle : ∀ q : Photo, q.status.toNat ≤ Status.IN_PROGRESS.toNat ↔
      (q.status = Status.PENDING ∨ q.status = Status.IN_PROGRESS) := by
    intro q
    cases q.status <;> simp [Status.toNat]
  refine ⟨by simp [cancel], by simp [cancel], by simp [cancel], ?_, ?_, ?_⟩
  · intro p hp hst
    have hs := (hle (C.photoObj p)).mpr hst
    have hobj : (cancel C d).1.photoObj p =
        { C.photoObj p with status := Status.CANCELED, transferred := 1 } := by
      simp only [cancel]
      rw [foldl_cancelPhoto_store, if_pos ⟨hp, hs⟩]
    refine ⟨by rw [hobj], by rw [hobj], ?_⟩
    exact foldl_cancelPhoto_aborted _ (C.photoObj, []) p hp hs
  · intro p _ hst
    simp only [cancel]
    rw [foldl_cancelPhoto_store, if_neg]
    rintro ⟨-, hs⟩
    rw [hle] at hs
    rcases hs with h | h <;> rw [hst] at h <;> exact absurd h (by decide)
  · intro a ha
    rcases foldl_cancelPhoto_only _ (C.photoObj, []) a ha with h | ⟨p, hp, hs, hid⟩
    · simp at h
    · exact ⟨p, hp, (hle _).mp hs, hid⟩

/-- C8 at `mixedJob`: the PENDING photo 1 is CANCELED, with an abort for its
request id, and the COMPLETED photo 0 keeps its record. -/
theorem C8_cancel_photos_witness :
    ((cancel mixedJob 0).1.photoObj 1).status = Status.CANCELED ∧
      ((cancel mixedJob 0).1.photoObj 1).transferred = 1 ∧
      (mixedJob.photoObj 1).requestId ∈ (cancel mixedJob 0).2.aborts ∧
      (cancel mixedJob 0).1.photoObj 0 = mixedJob.photoObj 0 :=
  ⟨((C8_cancel_photos mixedJob 0).2.2.2.1 1 (by decide) (Or.inl (by decide))).1,
    ((C8_cancel_photos mixedJob 0).2.2.2.1 1 (by decide) (Or.inl (by decide))).2.1,
    ((C8_cancel_photos mixedJob 0).2.2.2.1 1 (by decide) (Or.inl (by decide))).2.2,
    (C8_cancel_photos mixedJob 0).2.2.2.2.1 0 (by decide) (by decide)⟩

/-- C9, counterexample: in `twoJobs` photo 0 belongs to job 0 only and is in
the window; after `cancel` of job 1 it is no longer in the window. -/
theorem C9_counterexample :
    0 ∈ (twoJobs.jobObj 0).photos ∧ 0 ∉ (twoJobs.jobObj 1).photos ∧
      0 ∈ twoJobs.active ∧ 0 ∉ (cancel twoJobs 1).1.active := by
  decide

/-- C9, amended: `cancel` empties the whole active window, whichever job the
photos in it belong to; what it leaves as it was is the record of every photo
that is not a photo of the canceled job, and every other job object. -/
theorem C9_cancel_empties_window (C : Queue) (d : JobRef) :
    (cancel C d).1.active = [] ∧
      (∀ p, p ∉ (C.jobObj d).photos → (cancel C d).1.photoObj p = C.photoObj p) ∧
      (∀ j, j ≠ d → (cancel C d).1.jobObj j = C.jobObj j) := by
  refine ⟨rfl, ?_, ?_⟩
  · intro p hp
    simp only [cancel]
    rw [foldl_cancelPhoto_store, if_neg]
    rintro ⟨h, -⟩
    exact hp h
  · intro j hj
    simp [cancel, Function.update_noteq hj]

/-- C9 amended, at `twoJobs`: canceling job 1 leaves the record of photo 0. -/
theorem C9_cancel_empties_window_witness :
    (cancel twoJobs 1).1.active = [] ∧
      (cancel twoJobs 1).1.photoObj 0 = twoJobs.photoObj 0 :=
  ⟨(C9_cancel_empties_window twoJobs 1).1,
    (C9_cancel_empties_window twoJobs 1).2.1 0 (by decide)⟩

theorem onResponse_planLimit (h : PhotoRef → Photo) (P : PhotoRef) :
    (spApi.onResponse h P 200 (some planLimitBody)).1 =
      Function.update h P
        { h P with
          status := Status.PENDING
          transferred := 0
          error := some ErrorTag.AT_PLAN_PHOTO_LIMIT_ERROR } := by
  simp [spApi.onResponse, planLimitBody, spApi.planLimitMsg]

theorem onResponse_ok (h : PhotoRef → Photo) (P : PhotoRef) :
    (spApi.onResponse h P 200 (some okBody)).1 =
      Function.update h P { h P with status := Status.COMPLETED, transferred := 1 } := by
  simp [spApi.onResponse, okBody]

theorem throttledActivate_isPaused (fire : Bool) (C : Queue) :
    (throttledActivate fire C).1.isPaused = C.isPaused := by
  unfold throttledActivate activateNext
  split <;> rfl

theorem uploadCompleteHandler_frame (fire : Bool) (C : Queue) (p : PhotoRef)
    (r : Queue × Effects) (h : uploadCompleteHandler fire C p = some r) :
    r.1.photoObj = C.photoObj ∧ r.1.isPaused = C.isPaused := by
  unfold uploadCompleteHandler at h
  cases hfind : C.jobs.find? (fun j => (C.jobObj j).id == (C.photoObj p).jobId) with
  | none =>
    rw [hfind] at h
    exact absurd h (by simp)
  | some y =>
    rw [hfind] at h
    by_cases hc : (C.photoObj p).status = Status.COMPLETED
    · simp only [hc, if_true] at h
      have h' := Option.some.inj h
      rw [← h']
      exact ⟨by rw [throttledActivate_photoObj], by rw [throttledActivate_isPaused]⟩
    · simp only [hc, if_false] at h
      have h' := Option.some.inj h
      rw [← h']
      exact ⟨rfl, rfl⟩

theorem step_complete_photoObj (C : Queue) (p : PhotoRef) (fire : Bool) :
    (step C (Op.complete p fire)).photoObj = C.photoObj := by
  simp only [step]
  cases h : uploadCompleteHandler fire C p with
  | none => rfl
  | some r => exact (uploadCompleteHandler_frame fire C p r h).1

theorem step_complete_isPaused (C : Queue) (p : PhotoRef) (fire : Bool) :
    (step C (Op.complete p fire)).isPaused = C.isPaused := by
  simp only [step]
  cases h : uploadCompleteHandler fire C p with
  | none => rfl
  | some r => exact (uploadCompleteHandler_frame fire C p r h).2

theorem resume_error (fire : Bool) (C : Queue) (p : PhotoRef) :
    ((resume fire C).1.photoObj p).error = (C.photoObj p).error := by
  unfold resume
  rw [throttledActivate_photoObj]
  unfold resumeBody
  simp only []
  rw [foldl_resetRetry]
  split_ifs <;> rfl

theorem resume_isPaused (fire : Bool) (C : Queue) : (resume fire C).1.isPaused = false := by
  unfold resume
  rw [throttledActivate_isPaused]
  rfl

theorem step_appCompleted_photoObj (C : Queue) (p : PhotoRef) (a b : Bool) :
    (step C (Op.appCompleted p a b)).photoObj = C.photoObj := by
  simp only [step, spApp.uploadCompleted, pause]
  split_ifs <;> rfl

theorem step_resume_error (C : Queue) (fire : Bool) (p : PhotoRef) :
    ((step C (Op.resume fire)).photoObj p).error = (C.photoObj p).error :=
  resume_error fire C p

theorem step_start_error (C : Queue) (q p : PhotoRef) :
    ((step C (Op.start q)).photoObj p).error = (C.photoObj p).error := by
  simp only [step, spApi.uploadStart]
  by_cases hpq : p = q
  · subst hpq
    simp
  · simp [Function.update_noteq hpq]

/-- C10, the failing run: from any state, a quota response for photo `P` sets
it to PENDING with `transferred = 0` and the plan-limit tag, and the app
handler pauses the queue; after the resume and the restart of the transfer, a
successful response leaves `P` COMPLETED and still tagged with the plan-limit
error (nothing clears `error`), the queue is not paused, and the app handler
for this successful response pauses it again. -/
theorem C10_stale_quota_tag (C : Queue) (P : PhotoRef) (fire1 fire2 fire3 : Bool) :
    ((step C (Op.response P 200 (some planLimitBody))).photoObj P).status = Status.PENDING ∧
      ((step C (Op.response P 200 (some planLimitBody))).photoObj P).transferred = 0 ∧
      ((step C (Op.response P 200 (some planLimitBody))).photoObj P).error
        = some ErrorTag.AT_PLAN_PHOTO_LIMIT_ERROR ∧
      (run C [Op.response P 200 (some planLimitBody), Op.complete P fire1,
        Op.appCompleted P false false]).isPaused = true ∧
      ((run C (quotaThenSuccess P fire1 fire2 fire3)).photoObj P).status = Status.COMPLETED ∧
      ((run C (quotaThenSuccess P fire1 fire2 fire3)).photoObj P).error
        = some ErrorTag.AT_PLAN_PHOTO_LIMIT_ERROR ∧
      (run C (quotaThenSuccess P fire1 fire2 fire3)).isPaused = false ∧
      (spApp.uploadCompleted false false (run C (quotaThenSuccess P fire1 fire2 fire3)) P).isPaused
        = true := by
  have h1 : ((step C (Op.response P 200 (some planLimitBody))).photoObj P) =
      { C.photoObj P with
        status := Status.PENDING
        transferred := 0
        error := some ErrorTag.AT_PLAN_PHOTO_LIMIT_ERROR } := by
    simp only [step]
    rw [onResponse_planLimit, Function.update_same]
  have h2 : ((step (step C (Op.response P 200 (some planLimitBody))) (Op.complete P fire1)).photoObj
      P).error = some ErrorTag.AT_PLAN_PHOTO_LIMIT_ERROR := by
    rw [step_complete_photoObj, h1]
  have hrun : run C (quotaThenSuccess P fire1 fire2 fire3) =
      step (step (step (step (step (step (step C (Op.response P 200 (some planLimitBody)))
        (Op.complete P fire1)) (Op.appCompleted P false false)) (Op.resume fire2))
        (Op.start P)) (Op.response P 200 (some okBody))) (Op.complete P fire3) := rfl
  have hpause : (run C [Op.response P 200 (some planLimitBody), Op.complete P fire1,
      Op.appCompleted P false false]).isPaused = true := by
    show (step (step (step C _) _) (Op.appCompleted P false false)).isPaused = true
    generalize hC2 : step (step C (Op.response P 200 (some planLimitBody)))
      (Op.complete P fire1) = C2 at h2
    simp [step, spApp.uploadCompleted, h2, pause]
  have hstore : (run C (quotaThenSuccess P fire1 fire2 fire3)).photoObj P =
      { (step (step (step (step (step C (Op.response P 200 (some planLimitBody)))
          (Op.complete P fire1)) (Op.appCompleted P false false)) (Op.resume fire2))
          (Op.start P)).photoObj P with
        status := Status.COMPLETED, transferred := 1 } := by
    rw [hrun, step_complete_photoObj]
    simp only [step]
    rw [onResponse_ok, Function.update_same]
  have herr : ((run C (quotaThenSuccess P fire1 fire2 fire3)).photoObj P).error
      = some ErrorTag.AT_PLAN_PHOTO_LIMIT_ERROR := by
    rw [hstore]
    show ((step (step (step _ (Op.appCompleted P false false)) (Op.resume fire2))
      (Op.start P)).photoObj P).error = _
    rw [step_start_error, step_resume_error, step_appCompleted_photoObj]
    exact h2
  refine ⟨by rw [h1], by rw [h1], by rw [h1], hpause, by rw [hstore], herr, ?_, ?_⟩
  · rw [hrun, step_complete_isPaused]
    simp only [step]
    exact resume_isPaused fire2 _
  · generalize run C (quotaThenSuccess P fire1 fire2 fire3) = C' at herr
    simp [spApp.uploadCompleted, herr, pause]

open spAlbum

theorem checkPathList_foldl (sniff : String → Sniff) (d : List PathEntry) (acc : Checked) :
    d.foldl
      (fun f y =>
        let I : Option String :=
          match sniff y.path with
          | .type mime => some mime
          | _ => none
        if I.isNone || I != some "image/jpeg" then
          { f with unsupported := f.unsupported ++ [y] }
        else if y.size.exceeds (50 * 1024 ^ 2) then
          { f with filesize := f.filesize ++ [y] }
        else { f with valid := f.valid ++ [y] })
      acc =
    { valid := acc.valid ++ d.filter (fun e => classify sniff e = Bucket.valid)
      unsupported := acc.unsupported ++ d.filter (fun e => classify sniff e = Bucket.unsupported)
      filesize := acc.filesize ++ d.filter (fun e => classify sniff e = Bucket.oversize) } := by
  induction d generalizing acc with
  | nil => simp
  | cons y d ih =>
    rw [List.foldl_cons, ih]
    cases hs : sniff y.path with
    | threw => simp [classify, hs, List.filter_cons]
    | unknown => simp [classify, hs, List.filter_cons]
    | type mime =>
      by_cases hm : mime = "image/jpeg"
      · cases hsz : y.size.exceeds 52428800
        · simp [classify, hs, hm, hsz, List.filter_cons]
        · simp [classify, hs, hm, hsz, List.filter_cons]
      · simp [classify, hs, hm, List.filter_cons]

/-- `checkPathList` sorts the entries by `classify`, keeping the input
order. -/
theorem checkPathList_eq (sniff : String → Sniff) (d : List PathEntry) :
    checkPathList sniff d =
      { valid := d.filter (fun e => classify sniff e = Bucket.valid)
        unsupported := d.filter (fun e => classify sniff e = Bucket.unsupported)
        filesize := d.filter (fun e => classify sniff e = Bucket.oversize) } := by
  unfold checkPathList
  refine (checkPathList_foldl sniff d _).trans ?_
  simp

theorem count_filter_bucket (sniff : String → Sniff) (d : List PathEntry) (e : PathEntry) :
    (d.filter (fun x => classify sniff x = Bucket.valid)).count e
      + (d.filter (fun x => classify sniff x = Bucket.unsupported)).count e
      + (d.filter (fun x => classify sniff x = Bucket.oversize)).count e = d.count e := by
  induction d with
  | nil => simp
  | cons y d ih =>
    cases hc : classify sniff y <;>
      simp only [List.filter_cons, hc, List.count_cons, decide_True, decide_False,
        if_true, if_false, reduceCtorEq] <;> omega

/-- C11: `checkPathList` is a total function of the list and of what reading
and sniffing each file yields (exceptions included), and its result is a
partition: every entry occurs in the three buckets together exactly as often
as in the input, no entry is in two buckets, the bucket sizes add up to the
input length, and each bucket is a sublist of the input (input order). -/
theorem C11_checkPathList_partition (sniff : String → Sniff) (d : List PathEntry) :
    (∀ e, (checkPathList sniff d).valid.count e + (checkPathList sniff d).unsupported.count e
        + (checkPathList sniff d).filesize.count e = d.count e) ∧
      (∀ e, ¬ (e ∈ (checkPathList sniff d).valid ∧ e ∈ (checkPathList sniff d).unsupported) ∧
        ¬ (e ∈ (checkPathList sniff d).valid ∧ e ∈ (checkPathList sniff d).filesize) ∧
        ¬ (e ∈ (checkPathList sniff d).unsupported ∧ e ∈ (checkPathList sniff d).filesize)) ∧
      (checkPathList sniff d).valid.length + (checkPathList sniff d).unsupported.length
        + (checkPathList sniff d).filesize.length = d.length ∧
      (checkPathList sniff d).valid.Sublist d ∧
      (checkPathList sniff d).unsupported.Sublist d ∧
      (checkPathList sniff d).filesize.Sublist d := by
  rw [checkPathList_eq]
  refine ⟨count_filter_bucket sniff d, ?_, ?_, List.filter_sublist _, List.filter_sublist _,
    List.filter_sublist _⟩
  · intro e
    simp only [List.mem_filter, decide_eq_true_eq]
    refine ⟨?_, ?_, ?_⟩
    · rintro ⟨⟨-, h1⟩, ⟨-, h2⟩⟩
      rw [h1] at h2
      exact absurd h2 (by decide)
    · rintro ⟨⟨-, h1⟩, ⟨-, h2⟩⟩
      rw [h1] at h2
      exact absurd h2 (by decide)
    · rintro ⟨⟨-, h1⟩, ⟨-, h2⟩⟩
      rw [h1] at h2
      exact absurd h2 (by decide)
  · induction d with
    | nil => simp
    | cons y d ih =>
      cases hc : classify sniff y <;>
        simp only [List.filter_cons, hc, List.length_cons, decide_True, decide_False,
          if_true, if_false, reduceCtorEq] at ih ⊢ <;> omega

theorem exceeds_iff (s : Size) (n : Nat) :
    s.exceeds n = true ↔ ∃ k, s = Size.bytes k ∧ k > n := by
  cases s with
  | undefined => simp [Size.exceeds]
  | bytes k => simp [Size.exceeds]

theorem not_exceeds_iff (s : Size) (n : Nat) :
    s.exceeds n = false ↔ ∀ k, s = Size.bytes k → k ≤ n := by
  cases s with
  | undefined => simp [Size.exceeds]
  | bytes k => simp [Size.exceeds]

/-- C12: an entry of the list is `unsupported` exactly when reading or sniffing
fails or the sniffed type is not JPEG, whatever its size; it is oversize
exactly when it is a JPEG of more than 50·1024² = 52428800 bytes; it is valid
exactly when it is a JPEG of at most that size (an entry without size, for
which the comparison `size > 52428800` is false, included). -/
theorem C12_classification_order (sniff : String → Sniff) (d : List PathEntry)
    (e : PathEntry) (he : e ∈ d) :
    (e ∈ (checkPathList sniff d).unsupported ↔ sniff e.path ≠ Sniff.type "image/jpeg") ∧
      (e ∈ (checkPathList sniff d).filesize ↔
        sniff e.path = Sniff.type "image/jpeg" ∧
          ∃ k, e.size = Size.bytes k ∧ k > 50 * 1024 ^ 2) ∧
      (e ∈ (checkPathList sniff d).valid ↔
        sniff e.path = Sniff.type "image/jpeg" ∧
          ∀ k, e.size = Size.bytes k → k ≤ 50 * 1024 ^ 2) := by
  rw [checkPathList_eq]
  simp only [List.mem_filter, decide_eq_true_eq, he, true_and]
  have h50 : 50 * 1024 ^ 2 = 52428800 := by norm_num
  rw [h50, ← exceeds_iff, ← not_exceeds_iff]
  unfold classify
  by_cases hj : sniff e.path = Sniff.type "image/jpeg"
  · cases hsz : e.size.exceeds 52428800
    · simp [hj, hsz]
    · simp [hj, hsz]
  · simp [hj]

/-- C12 on scenario A and on the boundary cases: `a.jpg` is valid, `b.jpg`
oversize, `c.txt` unsupported; a JPEG of exactly 52428800 bytes is valid, one
of 52428801 bytes is oversize, a PNG of 60 MB and an unreadable file are
unsupported. -/
theorem C12_classification_order_witness :
    (⟨"b.jpg", 62914560⟩ ∈ (checkPathList scenarioASniff scenarioAList).filesize ↔
        scenarioASniff "b.jpg" = Sniff.type "image/jpeg" ∧
          ∃ k, (62914560 : Size) = Size.bytes k ∧ k > 50 * 1024 ^ 2) ∧
      checkPathList scenarioASniff scenarioAList =
        { valid := [⟨"a.jpg", 1048576⟩], unsupported := [⟨"c.txt", 10⟩],
          filesize := [⟨"b.jpg", 62914560⟩] } ∧
      checkPathList scenarioASniff boundaryList =
        { valid := [⟨"edge.jpg", 52428800⟩],
          unsupported := [⟨"big.png", 62914560⟩, ⟨"gone.jpg", 5⟩],
          filesize := [⟨"over.jpg", 52428801⟩] } :=
  ⟨(C12_classification_order scenarioASniff scenarioAList ⟨"b.jpg", 62914560⟩
      (by decide)).2.1, by decide, by decide⟩
/-- The filter `K` of the validation keeps an entry exactly when it is not
dropped: `K` is false for the dot-files and the junk entries only. -/
theorem K_eq_not_dropped (junk : String → Bool) (d : String) :
    K junk d = !dropped junk d := by
  unfold K dropped
  cases hj : junk d <;> by_cases hd : d.data.head? = some '.' <;> simp [hd]

/-- The filtered children, written with the filter `K` of the validation. -/
theorem filterChildren_cons (junk : String → Bool) (c : Node) (cs : List Node) :
    filterChildren junk (c :: cs)
      = if K junk c.name = true then filterTree junk c :: filterChildren junk cs
        else filterChildren junk cs := by
  rw [filterChildren, K_eq_not_dropped]
  cases dropped junk c.name <;> simp

theorem filterTree_isDir (junk : String → Bool) (c : Node) :
    (filterTree junk c).isDir = c.isDir := by
  cases c <;> simp [filterTree, Node.isDir]

theorem filterTree_isFile (junk : String → Bool) (c : Node) :
    (filterTree junk c).isFile = c.isFile := by
  cases c <;> simp [filterTree, Node.isFile]

theorem filterTree_of_not_isDir (junk : String → Bool) (c : Node) (h : c.isDir = false) :
    filterTree junk c = c := by
  cases c <;> simp [filterTree, Node.isDir] at h ⊢

theorem filterChildren_any_isFile (junk : String → Bool) (cs : List Node) :
    (filterChildren junk cs).any Node.isFile
      = (cs.filter (fun c => K junk c.name)).any Node.isFile := by
  induction cs with
  | nil => simp [filterChildren]
  | cons c cs ih =>
    by_cases hk : K junk c.name = true
    · have hd : dropped junk c.name = false := by
        have := K_eq_not_dropped junk c.name
        rw [hk] at this
        simpa using this.symm
      simp [filterChildren, hk, hd, List.filter_cons, ih, filterTree_isFile]
    · have hd : dropped junk c.name = true := by
        have := K_eq_not_dropped junk c.name
        simp only [Bool.not_eq_true] at hk
        rw [hk] at this
        simpa using this.symm
      simp [filterChildren, hk, hd, List.filter_cons, ih]

theorem filterChildren_any_isDir (junk : String → Bool) (cs : List Node) :
    (filterChildren junk cs).any Node.isDir
      = (cs.filter (fun c => K junk c.name)).any Node.isDir := by
  induction cs with
  | nil => simp [filterChildren]
  | cons c cs ih =>
    by_cases hk : K junk c.name = true
    · have hd : dropped junk c.name = false := by
        have := K_eq_not_dropped junk c.name
        rw [hk] at this
        simpa using this.symm
      simp [filterChildren, hk, hd, List.filter_cons, ih, filterTree_isDir]
    · have hd : dropped junk c.name = true := by
        have := K_eq_not_dropped junk c.name
        simp only [Bool.not_eq_true] at hk
        rw [hk] at this
        simpa using this.symm
      simp [filterChildren, hk, hd, List.filter_cons, ih]

theorem filterChildren_of_no_dir (junk : String → Bool) (cs : List Node)
    (h : (cs.filter (fun c => K junk c.name)).any Node.isDir = false) :
    filterChildren junk cs = cs.filter (fun c => K junk c.name) := by
  induction cs with
  | nil => simp [filterChildren]
  | cons c cs ih =>
    by_cases hk : K junk c.name = true
    · have hd : dropped junk c.name = false := by
        have := K_eq_not_dropped junk c.name
        rw [hk] at this
        simpa using this.symm
      simp only [List.filter_cons, hk, if_true, List.any_cons, Bool.or_eq_false_iff] at h
      simp only [filterChildren, hk, hd, if_true, List.filter_cons, Bool.false_eq_true,
        if_false]
      rw [filterTree_of_not_isDir junk c h.1, ih h.2]
    · have hd : dropped junk c.name = true := by
        have := K_eq_not_dropped junk c.name
        simp only [Bool.not_eq_true] at hk
        rw [hk] at this
        simpa using this.symm
      simp only [List.filter_cons, hk, if_false, Bool.false_eq_true] at h
      simp only [filterChildren, hk, hd, if_true, if_false, List.filter_cons,
        Bool.false_eq_true]
      exact ih h

theorem length_filter_pos_iff_any (p : Node → Bool) (l : List Node) :
    (l.filter p).length > 0 ↔ l.any p = true := by
  induction l with
  | nil => simp
  | cons c l ih =>
    by_cases hp : p c = true
    · simp [List.filter_cons, hp]
    · simp [List.filter_cons, hp, ih]

/-- The validation of a directory, with the tests on the filtered children
written with `any`. -/
theorem R_dir (junk : String → Bool) (first : List TreeError → TreeError) (f : Nat)
    (name : String) (cs : List Node) :
    R junk first f (Node.dir name cs) =
      if f > 4 then Except.error TreeError.tooNested
      else if (filterChildren junk cs).any Node.isFile = true
          ∧ (filterChildren junk cs).any Node.isDir = true then
        Except.error TreeError.mixedType
      else if (filterChildren junk cs).any Node.isDir = true then
        match qAll first (RChildren junk first (f + 1) cs) with
        | .ok kids => .ok (Node.dir name kids)
        | .error e => .error e
      else Except.ok (Node.dir name (cs.filter (fun c => K junk c.name))) := by
  rw [R]
  simp only [length_filter_pos_iff_any, filterChildren_any_isFile, filterChildren_any_isDir]

theorem rejections_map (g : Node → Bool) (e : TreeError) (l : List Node) :
    (l.map (fun c => if g c = true then (Except.error e : Except TreeError Node)
        else Except.ok c)).filterMap
      (fun r =>
        match r with
        | .error e => some e
        | .ok _ => none) = (l.filter g).map (fun _ => e) := by
  induction l with
  | nil => simp
  | cons c l ih =>
    by_cases hg : g c = true
    · simp only [List.map_cons, hg, if_true, List.filterMap_cons, List.filter_cons, ih]
    · simp only [List.map_cons, hg, if_false, List.filterMap_cons, List.filter_cons, ih,
        Bool.false_eq_true]

theorem resolutions_map (g : Node → Bool) (e : TreeError) (l : List Node)
    (hany : l.any g = false) :
    (l.map (fun c => if g c = true then (Except.error e : Except TreeError Node)
        else Except.ok c)).filterMap
      (fun r =>
        match r with
        | .error _ => none
        | .ok n => some n) = l := by
  induction l with
  | nil => simp
  | cons c l ih =>
    simp only [List.any_cons, Bool.or_eq_false_iff] at hany
    simp only [List.map_cons, hany.1, if_false, List.filterMap_cons, ih hany.2,
      Bool.false_eq_true]

/-- `$q.all` on children of which those that satisfy `g` are rejected with
`e` and the others resolved. -/
theorem qAll_map (first : List TreeError → TreeError)
    (hfirst : ∀ es, es ≠ [] → first es ∈ es) (g : Node → Bool) (e : TreeError)
    (l : List Node) :
    qAll first (l.map (fun c => if g c = true then Except.error e else Except.ok c)) =
      if l.any g = true then Except.error e else Except.ok l := by
  unfold qAll
  simp only [rejections_map]
  by_cases hany : l.any g = true
  · have hne : (l.filter g).map (fun _ => e) ≠ [] := by
      obtain ⟨c, hc, hgc⟩ := List.any_eq_true.mp hany
      intro hnil
      have : c ∈ l.filter g := List.mem_filter.mpr ⟨hc, hgc⟩
      rw [List.map_eq_nil_iff] at hnil
      rw [hnil] at this
      simp at this
    have hmem := hfirst _ hne
    obtain ⟨_, -, he⟩ := List.mem_map.mp hmem
    have hemp : ((l.filter g).map (fun _ => e)).isEmpty = false := by
      cases hl : (l.filter g).map (fun _ => e) with
      | nil => exact absurd hl hne
      | cons a t => rfl
    rw [hemp, if_pos hany, ← he]
    simp
  · have hany' : l.any g = false := by simpa using hany
    have hfil : l.filter g = [] := by
      rw [List.filter_eq_nil_iff]
      intro c hc hgc
      have := List.any_eq_true.mpr ⟨c, hc, hgc⟩
      rw [hany'] at this
      exact absurd this (by decide)
    rw [hfil, if_neg hany, resolutions_map g e l hany']
    simp

theorem anyMixedChildren_eq_any (l : List Node) : anyMixedChildren l = l.any anyMixed := by
  induction l with
  | nil => simp [anyMixedChildren]
  | cons c l ih => simp [anyMixedChildren, ih]

theorem anyMixed_of_not_isDir (c : Node) (h : c.isDir = false) : anyMixed c = false := by
  cases c <;> simp [anyMixed, Node.isDir] at h ⊢

theorem lt_heightChildren_iff (n : Nat) (l : List Node) :
    n < heightChildren l ↔ ∃ c ∈ l, c.isDir = true ∧ n < height c + 1 := by
  induction l with
  | nil => simp [heightChildren]
  | cons c l ih =>
    simp only [heightChildren, lt_max_iff, ih, List.mem_cons, exists_eq_or_imp]
    by_cases hd : c.isDir = true
    · simp [hd]
    · simp [hd]

theorem heightChildren_of_no_dir (l : List Node) (h : l.any Node.isDir = false) :
    heightChildren l = 0 := by
  by_contra hne
  have hpos : 0 < heightChildren l := Nat.pos_of_ne_zero hne
  obtain ⟨c, hc, hd, -⟩ := (lt_heightChildren_iff 0 l).mp hpos
  have := List.any_eq_true.mpr ⟨c, hc, hd⟩
  rw [h] at this
  exact absurd this (by decide)

theorem any_deep_iff (f : Nat) (hf : ¬ f > 4) (l : List Node) :
    l.any (fun c => c.isDir && decide (f + 1 + height c > 4)) = true
      ↔ f + heightChildren l > 4 := by
  have h1 : f + heightChildren l > 4 ↔ 4 - f < heightChildren l := by omega
  rw [h1, lt_heightChildren_iff, List.any_eq_true]
  constructor
  · rintro ⟨c, hc, hg⟩
    simp only [Bool.and_eq_true, decide_eq_true_eq] at hg
    exact ⟨c, hc, hg.1, by omega⟩
  · rintro ⟨c, hc, hd, hlt⟩
    refine ⟨c, hc, ?_⟩
    simp only [Bool.and_eq_true, decide_eq_true_eq]
    exact ⟨hd, by omega⟩

mutual
/-- The validation of a tree without mixed directory: too nested exactly when
the level `f` of the directory plus the height of its filtered tree exceeds
4, and the filtered tree otherwise. -/
theorem R_unmixed (junk : String → Bool) (first : List TreeError → TreeError)
    (hfirst : ∀ es, es ≠ [] → first es ∈ es) (f : Nat) :
    ∀ T : Node, T.isDir = true → anyMixed (filterTree junk T) = false →
      R junk first f T =
        if f + height (filterTree junk T) > 4 then Except.error TreeError.tooNested
        else Except.ok (filterTree junk T)
  | .dir name cs, _, hm => by
    rw [R_dir]
    simp only [filterTree, height, anyMixed, Bool.or_eq_false_iff, Bool.and_eq_false_iff] at hm ⊢
    obtain ⟨hhere, hsub⟩ := hm
    by_cases hf : f > 4
    · rw [if_pos hf, if_pos (by omega)]
    · rw [if_neg hf]
      have hnm : ¬ ((filterChildren junk cs).any Node.isFile = true
          ∧ (filterChildren junk cs).any Node.isDir = true) := by
        rintro ⟨h1, h2⟩
        rcases hhere with h | h
        · rw [h1] at h; exact absurd h (by decide)
        · rw [h2] at h; exact absurd h (by decide)
      rw [if_neg hnm]
      by_cases hd : (filterChildren junk cs).any Node.isDir = true
      · rw [if_pos hd, RChildren_unmixed junk first hfirst (f + 1) cs hsub,
          qAll_map first hfirst]
        by_cases hdeep : f + heightChildren (filterChildren junk cs) > 4
        · rw [if_pos ((any_deep_iff f hf _).mpr hdeep), if_pos hdeep]
        · rw [if_neg (fun h => hdeep ((any_deep_iff f hf _).mp h)), if_neg hdeep]
      · have hd' : (filterChildren junk cs).any Node.isDir = false := by simpa using hd
        rw [if_neg hd, heightChildren_of_no_dir _ hd']
        rw [filterChildren_any_isDir] at hd'
        rw [filterChildren_of_no_dir junk cs hd', if_neg (by omega)]
  | .file _ _, h, _ => by simp [Node.isDir] at h
  | .other _, h, _ => by simp [Node.isDir] at h
/-- The promises of the children of a directory without mixed directory below
it. -/
theorem RChildren_unmixed (junk : String → Bool) (first : List TreeError → TreeError)
    (hfirst : ∀ es, es ≠ [] → first es ∈ es) (f : Nat) :
    ∀ cs : List Node, anyMixedChildren (filterChildren junk cs) = false →
      RChildren junk first f cs =
        (filterChildren junk cs).map
          (fun c => if (c.isDir && decide (f + height c > 4)) = true
            then Except.error TreeError.tooNested else Except.ok c)
  | [], _ => by simp [RChildren, filterChildren]
  | c :: cs, hm => by
    by_cases hk : K junk c.name = true
    · simp only [filterChildren_cons, hk, if_true, anyMixedChildren, Bool.or_eq_false_iff] at hm
      rw [RChildren, if_pos hk, RChildren_unmixed junk first hfirst f cs hm.2]
      simp only [filterChildren_cons, hk, if_true, List.map_cons, filterTree_isDir]
      congr 1
      by_cases hd : c.isDir = true
      · rw [if_pos hd, R_unmixed junk first hfirst f c hd hm.1]
        simp [hd]
      · have hd' : c.isDir = false := by simpa using hd
        rw [if_neg hd, filterTree_of_not_isDir junk c hd']
        simp [hd']
    · simp only [filterChildren_cons, hk, if_false, Bool.false_eq_true] at hm
      rw [RChildren, if_neg hk, RChildren_unmixed junk first hfirst f cs hm]
      simp [filterChildren_cons, hk]
end

mutual
/-- The validation of a tree within the nesting limit: the mixed-content
rejection exactly when some directory of the filtered tree is mixed, and the
filtered tree otherwise. -/
theorem R_within (junk : String → Bool) (first : List TreeError → TreeError)
    (hfirst : ∀ es, es ≠ [] → first es ∈ es) (f : Nat) :
    ∀ T : Node, T.isDir = true → f + height (filterTree junk T) ≤ 4 →
      R junk first f T =
        if anyMixed (filterTree junk T) = true then Except.error TreeError.mixedType
        else Except.ok (filterTree junk T)
  | .dir name cs, _, hh => by
    rw [R_dir]
    simp only [filterTree, height, anyMixed] at hh ⊢
    have hf : ¬ f > 4 := by omega
    rw [if_neg hf]
    by_cases hhere : (filterChildren junk cs).any Node.isFile = true
        ∧ (filterChildren junk cs).any Node.isDir = true
    · rw [if_pos hhere]
      simp [hhere.1, hhere.2]
    · rw [if_neg hhere]
      have hhere' : ((filterChildren junk cs).any Node.isFile
          && (filterChildren junk cs).any Node.isDir) = false := by
        simpa using hhere
      rw [hhere', Bool.false_or, anyMixedChildren_eq_any]
      by_cases hd : (filterChildren junk cs).any Node.isDir = true
      · have hkids : ∀ c ∈ filterChildren junk cs, c.isDir = true → f + 1 + height c ≤ 4 := by
          intro c hc hcd
          by_contra hgt
          have : 4 - f < heightChildren (filterChildren junk cs) :=
            (lt_heightChildren_iff _ _).mpr ⟨c, hc, hcd, by omega⟩
          omega
        rw [if_pos hd, RChildren_within junk first hfirst (f + 1) cs hkids,
          qAll_map first hfirst]
        split_ifs <;> rfl
      · have hd' : (filterChildren junk cs).any Node.isDir = false := by simpa using hd
        have hnone : (filterChildren junk cs).any anyMixed = false := by
          rw [List.any_eq_false]
          intro c hc
          have hcd : c.isDir = false := by
            have := List.any_eq_false.mp hd' c hc
            simpa using this
          simp [anyMixed_of_not_isDir c hcd]
        rw [if_neg hd, hnone]
        rw [filterChildren_any_isDir] at hd'
        rw [filterChildren_of_no_dir junk cs hd']
        simp
  | .file _ _, h, _ => by simp [Node.isDir] at h
  | .other _, h, _ => by simp [Node.isDir] at h
/-- The promises of the children of a directory within the nesting limit. -/
theorem RChildren_within (junk : String → Bool) (first : List TreeError → TreeError)
    (hfirst : ∀ es, es ≠ [] → first es ∈ es) (f : Nat) :
    ∀ cs : List Node,
      (∀ c ∈ filterChildren junk cs, c.isDir = true → f + height c ≤ 4) →
      RChildren junk first f cs =
        (filterChildren junk cs).map
          (fun c => if anyMixed c = true
            then Except.error TreeError.mixedType else Except.ok c)
  | [], _ => by simp [RChildren, filterChildren]
  | c :: cs, hh => by
    by_cases hk : K junk c.name = true
    · simp only [filterChildren_cons, hk, if_true, List.mem_cons, forall_eq_or_imp,
        filterTree_isDir] at hh
      rw [RChildren, if_pos hk, RChildren_within junk first hfirst f cs hh.2]
      simp only [filterChildren_cons, hk, if_true, List.map_cons]
      congr 1
      by_cases hd : c.isDir = true
      · rw [if_pos hd, R_within junk first hfirst f c hd (hh.1 hd)]
      · have hd' : c.isDir = false := by simpa using hd
        rw [if_neg hd, filterTree_of_not_isDir junk c hd', anyMixed_of_not_isDir c hd']
        simp
    · simp only [filterChildren_cons, hk, if_false, Bool.false_eq_true] at hh
      rw [RChildren, if_neg hk, RChildren_within junk first hfirst f cs hh]
      simp [filterChildren_cons, hk]
end

theorem firstInOrder_mem (es : List TreeError) (h : es ≠ []) : firstInOrder es ∈ es := by
  cases es with
  | nil => exact absurd rfl h
  | cons e es => simp [firstInOrder]

/-- C13, counterexample: `root/1/2/3/4/img.jpg` has no mixed directory and its
deepest directory lies 4 levels below the root, yet the validation rejects it
as too nested. -/
theorem C13_counterexample :
    anyMixed (filterTree sampleJunk fourBelow) = false ∧
      height (filterTree sampleJunk fourBelow) = 4 ∧
      R sampleJunk firstInOrder 1 fourBelow = Except.error TreeError.tooNested :=
  ⟨by decide, by decide, by rfl⟩

/-- C13, amended: for a tree without mixed directory, the validation (started
at level 1 for the root) fails with the too-nested error exactly when some
kept directory lies more than 3 levels below the root, and it resolves with
the filtered tree when the deepest kept directory lies at most 3 levels below
the root. -/
theorem C13_too_nested_beyond_three (junk : String → Bool)
    (first : List TreeError → TreeError) (hfirst : ∀ es, es ≠ [] → first es ∈ es)
    (name : String) (cs : List Node)
    (hm : anyMixed (filterTree junk (Node.dir name cs)) = false) :
    (R junk first 1 (Node.dir name cs) = Except.error TreeError.tooNested
        ↔ height (filterTree junk (Node.dir name cs)) > 3) ∧
      (height (filterTree junk (Node.dir name cs)) ≤ 3 →
        R junk first 1 (Node.dir name cs) = Except.ok (filterTree junk (Node.dir name cs))) := by
  rw [R_unmixed junk first hfirst 1 (Node.dir name cs) rfl hm]
  constructor
  · constructor
    · intro h
      by_contra hle
      rw [if_neg (by omega)] at h
      exact absurd h (by simp)
    · intro h
      rw [if_pos (by omega)]
  · intro h
    rw [if_neg (by omega)]

/-- C13 amended, on samples: `root/1/2/3/img.jpg` is accepted, with its
dot-file and junk file dropped, and `root/1/2/3/4/5/img.jpg` is rejected as
too nested. -/
theorem C13_too_nested_beyond_three_witness :
    R sampleJunk firstInOrder 1 threeBelow = Except.ok (filterTree sampleJunk threeBelow) ∧
      (R sampleJunk firstInOrder 1 fiveBelow = Except.error TreeError.tooNested
        ↔ height (filterTree sampleJunk fiveBelow) > 3) ∧
      R sampleJunk firstInOrder 1 fiveBelow = Except.error TreeError.tooNested :=
  ⟨(C13_too_nested_beyond_three sampleJunk firstInOrder firstInOrder_mem "root" _
      (by decide)).2 (by decide),
    (C13_too_nested_beyond_three sampleJunk firstInOrder firstInOrder_mem "root" _
      (by decide)).1,
    (C13_too_nested_beyond_three sampleJunk firstInOrder firstInOrder_mem "root" _
      (by decide)).1.mpr (by decide)⟩

/-- C14, counterexample: in `root/A/1/2/3/img.jpg`, `root/B/img.jpg` the
deepest directory lies 4 levels below the root, which is within the four
levels of the nesting limit, and no directory holds both a file and a
directory; yet the validation does not succeed: it rejects the tree as too
nested. -/
theorem C14_counterexample :
    height (filterTree sampleJunk fourDeep) = 4 ∧
      anyMixed (filterTree sampleJunk fourDeep) = false ∧
      R sampleJunk firstInOrder 1 fourDeep = Except.error TreeError.tooNested :=
  ⟨by decide, by decide, by rfl⟩

/-- C14, amended: for a tree within the nesting limit that the validation
enforces (no kept directory more than 3 levels below the root), the
validation fails with the mixed-content error exactly when some directory,
after the dot-files and junk entries are dropped, directly contains both a
file and a subdirectory; when no directory does, it resolves with the tree
with the dropped entries removed.  The entries that the validation keeps are
those whose name neither starts with a dot nor is listed by `junk`. -/
theorem C14_mixed_content (junk : String → Bool)
    (first : List TreeError → TreeError) (hfirst : ∀ es, es ≠ [] → first es ∈ es)
    (name : String) (cs : List Node)
    (hh : height (filterTree junk (Node.dir name cs)) ≤ 3) :
    (R junk first 1 (Node.dir name cs) = Except.error TreeError.mixedType
        ↔ anyMixed (filterTree junk (Node.dir name cs)) = true) ∧
      (anyMixed (filterTree junk (Node.dir name cs)) = false →
        R junk first 1 (Node.dir name cs) = Except.ok (filterTree junk (Node.dir name cs))) ∧
      (∀ d : String, K junk d = true ↔ (d.data.head? ≠ some '.' ∧ junk d = false)) := by
  rw [R_within junk first hfirst 1 (Node.dir name cs) rfl (by omega)]
  refine ⟨?_, ?_, ?_⟩
  · constructor
    · intro h
      by_contra hne
      rw [if_neg hne] at h
      exact absurd h (by simp)
    · intro h
      rw [if_pos h]
  · intro h
    rw [if_neg (by simp [h])]
  · intro d
    rw [K_eq_not_dropped]
    unfold dropped
    cases hj : junk d <;> by_cases hd : d.data.head? = some '.' <;> simp [hd]

/-- C14 amended, on samples: `root/X` with a file and a subdirectory is
rejected as mixed; `root/1/2/3/img.jpg` resolves with the filtered tree; and
a root that holds a dot-file and a junk file next to a directory is not
mixed: it resolves with the two files removed. -/
theorem C14_mixed_content_witness :
    R sampleJunk firstInOrder 1 mixedTree = Except.error TreeError.mixedType ∧
      R sampleJunk firstInOrder 1 threeBelow = Except.ok (filterTree sampleJunk threeBelow) ∧
      R sampleJunk firstInOrder 1 hiddenNextToDir
        = Except.ok (Node.dir "root" [Node.dir "X" [Node.file "img.jpg" 1]]) ∧
      filterTree sampleJunk threeBelow
        = Node.dir "root" [Node.dir "1" [Node.dir "2" [Node.dir "3" [Node.file "img.jpg" 1]]]] :=
  ⟨(C14_mixed_content sampleJunk firstInOrder firstInOrder_mem "root" _ (by decide)).1.mpr
      (by decide),
    (C14_mixed_content sampleJunk firstInOrder firstInOrder_mem "root" _ (by decide)).2.1
      (by decide),
    ((C14_mixed_content sampleJunk firstInOrder firstInOrder_mem "root" _ (by decide)).2.1
      (show anyMixed (filterTree sampleJunk hiddenNextToDir) = false by decide)).trans
      (by rfl),
    by rfl⟩
theorem folderListAll_of_no_dir (d : String) (cs : List Node)
    (h : cs.filter Node.isDir = []) : folderListAll d cs = [] := by
  induction cs with
  | nil => simp [folderListAll]
  | cons c cs ih =>
    cases c with
    | dir name children => simp [List.filter_cons, Node.isDir] at h
    | file name size =>
      simp only [List.filter_cons, Node.isDir, Bool.false_eq_true, if_false] at h
      simp [folderListAll, folderListAllEntry, ih h]
    | other name =>
      simp only [List.filter_cons, Node.isDir, Bool.false_eq_true, if_false] at h
      simp [folderListAll, folderListAllEntry, ih h]

mutual
/-- Skipping the recursion into directories without subdirectory does not
change the list. -/
theorem folderListFromTree_eq_all (d : String) :
    ∀ cs : List Node, folderListFromTree d cs = folderListAll d cs
  | [] => by simp [folderListFromTree, folderListAll]
  | c :: cs => by
    rw [folderListFromTree, folderListAll, folderListEntry_eq_all d c,
      folderListFromTree_eq_all d cs]
theorem folderListEntry_eq_all (d : String) :
    ∀ c : Node, folderListEntry d c = folderListAllEntry d c
  | .dir name children => by
    rw [folderListEntry, folderListAllEntry]
    by_cases h : (children.filter Node.isDir).isEmpty = true
    · rw [if_pos h, folderListAll_of_no_dir _ _ (List.isEmpty_iff.mp h)]
    · rw [if_neg h, folderListFromTree_eq_all (path.join d name) children]
  | .file _ _ => by simp [folderListEntry, folderListAllEntry]
  | .other _ => by simp [folderListEntry, folderListAllEntry]
end

mutual
theorem folderListAll_length (d : String) :
    ∀ cs : List Node, (folderListAll d cs).length = countDirs cs
  | [] => by simp [folderListAll, countDirs]
  | c :: cs => by
    rw [folderListAll, countDirs, List.length_append, folderListAllEntry_length d c,
      folderListAll_length d cs]
theorem folderListAllEntry_length (d : String) :
    ∀ c : Node, (folderListAllEntry d c).length = countDirsEntry c
  | .dir name children => by
    rw [folderListAllEntry, countDirsEntry, List.length_cons,
      folderListAll_length (path.join d name) children]
    omega
  | .file _ _ => by simp [folderListAllEntry, countDirsEntry]
  | .other _ => by simp [folderListAllEntry, countDirsEntry]
end

theorem joinAll_append (pre : List String) (name : String) :
    joinAll (pre ++ [name]) = path.join (joinAll pre) name := by
  simp [joinAll, List.foldl_append]

mutual
theorem folderListAll_eq_chains (pre : List String) :
    ∀ cs : List Node, folderListAll (joinAll pre) cs = (dirChains pre cs).map joinAll
  | [] => by simp [folderListAll, dirChains]
  | c :: cs => by
    rw [folderListAll, dirChains, List.map_append, folderListAllEntry_eq_chains pre c,
      folderListAll_eq_chains pre cs]
theorem folderListAllEntry_eq_chains (pre : List String) :
    ∀ c : Node, folderListAllEntry (joinAll pre) c = (dirChainsEntry pre c).map joinAll
  | .dir name children => by
    rw [folderListAllEntry, dirChainsEntry, List.map_cons, ← joinAll_append,
      folderListAll_eq_chains (pre ++ [name]) children]
  | .file _ _ => by simp [folderListAllEntry, dirChainsEntry]
  | .other _ => by simp [folderListAllEntry, dirChainsEntry]
end

mutual
/-- Every chain of the list starts with `pre` followed by the name of a
directory of the list. -/
theorem dirChains_form (pre : List String) :
    ∀ (cs : List Node) (ch : List String), ch ∈ dirChains pre cs →
      ∃ n rest, ch = pre ++ n :: rest ∧ n ∈ (cs.filter Node.isDir).map Node.name
  | [], ch, h => by simp [dirChains] at h
  | c :: cs, ch, h => by
    rw [dirChains, List.mem_append] at h
    rcases h with h | h
    · obtain ⟨hd, rest, hch⟩ := dirChainsEntry_form pre c ch h
      exact ⟨c.name, rest, hch, by simp [List.filter_cons, hd]⟩
    · obtain ⟨n, rest, hch, hn⟩ := dirChains_form pre cs ch h
      refine ⟨n, rest, hch, ?_⟩
      by_cases hd : c.isDir = true
      · simp only [List.filter_cons, hd, if_true, List.map_cons, List.mem_cons]
        exact Or.inr hn
      · simpa [List.filter_cons, hd] using hn
theorem dirChainsEntry_form (pre : List String) :
    ∀ (c : Node) (ch : List String), ch ∈ dirChainsEntry pre c →
      c.isDir = true ∧ ∃ rest, ch = pre ++ c.name :: rest
  | .dir name children, ch, h => by
    rw [dirChainsEntry, List.mem_cons] at h
    refine ⟨rfl, ?_⟩
    rcases h with h | h
    · exact ⟨[], by simp [h, Node.name]⟩
    · obtain ⟨n, rest, hch, -⟩ := dirChains_form (pre ++ [name]) children ch h
      exact ⟨n :: rest, by simp [hch, Node.name]⟩
  | .file _ _, ch, h => by simp [dirChainsEntry] at h
  | .other _, ch, h => by simp [dirChainsEntry] at h
end

mutual
/-- In a well-formed tree no chain is a beginning of an earlier chain: a
directory is never listed after one of its descendants, nor twice. -/
theorem dirChains_pairwise (pre : List String) :
    ∀ cs : List Node, wfChildren cs = true →
      ((cs.filter Node.isDir).map Node.name).Nodup →
      (dirChains pre cs).Pairwise (fun a b => ¬ b <+: a)
  | [], _, _ => by simp [dirChains]
  | c :: cs, hwf, hnd => by
    simp only [wfChildren, Bool.and_eq_true] at hwf
    rw [dirChains, List.pairwise_append]
    have hnd' : ((cs.filter Node.isDir).map Node.name).Nodup := by
      by_cases hd : c.isDir = true
      · simp only [List.filter_cons, hd, if_true, List.map_cons, List.nodup_cons] at hnd
        exact hnd.2
      · simpa [List.filter_cons, hd] using hnd
    refine ⟨dirChainsEntry_pairwise pre c hwf.1, dirChains_pairwise pre cs hwf.2 hnd', ?_⟩
    intro a ha b hb hpre
    obtain ⟨hd, ra, hach⟩ := dirChainsEntry_form pre c a ha
    obtain ⟨n, rb, hbch, hn⟩ := dirChains_form pre cs b hb
    rw [hach, hbch, List.prefix_append_right_inj, List.cons_prefix_cons] at hpre
    simp only [List.filter_cons, hd, if_true, List.map_cons, List.nodup_cons] at hnd
    rw [hpre.1] at hn
    exact hnd.1 hn
theorem dirChainsEntry_pairwise (pre : List String) :
    ∀ c : Node, wfTree c = true → (dirChainsEntry pre c).Pairwise (fun a b => ¬ b <+: a)
  | .dir name children, hwf => by
    simp only [wfTree, Bool.and_eq_true, decide_eq_true_eq] at hwf
    rw [dirChainsEntry, List.pairwise_cons]
    refine ⟨?_, dirChains_pairwise (pre ++ [name]) children hwf.2 hwf.1.2⟩
    intro b hb hpre
    obtain ⟨n, rb, hbch, -⟩ := dirChains_form (pre ++ [name]) children b hb
    have hlen := hpre.length_le
    rw [hbch] at hlen
    simp at hlen
  | .file _ _, _ => by simp [dirChainsEntry]
  | .other _, _ => by simp [dirChainsEntry]
end

mutual
/-- In a well-formed tree every chain continues `pre` with entry names. -/
theorem dirChains_plain (pre : List String) :
    ∀ (cs : List Node), wfChildren cs = true → ∀ ch ∈ dirChains pre cs,
      ∃ suffix, ch = pre ++ suffix ∧ ∀ n ∈ suffix, entryName n = true
  | [], _, ch, h => by simp [dirChains] at h
  | c :: cs, hwf, ch, h => by
    simp only [wfChildren, Bool.and_eq_true] at hwf
    rw [dirChains, List.mem_append] at h
    rcases h with h | h
    · exact dirChainsEntry_plain pre c hwf.1 ch h
    · exact dirChains_plain pre cs hwf.2 ch h
theorem dirChainsEntry_plain (pre : List String) :
    ∀ (c : Node), wfTree c = true → ∀ ch ∈ dirChainsEntry pre c,
      ∃ suffix, ch = pre ++ suffix ∧ ∀ n ∈ suffix, entryName n = true
  | .dir name children, hwf, ch, h => by
    simp only [wfTree, Bool.and_eq_true, decide_eq_true_eq] at hwf
    rw [dirChainsEntry, List.mem_cons] at h
    rcases h with h | h
    · exact ⟨[name], h, by simpa using hwf.1.1⟩
    · obtain ⟨suffix, hch, hpl⟩ := dirChains_plain (pre ++ [name]) children hwf.2 ch h
      refine ⟨name :: suffix, by simp [hch], ?_⟩
      intro n hn
      rcases List.mem_cons.mp hn with hn | hn
      · rw [hn]; exact hwf.1.1
      · exact hpl n hn
  | .file _ _, _, ch, h => by simp [dirChainsEntry] at h
  | .other _, _, ch, h => by simp [dirChainsEntry] at h
end

theorem string_eq_empty_iff (s : String) : s = "" ↔ s.data = [] := by
  rw [String.ext_iff]

theorem plainName_iff (n : String) : plainName n = true ↔ n.data ≠ [] ∧ '/' ∉ n.data := by
  simp [plainName]

theorem joinChars_append_singleton (ns : List String) (n : String) (h : ns ≠ []) :
    joinChars (ns ++ [n]) = joinChars ns ++ '/' :: n.data := by
  induction ns with
  | nil => exact absurd rfl h
  | cons a ns ih =>
    cases ns with
    | nil => simp [joinChars]
    | cons b ns =>
      have := ih (by simp)
      simp only [List.cons_append] at this ⊢
      simp [joinChars, this]

theorem joinChars_ne_nil (ns : List String) (hne : ns ≠ [])
    (hpl : ∀ n ∈ ns, plainName n = true) : joinChars ns ≠ [] := by
  cases ns with
  | nil => exact absurd rfl hne
  | cons a ns =>
    have ha := (plainName_iff a).mp (hpl a (List.mem_cons_self _ _))
    cases ns with
    | nil => simpa [joinChars] using ha.1
    | cons b ns => simp [joinChars]

theorem joinChars_cons (a : String) (ns : List String) :
    joinChars (a :: ns) = a.data ++ (if ns = [] then [] else '/' :: joinChars ns) := by
  cases ns with
  | nil => simp [joinChars]
  | cons b ns => simp [joinChars]


/-! ### The directory of a path of plain names -/

theorem intercalate_go_data (s : String) (as : List String) :
    ∀ acc : String, (String.intercalate.go acc s as).data
      = acc.data ++ (as.map (fun a => s.data ++ a.data)).flatten := by
  induction as with
  | nil => intro acc; simp [String.intercalate.go]
  | cons a rest ih =>
    intro acc
    rw [String.intercalate.go, ih]
    simp [String.data_append, List.append_assoc]

theorem joinChars_eq_flatten (a : String) (as : List String) :
    joinChars (a :: as) = a.data ++ (as.map (fun b => '/' :: b.data)).flatten := by
  induction as generalizing a with
  | nil => simp [joinChars]
  | cons b rest ih =>
    rw [joinChars, ih b]
    simp

/-- The characters of `xs.join("/")` are the names with a separator between
two of them. -/
theorem intercalate_data (a : String) (as : List String) :
    ("/".intercalate (a :: as)).data = joinChars (a :: as) := by
  rw [String.intercalate, intercalate_go_data, joinChars_eq_flatten]
  rfl

theorem splitSep_plain (x : List Char) (hx : '/' ∉ x) : path.splitSep x = [x] := by
  induction x with
  | nil => rfl
  | cons c cs ih =>
    have hc : c ≠ '/' := fun h => hx (h ▸ List.mem_cons_self _ _)
    have hcs : '/' ∉ cs := fun h => hx (List.mem_cons_of_mem _ h)
    rw [path.splitSep, if_neg hc, ih hcs]

theorem splitSep_append (x r : List Char) (hx : '/' ∉ x) :
    path.splitSep (x ++ '/' :: r) = x :: path.splitSep r := by
  induction x with
  | nil => simp [path.splitSep]
  | cons c cs ih =>
    have hc : c ≠ '/' := fun h => hx (h ▸ List.mem_cons_self _ _)
    have hcs : '/' ∉ cs := fun h => hx (List.mem_cons_of_mem _ h)
    rw [List.cons_append, path.splitSep, if_neg hc, ih hcs]

/-- Splitting the joined names of a chain of plain names gives the names
back. -/
theorem splitSep_joinChars (ns : List String) (hne : ns ≠ [])
    (hpl : ∀ n ∈ ns, plainName n = true) :
    path.splitSep (joinChars ns) = ns.map (fun n => n.data) := by
  induction ns with
  | nil => exact absurd rfl hne
  | cons a rest ih =>
    have ha := ((plainName_iff a).mp (hpl a (List.mem_cons_self _ _))).2
    cases rest with
    | nil => simpa [joinChars] using splitSep_plain a.data ha
    | cons b rest =>
      rw [joinChars, splitSep_append _ _ ha,
        ih (by simp) (fun n hn => hpl n (List.mem_cons_of_mem _ hn))]
      rfl

theorem joinChars_getLast (ns : List String) (hne : ns ≠ [])
    (hpl : ∀ n ∈ ns, plainName n = true) :
    ∃ c, (joinChars ns).getLast? = some c ∧ c ≠ '/' := by
  rcases List.eq_nil_or_concat ns with h | ⟨init, last, h⟩
  · exact absurd h hne
  · subst h
    rw [List.concat_eq_append] at hpl ⊢
    have hl := (plainName_iff last).mp (hpl last (by simp))
    obtain ⟨c, hc⟩ : ∃ c, last.data.getLast? = some c := by
      cases h : last.data.getLast? with
      | none => exact absurd (List.getLast?_eq_none_iff.mp h) hl.1
      | some c => exact ⟨c, rfl⟩
    have hcne : c ≠ '/' := fun hcs => hl.2 (hcs ▸ List.mem_of_getLast?_eq_some hc)
    refine ⟨c, ?_, hcne⟩
    by_cases hi : init = []
    · subst hi
      simpa [joinChars] using hc
    · rw [joinChars_append_singleton init last hi,
        show joinChars init ++ '/' :: last.data = (joinChars init ++ ['/']) ++ last.data by simp,
        List.getLast?_append_of_ne_nil _ hl.1]
      exact hc

/-- Segments that are neither empty nor `.` nor `..` are all kept by the
segment loop of the normalisation. -/
theorem normalizeSegs_clean (a : Bool) (xs : List String)
    (h : ∀ x ∈ xs, x ≠ "" ∧ x ≠ "." ∧ x ≠ "..") :
    ∀ res : List String, path.normalizeSegs a res xs = res.reverse ++ xs := by
  induction xs with
  | nil => intro res; simp [path.normalizeSegs]
  | cons x rest ih =>
    intro res
    obtain ⟨h1, h2, h3⟩ := h x (List.mem_cons_self _ _)
    have ih' := ih (fun y hy => h y (List.mem_cons_of_mem _ hy))
    simp [path.normalizeSegs, h1, h2, h3, ih']

/-- The directory of the absolute path of a chain of plain names is the root
for a single name, and the absolute path of the chain without its last name
otherwise. -/
theorem dirname_of_plain (segs : List String) (name : String)
    (hseg : ∀ n ∈ segs, plainName n = true) (hname : plainName name = true) :
    path.dirname (String.mk ('/' :: joinChars (segs ++ [name])))
      = if segs = [] then "/" else String.mk ('/' :: joinChars segs) := by
  have hn := (plainName_iff name).mp hname
  have hdrop1 : ∀ xs : List Char,
      (name.data.reverse ++ xs).dropWhile (fun x => x == '/') = name.data.reverse ++ xs := by
    intro xs
    cases hrev : name.data.reverse with
    | nil => exact absurd (List.reverse_eq_nil_iff.mp hrev) hn.1
    | cons c cs =>
      have hc : c ≠ '/' := by
        intro hcs
        apply hn.2
        rw [← List.mem_reverse, hrev, hcs]
        exact List.mem_cons_self _ _
      simp [List.dropWhile_cons, hc]
  have hdrop2 : ∀ xs : List Char,
      (name.data.reverse ++ xs).dropWhile (fun x => x != '/') = xs.dropWhile (fun x => x != '/') := by
    intro xs
    apply List.dropWhile_append_of_pos
    intro c hc
    have : c ≠ '/' := fun hcs => hn.2 (hcs ▸ List.mem_reverse.mp hc)
    simpa using this
  unfold path.dirname
  by_cases hs : segs = []
  · subst hs
    simp only [List.nil_append, joinChars, if_true]
    have := hdrop1 []
    have h2 := hdrop2 []
    simp only [List.append_nil] at this h2
    rw [this, h2]
    simp
  · rw [if_neg hs]
    simp only [joinChars_append_singleton segs name hs, List.reverse_append, List.reverse_cons,
      List.append_assoc]
    rw [hdrop1, hdrop2]
    have hne := joinChars_ne_nil segs hs hseg
    simp [List.dropWhile_cons, hne]


theorem filter_nonempty_plain (segs : List String) (hseg : ∀ n ∈ segs, plainName n = true) :
    segs.filter (fun a => a != "") = segs := by
  apply List.filter_eq_self.mpr
  intro n hn
  have h := ((plainName_iff n).mp (hseg n hn)).1
  have : n ≠ "" := fun he => h ((string_eq_empty_iff n).mp he)
  simpa using this

/-! ### `path.join` on chains of entry names -/

theorem entryName_iff (n : String) :
    entryName n = true ↔ plainName n = true ∧ n ≠ "." ∧ n ≠ ".." := by
  simp [entryName, and_assoc]

theorem entryName_plain (ns : List String) (hseg : ∀ n ∈ ns, entryName n = true) :
    ∀ n ∈ ns, plainName n = true :=
  fun n hn => ((entryName_iff n).mp (hseg n hn)).1

theorem joinChars_head (ns : List String) (hne : ns ≠ [])
    (hpl : ∀ n ∈ ns, plainName n = true) :
    ((joinChars ns).head? == some '/') = false := by
  obtain ⟨a, rest, rfl⟩ := List.exists_cons_of_ne_nil hne
  have ha := (plainName_iff a).mp (hpl a (List.mem_cons_self _ _))
  rw [joinChars_cons]
  cases hd : a.data with
  | nil => exact absurd hd ha.1
  | cons c cs =>
    have hc : c ≠ '/' := fun h => ha.2 (by rw [hd, h]; exact List.mem_cons_self _ _)
    simpa using hc

/-- Normalising the path of a chain of entry names leaves it as it is. -/
theorem normalize_chain (ns : List String) (hne : ns ≠ [])
    (hseg : ∀ n ∈ ns, entryName n = true) :
    path.normalize (String.mk (joinChars ns)) = String.mk (joinChars ns) := by
  have hpl := entryName_plain ns hseg
  obtain ⟨m, rest, rfl⟩ := List.exists_cons_of_ne_nil hne
  obtain ⟨c, hc, hcne⟩ := joinChars_getLast (m :: rest) hne hpl
  have hnn := joinChars_ne_nil (m :: rest) hne hpl
  have hhead := joinChars_head (m :: rest) hne hpl
  have hemp : (joinChars (m :: rest)).isEmpty = false := by
    cases h : joinChars (m :: rest) with
    | nil => exact absurd h hnn
    | cons _ _ => rfl
  have hsplit : (path.splitSep (joinChars (m :: rest))).map String.mk = m :: rest := by
    rw [splitSep_joinChars _ hne hpl, List.map_map]
    exact List.map_id'' (fun _ => rfl) (m :: rest)
  have hsegs : path.normalizeSegs true [] (m :: rest) = m :: rest := by
    have h := normalizeSegs_clean true (m :: rest)
      (fun x hx => ⟨fun he => ((plainName_iff x).mp (hpl x hx)).1
        ((string_eq_empty_iff x).mp he), ((entryName_iff x).mp (hseg x hx)).2.1,
        ((entryName_iff x).mp (hseg x hx)).2.2⟩) []
    rw [h]
    rfl
  unfold path.normalize
  have hcb : (some c == some '/') = false := by simpa using hcne
  simp only [hemp, hc, hsplit, hcb, hhead, Bool.not_false, hsegs, List.isEmpty_cons,
    Bool.false_eq_true, if_false]
  apply String.ext
  simp only [String.data_append, intercalate_data]
  simp

/-- Joining the path of a chain of entry names with one more entry name gives
the path of the longer chain. -/
theorem join_chain (ns : List String) (n : String) (hne : ns ≠ [])
    (hseg : ∀ m ∈ ns, entryName m = true) (hn : entryName n = true) :
    path.join (String.mk (joinChars ns)) n = String.mk (joinChars (ns ++ [n])) := by
  have hpl := entryName_plain ns hseg
  have hnp := (plainName_iff n).mp ((entryName_iff n).mp hn).1
  have h1 : ¬ String.mk (joinChars ns) = "" := by
    rw [string_eq_empty_iff]
    exact joinChars_ne_nil ns hne hpl
  have h2 : ¬ n = "" := by rw [string_eq_empty_iff]; exact hnp.1
  have hseg' : ∀ m ∈ ns ++ [n], entryName m = true := by
    intro m hm
    rcases List.mem_append.mp hm with hm | hm
    · exact hseg m hm
    · rw [List.mem_singleton.mp hm]; exact hn
  have hcat : "/".intercalate [String.mk (joinChars ns), n]
      = String.mk (joinChars (ns ++ [n])) := by
    apply String.ext
    rw [intercalate_data, joinChars_append_singleton ns n hne]
    simp [joinChars]
  unfold path.join path.joinArgs
  simp only [List.filter_cons, List.filter_nil, bne_iff_ne, ne_eq, h1, h2, not_false_eq_true,
    decide_True, if_true]
  rw [hcat]
  exact normalize_chain (ns ++ [n]) (by simp) hseg'

/-- Joining the empty path with an entry name gives the name. -/
theorem join_empty (n : String) (hn : entryName n = true) : path.join "" n = n := by
  have hnp := (plainName_iff n).mp ((entryName_iff n).mp hn).1
  have h2 : ¬ n = "" := by rw [string_eq_empty_iff]; exact hnp.1
  have h := normalize_chain [n] (by simp) (by simpa using hn)
  unfold path.join path.joinArgs
  simp only [List.filter_cons, List.filter_nil, bne_iff_ne, ne_eq, h2, not_false_eq_true,
    decide_True, if_true, not_true_eq_false, decide_False, Bool.false_eq_true, if_false]
  simpa [joinChars, String.intercalate, String.intercalate.go] using h

/-- The path of a chain of entry names is these names with a separator
between two of them. -/
theorem joinAll_chain (ns : List String) (hne : ns ≠ [])
    (hseg : ∀ n ∈ ns, entryName n = true) : joinAll ns = String.mk (joinChars ns) := by
  induction ns using List.reverseRecOn with
  | nil => exact absurd rfl hne
  | append_singleton ns n ih =>
    have hn := hseg n (by simp)
    rw [joinAll_append]
    by_cases hns : ns = []
    · subst hns
      simpa [joinAll, joinChars] using join_empty n hn
    · have hseg' : ∀ m ∈ ns, entryName m = true := fun m hm => hseg m (by simp [hm])
      rw [ih hns hseg']
      exact join_chain ns n hns hseg' hn

theorem joinAll_data (ns : List String) (hne : ns ≠ [])
    (hseg : ∀ n ∈ ns, entryName n = true) : (joinAll ns).data = joinChars ns := by
  rw [joinAll_chain ns hne hseg]
theorem split_at_separator (x y r s : List Char) (hx : '/' ∉ x) (hy : '/' ∉ y)
    (hr : r = [] ∨ ∃ t, r = '/' :: t) (hs : s = [] ∨ ∃ t, s = '/' :: t)
    (h : x ++ r = y ++ s) : x = y ∧ r = s := by
  induction x generalizing y with
  | nil =>
    cases y with
    | nil => exact ⟨rfl, by simpa using h⟩
    | cons c y =>
      exfalso
      simp only [List.nil_append, List.cons_append] at h
      rcases hr with hr | ⟨t, hr⟩
      · rw [hr] at h; exact absurd h (by simp)
      · rw [hr] at h
        have hc : '/' = c := (List.cons.inj h).1
        exact hy (by rw [hc]; exact List.mem_cons_self _ _)
  | cons c x ih =>
    cases y with
    | nil =>
      exfalso
      simp only [List.nil_append, List.cons_append] at h
      rcases hs with hs | ⟨t, hs⟩
      · rw [hs] at h; exact absurd h (by simp)
      · rw [hs] at h
        have hc : c = '/' := (List.cons.inj h).1
        exact hx (by rw [hc]; exact List.mem_cons_self _ _)
    | cons c' y =>
      simp only [List.cons_append] at h
      obtain ⟨hcc, htl⟩ := List.cons.inj h
      have hx' : '/' ∉ x := fun hmem => hx (List.mem_cons_of_mem _ hmem)
      have hy' : '/' ∉ y := fun hmem => hy (List.mem_cons_of_mem _ hmem)
      obtain ⟨hxy, hrs⟩ := ih y hx' hy' htl
      exact ⟨by rw [hcc, hxy], hrs⟩

/-- Two chains of plain names with the same path are the same chain. -/
theorem joinChars_injective (as bs : List String)
    (ha : ∀ n ∈ as, plainName n = true) (hb : ∀ n ∈ bs, plainName n = true)
    (h : joinChars as = joinChars bs) : as = bs := by
  induction as generalizing bs with
  | nil =>
    cases bs with
    | nil => rfl
    | cons b bs =>
      exfalso
      exact joinChars_ne_nil (b :: bs) (by simp) hb (by rw [← h]; rfl)
  | cons a as ih =>
    cases bs with
    | nil =>
      exfalso
      exact joinChars_ne_nil (a :: as) (by simp) ha (by rw [h]; rfl)
    | cons b bs =>
      have hpa := (plainName_iff a).mp (ha a (List.mem_cons_self _ _))
      have hpb := (plainName_iff b).mp (hb b (List.mem_cons_self _ _))
      have ha' : ∀ n ∈ as, plainName n = true := fun n hn => ha n (List.mem_cons_of_mem _ hn)
      have hb' : ∀ n ∈ bs, plainName n = true := fun n hn => hb n (List.mem_cons_of_mem _ hn)
      rw [joinChars_cons, joinChars_cons] at h
      obtain ⟨hab, hrest⟩ := split_at_separator a.data b.data _ _ hpa.2 hpb.2
        (by by_cases has : as = [] <;> simp [has])
        (by by_cases hbs : bs = [] <;> simp [hbs]) h
      have heq : a = b := String.ext hab
      by_cases has : as = []
      · by_cases hbs : bs = []
        · rw [heq, has, hbs]
        · simp [has, hbs] at hrest
      · by_cases hbs : bs = []
        · simp [has, hbs] at hrest
        · simp only [has, hbs, if_false, List.cons.injEq, true_and] at hrest
          rw [heq, ih bs ha' hb' hrest]

/-- C15: `folderListFromTree` returns the same list as the traversal that
recurses into every directory, with as many entries as the tree has
directories, each being the names on the way to a directory joined by
`path.join`, in depth-first order; and for a well-formed tree (names as a file
system lists them, no two subdirectories of a directory with the same name) no
directory is listed after one of its descendants and the list has no
duplicates, and each path is the names on the way joined with `/`. -/
theorem C15_folderList_unoptimised (cs : List Node) :
    (∀ d, folderListFromTree d cs = folderListAll d cs) ∧
      (folderListFromTree "" cs).length = countDirs cs ∧
      folderListFromTree "" cs = (dirChains [] cs).map joinAll ∧
      (wfChildren cs = true → ((cs.filter Node.isDir).map Node.name).Nodup →
        (dirChains [] cs).Pairwise (fun a b => ¬ b <+: a) ∧
          (folderListFromTree "" cs).Nodup) ∧
      (wfChildren cs = true → ∀ ch ∈ dirChains [] cs, joinAll ch = "/".intercalate ch) := by
  have hchains : folderListFromTree "" cs = (dirChains [] cs).map joinAll := by
    rw [folderListFromTree_eq_all]
    exact folderListAll_eq_chains [] cs
  refine ⟨fun d => folderListFromTree_eq_all d cs, ?_, hchains, ?_, ?_⟩
  rotate_left 2
  · intro hwf ch hch
    obtain ⟨sfx, hs, hpl⟩ := dirChains_plain [] cs hwf ch hch
    rw [List.nil_append] at hs
    subst hs
    cases ch with
    | nil => rfl
    | cons a rest =>
      rw [joinAll_chain (a :: rest) (by simp) hpl]
      apply String.ext
      rw [intercalate_data]
  · rw [folderListFromTree_eq_all, folderListAll_length]
  · intro hwf hnd
    have hpw := dirChains_pairwise [] cs hwf hnd
    refine ⟨hpw, ?_⟩
    rw [hchains]
    have hnodup : (dirChains [] cs).Nodup :=
      hpw.imp (fun {a b} hab heq => hab (by rw [heq]))
    apply List.Nodup.map_on _ hnodup
    intro a ha b hb hjoin
    obtain ⟨sa, hsa, hpa⟩ := dirChains_plain [] cs hwf a ha
    obtain ⟨sb, hsb, hpb⟩ := dirChains_plain [] cs hwf b hb
    obtain ⟨na, ra, hfa, -⟩ := dirChains_form [] cs a ha
    obtain ⟨nb, rb, hfb, -⟩ := dirChains_form [] cs b hb
    simp only [List.nil_append] at hsa hsb hfa hfb
    have hpa' : ∀ n ∈ a, entryName n = true := by rw [hsa]; exact hpa
    have hpb' : ∀ n ∈ b, entryName n = true := by rw [hsb]; exact hpb
    apply joinChars_injective a b (entryName_plain a hpa') (entryName_plain b hpb')
    rw [← joinAll_data a (by rw [hfa]; simp) hpa', ← joinAll_data b (by rw [hfb]; simp) hpb',
      hjoin]

/-- C15 on a sample: the directories `X`, `X/Y` and `Z` are listed in this
order, without duplicates. -/
theorem C15_folderList_unoptimised_witness :
    folderListFromTree "" sampleChildren = ["X", "X/Y", "Z"] ∧
      (dirChains [] sampleChildren).Pairwise (fun a b => ¬ b <+: a) ∧
      (folderListFromTree "" sampleChildren).Nodup :=
  ⟨by decide,
    (C15_folderList_unoptimised sampleChildren).2.2.2.1 (by decide) (by decide)⟩

/-- C16, counterexample: with no existing album and the folder list
`["X", "X"]`, the result lists `X` twice. -/
theorem C16_counterexample :
    getMissingAlbums [] ["X", "X"] = ["X", "X"] ∧ ¬ (getMissingAlbums [] ["X", "X"]).Nodup := by
  decide

/-- C16, amended: `getMissingAlbums` returns exactly the elements of the folder
list that are not the path of an existing album, in the order of the folder
list and as often as they occur there; the result has no duplicates whenever
the folder list has none. -/
theorem C16_missing_is_difference (g : List AlbumPathEntry) (p : List String) :
    (∀ x, x ∈ getMissingAlbums g p ↔ x ∈ p ∧ ∀ e ∈ g, e.path ≠ x) ∧
      (getMissingAlbums g p).Sublist p ∧
      (∀ x, (∀ e ∈ g, e.path ≠ x) → (getMissingAlbums g p).count x = p.count x) ∧
      (p.Nodup → (getMissingAlbums g p).Nodup) := by
  unfold getMissingAlbums
  refine ⟨?_, List.filter_sublist _, ?_, fun h => h.filter _⟩
  · intro x
    simp [List.mem_filter]
  · intro x hx
    rw [List.count_filter]
    simpa using hx

/-- C16 amended, on scenario C: existing `["X"]` and folder list
`["X", "X/Y"]` give `["X/Y"]`, without duplicates. -/
theorem C16_missing_is_difference_witness :
    getMissingAlbums existingX ["X", "X/Y"] = ["X/Y"] ∧
      (getMissingAlbums existingX ["X", "X/Y"]).Nodup :=
  ⟨by decide, (C16_missing_is_difference existingX ["X", "X/Y"]).2.2.2 (by decide)⟩

theorem createdAlbums_length (create : Nat → String → Album) (l : List String) :
    (createdAlbums create l).length = l.length := by
  simp [createdAlbums]

/-- The parent of a nested path is found when it is a missing path or the
path of an existing album. -/
theorem parentAlbum_isSome (create : Nat → String → Album) (p : List AlbumPathEntry)
    (l : List String) (dir : String) (h : dir ∈ l ∨ ∃ e ∈ p, e.path = dir) :
    ∃ par, parentAlbum (createdAlbums create l) p l dir = some par := by
  unfold parentAlbum
  by_cases hl : dir ∈ l
  · have hc : l.contains dir = true := by simpa using hl
    rw [if_pos hc]
    have hlt : l.indexOf dir < (createdAlbums create l).length := by
      rw [createdAlbums_length]
      exact List.indexOf_lt_length.mpr hl
    exact ⟨(createdAlbums create l)[l.indexOf dir], List.getElem?_eq_getElem hlt⟩
  · have hc : ¬ l.contains dir = true := by simpa using hl
    rw [if_neg hc]
    rcases h with h | ⟨e, he, hpath⟩
    · exact absurd h hl
    · cases hfind : p.find? (fun e => e.path == dir) with
      | none =>
        have := List.find?_eq_none.mp hfind e he
        simp [hpath] at this
      | some e' => exact ⟨e'.album, rfl⟩

/-- The nest phase when every parent is found. -/
theorem nestFrom_resolved (nest : String → String → Album) (u : List Album)
    (p : List AlbumPathEntry) (l : List String) (bs : List (Album × String))
    (h : ∀ x ∈ bs, hasParent x.2 = true →
      ∃ par, parentAlbum u p l (path.parse x.2).dir = some par) :
    nestFrom nest u p l bs = (bs.filterMap (nestCall u p l), some (bs.map (nestEntry nest u p l))) := by
  induction bs with
  | nil => simp [nestFrom]
  | cons x bs ih =>
    obtain ⟨b, lm⟩ := x
    have ih' := ih (fun y hy => h y (List.mem_cons_of_mem _ hy))
    by_cases hp : hasParent lm = true
    · obtain ⟨par, hpar⟩ := h (b, lm) (List.mem_cons_self _ _) hp
      have hp' : (path.parse lm).dir ≠ (path.parse lm).root := by
        simpa [hasParent] using hp
      simp only [nestFrom, hp', ne_eq, not_false_eq_true, if_true, hpar, ih']
      simp [nestCall, nestEntry, hp, hpar]
    · have hp' : ¬ (path.parse lm).dir ≠ (path.parse lm).root := by
        simpa [hasParent] using hp
      simp only [nestFrom, hp', if_false, ih']
      simp [nestCall, nestEntry, hp]

/-- The calls and the result of `createMissingAlbums` when the list is not
empty and every parent is found. -/
theorem createMissingAlbums_resolved (create : Nat → String → Album)
    (nest : String → String → Album) (g : String) (p : List AlbumPathEntry) (l : List String)
    (hne : l ≠ [])
    (hres : ∀ q ∈ l, hasParent q = true →
      (path.parse q).dir ∈ l ∨ ∃ e ∈ p, e.path = (path.parse q).dir) :
    createMissingAlbums create nest g p l =
      (l.map (fun u => RemoteCall.createAlbum g (path.parse u).base)
          ++ ((createdAlbums create l).zip l).filterMap (nestCall (createdAlbums create l) p l),
        some (some (p ++ ((createdAlbums create l).zip l).map
          (nestEntry nest (createdAlbums create l) p l)))) := by
  unfold createMissingAlbums
  have hemp : l.isEmpty = false := by
    cases l with
    | nil => exact absurd rfl hne
    | cons a l => rfl
  rw [hemp]
  simp only [Bool.false_eq_true, if_false]
  rw [nestFrom_resolved]
  · rfl
  · intro x hx hp
    have hxl : x.2 ∈ l := (List.of_mem_zip hx).2
    exact parentAlbum_isSome create p l _ (hres x.2 hxl hp)

/-! ### The folder list of a scan holds the parent of each of its folders -/

mutual
/-- The chains of a tree are closed under removing the last name, down to
the chains of the top level. -/
theorem dirChains_closed (pre : List String) :
    ∀ (cs : List Node) (init : List String) (last : String),
      init ++ [last] ∈ dirChains pre cs → init ≠ pre → init ∈ dirChains pre cs
  | [], init, last, h, _ => by simp [dirChains] at h
  | c :: cs, init, last, h, hne => by
    rw [dirChains, List.mem_append] at h ⊢
    rcases h with h | h
    · exact Or.inl (dirChainsEntry_closed pre c init last h hne)
    · exact Or.inr (dirChains_closed pre cs init last h hne)
theorem dirChainsEntry_closed (pre : List String) :
    ∀ (c : Node) (init : List String) (last : String),
      init ++ [last] ∈ dirChainsEntry pre c → init ≠ pre → init ∈ dirChainsEntry pre c
  | .dir name children, init, last, h, hne => by
    rw [dirChainsEntry, List.mem_cons] at h ⊢
    rcases h with h | h
    · exact absurd (List.append_inj_left' h rfl) hne
    · by_cases hi : init = pre ++ [name]
      · exact Or.inl hi
      · exact Or.inr (dirChains_closed (pre ++ [name]) children init last h hi)
  | .file _ _, init, last, h, _ => by simp [dirChainsEntry] at h
  | .other _, init, last, h, _ => by simp [dirChainsEntry] at h
end

theorem dropWhile_sep_plain (name : String) (hname : plainName name = true) (xs : List Char) :
    (name.data.reverse ++ xs).dropWhile (fun x => x == '/') = name.data.reverse ++ xs := by
  have hn := (plainName_iff name).mp hname
  cases hrev : name.data.reverse with
  | nil => exact absurd (List.reverse_eq_nil_iff.mp hrev) hn.1
  | cons c cs =>
    have hc : c ≠ '/' := by
      intro hcs
      apply hn.2
      rw [← List.mem_reverse, hrev, hcs]
      exact List.mem_cons_self _ _
    simp [List.dropWhile_cons, hc]

theorem dropWhile_name_plain (name : String) (hname : plainName name = true) (xs : List Char) :
    (name.data.reverse ++ xs).dropWhile (fun x => x != '/')
      = xs.dropWhile (fun x => x != '/') := by
  have hn := (plainName_iff name).mp hname
  apply List.dropWhile_append_of_pos
  intro c hc
  have : c ≠ '/' := fun hcs => hn.2 (hcs ▸ List.mem_reverse.mp hc)
  simpa using this

/-- A plain name has no parent directory. -/
theorem hasParent_single (n : String) (hn : plainName n = true) :
    hasParent (String.mk (joinChars [n])) = false := by
  have hhead := joinChars_head [n] (by simp) (by simpa using hn)
  have h1 := dropWhile_sep_plain n hn []
  have h2 := dropWhile_name_plain n hn []
  simp only [List.append_nil] at h1 h2
  simp only [joinChars] at hhead ⊢
  unfold hasParent path.parse
  simp only [hhead, Bool.false_eq_true, if_false, h1, h2]
  simp

/-- The directory of the path of a chain of plain names, with at least two
names, is the path of the chain without its last name. -/
theorem parse_chain (init : List String) (last : String) (hne : init ≠ [])
    (hseg : ∀ n ∈ init, plainName n = true) (hlast : plainName last = true) :
    (path.parse (String.mk (joinChars (init ++ [last])))).dir = String.mk (joinChars init) := by
  have hall : ∀ n ∈ init ++ [last], plainName n = true := by
    intro m hm
    rcases List.mem_append.mp hm with hm | hm
    · exact hseg m hm
    · rw [List.mem_singleton.mp hm]; exact hlast
  have hhead := joinChars_head (init ++ [last]) (by simp) hall
  rw [joinChars_append_singleton init last hne] at hhead ⊢
  unfold path.parse
  simp only [hhead, Bool.false_eq_true, if_false, List.reverse_append, List.reverse_cons,
    List.append_assoc, dropWhile_sep_plain last hlast, dropWhile_name_plain last hlast]
  simp [List.dropWhile_cons]

/-- The folder list of the scan of a well-formed tree lists, for each of its
folders with a parent directory, this parent directory too. -/
theorem folderList_parent_closed (cs : List Node) (hwf : wfChildren cs = true) :
    ∀ q ∈ folderListFromTree "" cs, hasParent q = true →
      (path.parse q).dir ∈ folderListFromTree "" cs := by
  have hchains : folderListFromTree "" cs = (dirChains [] cs).map joinAll := by
    rw [folderListFromTree_eq_all]
    exact folderListAll_eq_chains [] cs
  intro q hq hp
  rw [hchains] at hq ⊢
  obtain ⟨ch, hch, rfl⟩ := List.mem_map.mp hq
  obtain ⟨sfx, hs, hpl⟩ := dirChains_plain [] cs hwf ch hch
  rw [List.nil_append] at hs
  subst hs
  rcases List.eq_nil_or_concat ch with h | ⟨init, last, h⟩
  · subst h
    obtain ⟨n, r, hf, -⟩ := dirChains_form [] cs [] hch
    simp at hf
  · subst h
    rw [List.concat_eq_append] at hch hpl hp ⊢
    have hlast : plainName last = true := entryName_plain _ hpl last (by simp)
    by_cases hi : init = []
    · subst hi
      rw [List.nil_append] at hp hpl
      rw [joinAll_chain [last] (by simp) hpl, hasParent_single last hlast] at hp
      exact absurd hp (by simp)
    · have hinit : ∀ n ∈ init, entryName n = true := fun n hn => hpl n (by simp [hn])
      rw [joinAll_chain _ (by simp) hpl, parse_chain init last hi (entryName_plain _ hinit) hlast]
      exact List.mem_map.mpr ⟨init, dirChains_closed [] cs init last hch hi,
        joinAll_chain init hi hinit⟩
/-- The parents of the missing albums of a parent-closed folder list are
missing themselves or exist already. -/
theorem missing_parents_resolvable (p : List AlbumPathEntry) (folderList : List String)
    (hclosed : ∀ q ∈ folderList, hasParent q = true → (path.parse q).dir ∈ folderList) :
    ∀ q ∈ getMissingAlbums p folderList, hasParent q = true →
      (path.parse q).dir ∈ getMissingAlbums p folderList
        ∨ ∃ e ∈ p, e.path = (path.parse q).dir := by
  intro q hq hp
  have hqf : q ∈ folderList := (List.mem_filter.mp hq).1
  have hdir := hclosed q hqf hp
  by_cases hex : ∃ e ∈ p, e.path = (path.parse q).dir
  · exact Or.inr hex
  · left
    unfold getMissingAlbums
    rw [List.mem_filter]
    refine ⟨hdir, ?_⟩
    simp only [Bool.not_eq_true', List.contains_eq_any_beq, List.any_eq_false, List.mem_map]
    rintro x ⟨e, he, rfl⟩
    simp only [beq_iff_eq]
    intro heq
    exact hex ⟨e, he, heq.symm⟩

/-- For a parent-closed folder list, any existing albums and
`l = getMissingAlbums p folderList`: `createMissingAlbums` does not fail on a
parent lookup, and every nest call nests a created album with a parent
directory under the album whose path is that directory. -/
theorem nest_parents_of_closed (create : Nat → String → Album)
    (nest : String → String → Album) (g : String) (p : List AlbumPathEntry)
    (folderList l : List String)
    (hclosed : ∀ q ∈ folderList, hasParent q = true → (path.parse q).dir ∈ folderList)
    (hl : l = getMissingAlbums p folderList) :
    (∃ v, (createMissingAlbums create nest g p l).2 = some v) ∧
      ∀ pid cid, RemoteCall.nestAlbum pid cid ∈ (createMissingAlbums create nest g p l).1 →
        ∃ x ∈ (createdAlbums create l).zip l, hasParent x.2 = true ∧ cid = x.1.id ∧
          (((path.parse x.2).dir ∈ l ∧
              ∃ par, (createdAlbums create l)[l.indexOf (path.parse x.2).dir]? = some par ∧
                l[l.indexOf (path.parse x.2).dir]? = some (path.parse x.2).dir ∧
                pid = par.id) ∨
            ((path.parse x.2).dir ∉ l ∧
              ∃ e ∈ p, p.find? (fun e => e.path == (path.parse x.2).dir) = some e ∧
                e.path = (path.parse x.2).dir ∧ pid = e.album.id)) := by
  have hres := missing_parents_resolvable p folderList hclosed
  rw [← hl] at hres
  by_cases hne : l = []
  · subst hne
    refine ⟨⟨none, by simp [createMissingAlbums]⟩, ?_⟩
    intro pid cid hmem
    simp [createMissingAlbums] at hmem
  · rw [createMissingAlbums_resolved create nest g p l hne hres]
    refine ⟨⟨_, rfl⟩, ?_⟩
    intro pid cid hmem
    rw [List.mem_append] at hmem
    rcases hmem with hmem | hmem
    · simp at hmem
    · obtain ⟨x, hx, hcall⟩ := List.mem_filterMap.mp hmem
      refine ⟨x, hx, ?_⟩
      unfold nestCall at hcall
      by_cases hp : hasParent x.2 = true
      · rw [if_pos hp] at hcall
        obtain ⟨par, hpar, hcall'⟩ := Option.map_eq_some'.mp hcall
        injection hcall' with hpid hcid
        refine ⟨hp, hcid.symm, ?_⟩
        unfold parentAlbum at hpar
        by_cases hin : (path.parse x.2).dir ∈ l
        · have hc : l.contains (path.parse x.2).dir = true := by simpa using hin
          rw [if_pos hc] at hpar
          left
          refine ⟨hin, par, hpar, ?_, hpid.symm⟩
          have hlt := List.indexOf_lt_length.mpr hin
          rw [List.getElem?_eq_getElem hlt, List.getElem_indexOf]
        · have hc : ¬ l.contains (path.parse x.2).dir = true := by simpa using hin
          rw [if_neg hc] at hpar
          right
          obtain ⟨e, hfind, he⟩ := Option.map_eq_some'.mp hpar
          refine ⟨hin, e, List.mem_of_find?_eq_some hfind, hfind, ?_, ?_⟩
          · have := List.find?_some hfind
            simpa using this
          · rw [← hpid, ← he]
      · rw [if_neg hp] at hcall
        exact absurd hcall (by simp)

/-- C17: for the folder list of the scan of a well-formed tree, any existing
albums and `l = getMissingAlbums p folderList`: the folder list holds the
parent directory of each of its folders that has one; `createMissingAlbums`
does not fail on a parent lookup; and every nest call nests a created album
with a parent directory under the album whose path is that directory: the
creation result at the index of the directory in `l` when the directory is
missing itself, and the album of the existing entry with that path
otherwise. -/
theorem C17_nest_parents_resolved (create : Nat → String → Album)
    (nest : String → String → Album) (g : String) (p : List AlbumPathEntry)
    (cs : List Node) (l : List String)
    (hwf : wfChildren cs = true)
    (hl : l = getMissingAlbums p (folderListFromTree "" cs)) :
    (∀ q ∈ folderListFromTree "" cs, hasParent q = true →
        (path.parse q).dir ∈ folderListFromTree "" cs) ∧
      (∃ v, (createMissingAlbums create nest g p l).2 = some v) ∧
      ∀ pid cid, RemoteCall.nestAlbum pid cid ∈ (createMissingAlbums create nest g p l).1 →
        ∃ x ∈ (createdAlbums create l).zip l, hasParent x.2 = true ∧ cid = x.1.id ∧
          (((path.parse x.2).dir ∈ l ∧
              ∃ par, (createdAlbums create l)[l.indexOf (path.parse x.2).dir]? = some par ∧
                l[l.indexOf (path.parse x.2).dir]? = some (path.parse x.2).dir ∧
                pid = par.id) ∨
            ((path.parse x.2).dir ∉ l ∧
              ∃ e ∈ p, p.find? (fun e => e.path == (path.parse x.2).dir) = some e ∧
                e.path = (path.parse x.2).dir ∧ pid = e.album.id)) :=
  ⟨folderList_parent_closed cs hwf,
    nest_parents_of_closed create nest g p (folderListFromTree "" cs) l
      (folderList_parent_closed cs hwf) hl⟩

/-- C17 on the scan of the sample tree, whose folder list is
`["X", "X/Y", "Z"]`, with the existing album `X`: the missing paths are `X/Y`
and `Z`, the call does not fail and its one nest call puts the album created
for `X/Y` under the id of the existing `X`. -/
theorem C17_nest_parents_resolved_witness :
    folderListFromTree "" sampleChildren = ["X", "X/Y", "Z"] ∧
      getMissingAlbums existingX (folderListFromTree "" sampleChildren) = ["X/Y", "Z"] ∧
      (∃ v, (createMissingAlbums sampleCreate sampleNest "g" existingX ["X/Y", "Z"]).2
        = some v) ∧
      (createMissingAlbums sampleCreate sampleNest "g" existingX ["X/Y", "Z"]).1
        = [RemoteCall.createAlbum "g" "Y", RemoteCall.createAlbum "g" "Z",
            RemoteCall.nestAlbum "x1" "new0"] :=
  ⟨by decide, by decide,
    (C17_nest_parents_resolved sampleCreate sampleNest "g" existingX sampleChildren
      ["X/Y", "Z"] (by decide) (by decide)).2.1, by decide⟩

/-- C18: `createMissingAlbums` issues no remote call when the list of missing
paths is empty; otherwise, every parent being a missing path or an existing
one, it issues one create call per missing path, named by the base name of
the path, followed by the nest calls, one for each created album whose path
has a parent directory and none for the others, and resolves with the
existing entries followed by one entry per missing path, in the order of the
missing paths; a top-level path keeps its created album. -/
theorem C18_create_then_nest (create : Nat → String → Album)
    (nest : String → String → Album) (g : String) (p : List AlbumPathEntry) (l : List String)
    (hres : ∀ q ∈ l, hasParent q = true →
      (path.parse q).dir ∈ l ∨ ∃ e ∈ p, e.path = (path.parse q).dir) :
    (l = [] → createMissingAlbums create nest g p l = ([], some none)) ∧
      (l ≠ [] →
        createMissingAlbums create nest g p l =
          (l.map (fun u => RemoteCall.createAlbum g (path.parse u).base)
              ++ ((createdAlbums create l).zip l).filterMap
                (nestCall (createdAlbums create l) p l),
            some (some (p ++ ((createdAlbums create l).zip l).map
              (nestEntry nest (createdAlbums create l) p l)))) ∧
        (((createdAlbums create l).zip l).map
            (nestEntry nest (createdAlbums create l) p l)).map (fun e => e.path) = l ∧
        ∀ x ∈ (createdAlbums create l).zip l,
          ((nestCall (createdAlbums create l) p l x).isSome = hasParent x.2) ∧
            (hasParent x.2 = false →
              (nestEntry nest (createdAlbums create l) p l x).album = x.1)) := by
  constructor
  · intro hnil
    subst hnil
    simp [createMissingAlbums]
  · intro hne
    refine ⟨createMissingAlbums_resolved create nest g p l hne hres, ?_, ?_⟩
    · rw [List.map_map]
      have hsnd : (fun e => e.path) ∘ nestEntry nest (createdAlbums create l) p l
          = Prod.snd := by
        funext x
        simp only [Function.comp, nestEntry]
        split_ifs <;> rfl
      rw [hsnd]
      exact List.map_snd_zip _ _ (by rw [createdAlbums_length])
    · intro x hx
      have hxl : x.2 ∈ l := (List.of_mem_zip hx).2
      constructor
      · unfold nestCall
        by_cases hp : hasParent x.2 = true
        · obtain ⟨par, hpar⟩ := parentAlbum_isSome create p l _ (hres x.2 hxl hp)
          simp [hp, hpar]
        · simp [hp]
      · intro hp
        simp [nestEntry, hp]

/-- C18 on scenario C: existing `["X"]` and missing `["X/Y"]` give one create
call for `Y`, then one nest call under the existing `X`, and the entries of
`X` and of `X/Y`; an empty list of missing paths gives no call. -/
theorem C18_create_then_nest_witness :
    createMissingAlbums sampleCreate sampleNest "g" existingX ["X/Y"] =
        ([RemoteCall.createAlbum "g" "Y", RemoteCall.nestAlbum "x1" "new0"],
          some (some [{ path := "X", album := { id := "x1", name := "X" } },
            { path := "X/Y", album := { id := "new0", name := "nested" } }])) ∧
      createMissingAlbums sampleCreate sampleNest "g" existingX [] = ([], some none) ∧
      (["X/Y"] ≠ [] →
        (((createdAlbums sampleCreate ["X/Y"]).zip ["X/Y"]).map
          (nestEntry sampleNest (createdAlbums sampleCreate ["X/Y"]) existingX ["X/Y"])).map
            (fun e => e.path) = ["X/Y"]) :=
  ⟨by decide, by decide,
    fun h => ((C18_create_then_nest sampleCreate sampleNest "g" existingX ["X/Y"]
      (by decide)).2 h).2.1⟩

mutual
theorem albumPaths_eq_chains (pre : List String) :
    ∀ tree : List AlbumNode,
      albumPathsFromAlbums (joinAll pre) tree =
        (albumChains pre tree).map (fun x => { path := joinAll x.1, album := x.2 })
  | [] => by simp [albumPathsFromAlbums, albumChains]
  | l :: ls => by
    rw [albumPathsFromAlbums, albumChains, List.map_append, albumPathsEntry_eq_chains pre l,
      albumPaths_eq_chains pre ls]
theorem albumPathsEntry_eq_chains (pre : List String) :
    ∀ l : AlbumNode,
      albumPathsEntry (joinAll pre) l =
        (albumChainsEntry pre l).map (fun x => { path := joinAll x.1, album := x.2 })
  | .mk album (some subs) => by
    rw [albumPathsEntry, albumChainsEntry, List.map_cons, ← joinAll_append,
      albumPaths_eq_chains (pre ++ [album.name]) subs]
  | .mk album none => by
    rw [albumPathsEntry, albumChainsEntry, List.map_cons, ← joinAll_append]
    rfl
end

mutual
theorem albumChains_length (pre : List String) :
    ∀ tree : List AlbumNode, (albumChains pre tree).length = countAlbums tree
  | [] => by simp [albumChains, countAlbums]
  | l :: ls => by
    rw [albumChains, countAlbums, List.length_append, albumChainsEntry_length pre l,
      albumChains_length pre ls]
theorem albumChainsEntry_length (pre : List String) :
    ∀ l : AlbumNode, (albumChainsEntry pre l).length = countAlbumsEntry l
  | .mk album (some subs) => by
    rw [albumChainsEntry, countAlbumsEntry, List.length_cons,
      albumChains_length (pre ++ [album.name]) subs]
    omega
  | .mk album none => by simp [albumChainsEntry, countAlbumsEntry]
end

/-- C19, counterexample: a remote album named `Day 1 // Ceremony` gets the
path `Day 1 / Ceremony`, which is not its name, the only name to join. -/
theorem C19_counterexample :
    albumPathsFromAlbums "" [AlbumNode.mk { id := "c1", name := "Day 1 // Ceremony" } none]
        = [{ path := "Day 1 / Ceremony", album := { id := "c1", name := "Day 1 // Ceremony" } }] ∧
      "/".intercalate ["Day 1 // Ceremony"] ≠ "Day 1 / Ceremony" := by
  decide

/-- C19, amended: for every remote album tree, `albumPathsFromAlbums("", tree)`
has one entry per album at any depth, in the depth-first order of
`albumChains` (an album before its sub-albums); the path of an entry is the
names of the ancestors of the album and its own name joined one after the
other by `path.join`, which normalises its result; it is these names joined
with `/` when each of them is an entry name (not empty, without `/`, neither
`.` nor `..`); and the album of an entry is the album without `sub_albums`. -/
theorem C19_albumPaths_flatten (tree : List AlbumNode) :
    albumPathsFromAlbums "" tree =
        (albumChains [] tree).map (fun x => { path := joinAll x.1, album := x.2 }) ∧
      (albumPathsFromAlbums "" tree).length = countAlbums tree ∧
      ∀ x ∈ albumChains [] tree, (∀ n ∈ x.1, entryName n = true) →
        joinAll x.1 = "/".intercalate x.1 := by
  have h := albumPaths_eq_chains [] tree
  have hj : joinAll [] = "" := rfl
  rw [hj] at h
  refine ⟨h, ?_, ?_⟩
  · rw [h, List.length_map, albumChains_length]
  · intro x _ hseg
    cases hx : x.1 with
    | nil => rfl
    | cons a rest =>
      rw [hx] at hseg
      rw [joinAll_chain (a :: rest) (by simp) hseg]
      apply String.ext
      rw [intercalate_data]

/-- C19 amended, on the sample tree: the albums `X`, its sub-album `Y` and `Z`
give the paths `X`, `X/Y` and `Z`, in this order. -/
theorem C19_albumPaths_flatten_witness :
    albumPathsFromAlbums "" sampleAlbums
        = [{ path := "X", album := { id := "x1", name := "X" } },
            { path := "X/Y", album := { id := "y1", name := "Y" } },
            { path := "Z", album := { id := "z1", name := "Z" } }] ∧
      (albumPathsFromAlbums "" sampleAlbums).length = countAlbums sampleAlbums ∧
      joinAll ["X", "Y"] = "/".intercalate ["X", "Y"] :=
  ⟨by decide, (C19_albumPaths_flatten sampleAlbums).2.1,
    (C19_albumPaths_flatten sampleAlbums).2.2 (["X", "Y"], { id := "y1", name := "Y" })
      (by decide) (by decide)⟩

theorem dropWhile_head_not {α : Type} (q : α → Bool) (l : List α) (c : α) (pre : List α)
    (h : l.dropWhile q = c :: pre) : q c = false := by
  induction l with
  | nil => simp at h
  | cons a l ih =>
    by_cases ha : q a = true
    · rw [List.dropWhile_cons_of_pos ha] at h
      exact ih h
    · rw [List.dropWhile_cons_of_neg ha] at h
      obtain ⟨hac, -⟩ := List.cons.inj h
      rw [← hac]
      simpa using ha

/-- Parsing `/rel` and joining what is left of `dir` with `base` gives `rel`
normalised, for a relative path `rel` that is not empty and neither starts
nor ends with a separator. -/
theorem parse_join_relative (rel : String) (hne : rel.data ≠ [])
    (hhead : rel.data.head? ≠ some '/') (hlast : rel.data.getLast? ≠ some '/') :
    path.join (dropLeading (path.parse ("/" ++ rel)).root (path.parse ("/" ++ rel)).dir)
      (path.parse ("/" ++ rel)).base = path.normalize rel := by
  obtain ⟨cs⟩ := rel
  simp only [] at hne hhead hlast
  have hdata : ("/" ++ (⟨cs⟩ : String)).data = '/' :: cs := by
    rw [String.data_append]
    rfl
  have hrne : cs.reverse ≠ [] := by simpa using hne
  have hrhead : cs.reverse.head? ≠ some '/' := by
    rw [List.head?_reverse]
    exact hlast
  have hr : cs.reverse.dropWhile (fun c => c == '/') = cs.reverse := by
    cases hrev : cs.reverse with
    | nil => rfl
    | cons a t =>
      rw [hrev] at hrhead
      have ha : ¬ ((a == '/') = true) := by
        intro h
        apply hrhead
        simp only [beq_iff_eq] at h
        simp [h]
      simp only [beq_iff_eq] at ha
      simp [List.dropWhile_cons, ha]
  have hspan := List.takeWhile_append_dropWhile (fun c => c != '/') cs.reverse
  have htake : cs.reverse.takeWhile (fun c => c != '/') ≠ [] := by
    cases hrev : cs.reverse with
    | nil => exact absurd hrev hrne
    | cons a t =>
      rw [hrev] at hrhead
      have ha : (a != '/') = true := by
        simp only [bne_iff_ne, ne_eq]
        intro h
        apply hrhead
        simp [h]
      simp only [bne_iff_ne, ne_eq] at ha
      simp [List.takeWhile_cons, ha]
  unfold path.parse
  simp only [hdata, List.head?_cons, beq_self_eq_true, if_true, List.tail_cons, hr]
  cases hd : cs.reverse.dropWhile (fun c => c != '/') with
  | nil =>
    rw [hd, List.append_nil] at hspan
    simp only [hspan, List.reverse_reverse]
    have hbase : ¬ (⟨cs⟩ : String) = "" := by
      rw [string_eq_empty_iff]
      exact hne
    have hdrop : dropLeading "/" "/" = "" := by decide
    rw [hdrop]
    unfold path.join path.joinArgs
    simp only [List.filter_cons, List.filter_nil, bne_iff_ne, ne_eq, hbase, not_false_eq_true,
      decide_True, if_true, not_true_eq_false, decide_False, Bool.false_eq_true, if_false]
    simp [String.intercalate, String.intercalate.go]
  | cons c pre =>
    have hc : (c != '/') = false := dropWhile_head_not _ _ c pre hd
    have hc' : c = '/' := by simpa using hc
    subst hc'
    rw [hd] at hspan
    have hcs : cs = pre.reverse ++ '/' :: (cs.reverse.takeWhile (fun c => c != '/')).reverse := by
      have := congrArg List.reverse hspan
      simp only [List.reverse_append, List.reverse_cons, List.reverse_reverse,
        List.append_assoc, List.singleton_append] at this
      exact this.symm
    have hpre : pre ≠ [] := by
      intro hnil
      rw [hnil] at hcs
      rw [hcs] at hhead
      simp at hhead
    simp only [List.singleton_append]
    have hdrop : dropLeading "/" (String.mk ('/' :: pre.reverse)) = String.mk pre.reverse := by
      simp [dropLeading, List.isPrefixOf]
    rw [hdrop]
    have hm : ¬ (String.mk pre.reverse) = "" := by
      rw [string_eq_empty_iff]
      simpa using hpre
    have hb : ¬ (String.mk (cs.reverse.takeWhile (fun c => c != '/')).reverse) = "" := by
      rw [string_eq_empty_iff]
      simpa using htake
    unfold path.join path.joinArgs
    simp only [List.filter_cons, List.filter_nil, bne_iff_ne, ne_eq, hm, hb, not_false_eq_true,
      decide_True, if_true]
    refine congrArg path.normalize ?_
    apply String.ext
    rw [intercalate_data]
    simp only [joinChars]
    conv_rhs => rw [hcs]

/-- The flattening of `sampleAlbums`. -/
theorem sampleAlbums_flatten : albumPathsFromAlbums "" sampleAlbums = sampleEntries := by
  decide

/-- C20, counterexample: a remote album named `.` is listed with the path `.`,
and a photo whose file lies directly in the base path (its album path is
empty) then gets the id of this album, not null. -/
theorem C20_counterexample :
    albumPathsFromAlbums "" [AlbumNode.mk { id := "d1", name := "." } none]
        = [{ path := ".", album := { id := "d1", name := "." } }] ∧
      (examplePhoto "/b/1.jpg" "job1" 0 Status.PENDING).albumPath = "" ∧
      albumFromPhoto [{ path := ".", album := { id := "d1", name := "." } }]
        (examplePhoto "/b/1.jpg" "job1" 0 Status.PENDING) = some "d1" := by
  decide

/-- C20, amended: for every list of entries and every photo, `albumFromPhoto`
returns the id of the first entry with the path it looks up, and null when
no entry has this path or the id of that entry is empty.  The path looked up
is `.` when the album path of the photo is empty (the file lies directly in
the base path), so that null is returned then unless an entry has the path
`.`; and it is `rel` normalised when the album path is `/rel`, with `rel` the
folder path relative to the base path, which is `rel` itself when `rel` is a
chain of entry names joined with `/`. -/
theorem C20_albumFromPhoto (g : List AlbumPathEntry) (ph : Photo) :
    (ph.albumPath = "" →
        albumFromPhoto g ph = (g.find? (fun e => e.path == ".")).bind
          (fun e => if e.album.id = "" then none else some e.album.id)) ∧
      (ph.albumPath = "" → (∀ e ∈ g, e.path ≠ ".") → albumFromPhoto g ph = none) ∧
      (∀ rel : String, ph.albumPath = "/" ++ rel → rel.data ≠ [] →
        rel.data.head? ≠ some '/' → rel.data.getLast? ≠ some '/' →
        albumFromPhoto g ph = (g.find? (fun e => e.path == path.normalize rel)).bind
          (fun e => if e.album.id = "" then none else some e.album.id)) ∧
      (∀ names : List String, names ≠ [] → (∀ n ∈ names, entryName n = true) →
        ph.albumPath = "/" ++ "/".intercalate names →
        albumFromPhoto g ph = (g.find? (fun e => e.path == "/".intercalate names)).bind
          (fun e => if e.album.id = "" then none else some e.album.id)) := by
  have hjoin : path.join (dropLeading (path.parse "").root (path.parse "").dir)
      (path.parse "").base = "." := by decide
  have hbind : ∀ key : String,
      (match g.find? (fun e => e.path == key) with
        | some e => if e.album.id = "" then none else some e.album.id
        | none => none)
      = (g.find? (fun e => e.path == key)).bind
          (fun e => if e.album.id = "" then none else some e.album.id) := by
    intro key
    cases g.find? (fun e => e.path == key) <;> rfl
  have hrel : ∀ rel : String, ph.albumPath = "/" ++ rel → rel.data ≠ [] →
      rel.data.head? ≠ some '/' → rel.data.getLast? ≠ some '/' →
      albumFromPhoto g ph = (g.find? (fun e => e.path == path.normalize rel)).bind
        (fun e => if e.album.id = "" then none else some e.album.id) := by
    intro rel hrel hne hhead hlast
    unfold albumFromPhoto
    rw [hrel]
    simp only [parse_join_relative rel hne hhead hlast]
    exact hbind _
  have hempty : ph.albumPath = "" →
      albumFromPhoto g ph = (g.find? (fun e => e.path == ".")).bind
        (fun e => if e.album.id = "" then none else some e.album.id) := by
    intro hempty
    unfold albumFromPhoto
    rw [hempty]
    simp only [hjoin]
    exact hbind _
  refine ⟨hempty, ?_, hrel, ?_⟩
  · intro he hdot
    have hnone : g.find? (fun e => e.path == ".") = none := by
      rw [List.find?_eq_none]
      intro e he
      simpa using hdot e he
    rw [hempty he, hnone]
    rfl
  · intro names hne hseg hpath
    have hpl := entryName_plain names hseg
    obtain ⟨a, rest, rfl⟩ := List.exists_cons_of_ne_nil hne
    have hstr : "/".intercalate (a :: rest) = String.mk (joinChars (a :: rest)) := by
      apply String.ext
      rw [intercalate_data]
    have hhead : (joinChars (a :: rest)).head? ≠ some '/' := by
      have := joinChars_head (a :: rest) hne hpl
      simpa using this
    obtain ⟨c, hc, hcne⟩ := joinChars_getLast (a :: rest) hne hpl
    rw [hstr] at hpath ⊢
    rw [hrel _ hpath (joinChars_ne_nil _ hne hpl) hhead (by rw [hc]; simpa using hcne),
      normalize_chain _ hne hseg]

/-- C20 amended, on samples: a photo in `X/Y` gets the id of the album `X/Y`,
also when its album path is written `/X//Y` or `/X/./Y`; a photo in the base
path gets null, and so does a photo in a folder without album. -/
theorem C20_albumFromPhoto_witness :
    albumFromPhoto sampleEntries { examplePhoto "/b/X/Y/1.jpg" "job1" 0 Status.PENDING with
        albumPath := "/X/Y" } = some "y1" ∧
      albumFromPhoto sampleEntries { examplePhoto "/b/X/Y/1.jpg" "job1" 0 Status.PENDING with
        albumPath := "/X//Y" } = some "y1" ∧
      albumFromPhoto sampleEntries { examplePhoto "/b/X/Y/1.jpg" "job1" 0 Status.PENDING with
        albumPath := "/X/./Y" } = some "y1" ∧
      albumFromPhoto sampleEntries (examplePhoto "/b/1.jpg" "job1" 0 Status.PENDING) = none ∧
      albumFromPhoto sampleEntries { examplePhoto "/b/W/1.jpg" "job1" 0 Status.PENDING with
        albumPath := "/W" } = none :=
  ⟨by
      rw [(C20_albumFromPhoto sampleEntries _).2.2.2 ["X", "Y"] (by decide) (by decide) rfl]
      decide,
    by
      rw [(C20_albumFromPhoto sampleEntries _).2.2.1 "X//Y" rfl (by decide) (by decide)
        (by decide)]
      decide,
    by
      rw [(C20_albumFromPhoto sampleEntries _).2.2.1 "X/./Y" rfl (by decide) (by decide)
        (by decide)]
      decide,
    (C20_albumFromPhoto sampleEntries _).2.1 rfl (by decide),
    by
      rw [(C20_albumFromPhoto sampleEntries _).2.2.1 "W" rfl (by decide) (by decide)
        (by decide)]
      decide⟩

/-! ### The property `errors` of a job is never written -/

theorem uploadCompleteHandler_errors (fire : Bool) (C : Queue) (photo : PhotoRef)
    (r : Queue × Effects) (h : uploadCompleteHandler fire C photo = some r) (j : JobRef) :
    (r.1.jobObj j).errors = (C.jobObj j).errors := by
  cases hfind : C.jobs.find? (fun j => (C.jobObj j).id == (C.photoObj photo).jobId) with
  | none =>
    unfold uploadCompleteHandler at h
    rw [hfind] at h
    exact absurd h (by simp)
  | some y =>
    obtain ⟨r', hr', -, hj, -⟩ := uploadCompleteHandler_found fire C photo y hfind
    have hrr : r = r' := Option.some.inj (h.symm.trans hr')
    subst hrr
    rw [hj]
    by_cases hjy : j = y
    · subst hjy
      simp only [Function.update_same]
    · rw [Function.update_noteq hjy]

theorem resume_jobObj (fire : Bool) (C : Queue) : (resume fire C).1.jobObj = C.jobObj := by
  unfold resume
  rw [throttledActivate_jobObj]
  rfl

/-- No event other than an enqueue changes the property `errors` of a job
object. -/
theorem step_errors (C : Queue) (op : Op) (j : JobRef)
    (hop : ∀ B ps, op ≠ Op.enqueue B ps) :
    ((step C op).jobObj j).errors = (C.jobObj j).errors := by
  cases op with
  | enqueue B ps => exact absurd rfl (hop B ps)
  | activate => rfl
  | pause => rfl
  | resume fire =>
    show ((resume fire C).1.jobObj j).errors = _
    rw [resume_jobObj]
  | complete photo fire =>
    simp only [step]
    cases h : uploadCompleteHandler fire C photo with
    | none => rfl
    | some r => exact uploadCompleteHandler_errors fire C photo r h j
  | retry photo fire =>
    show ((spApp.retryUpload fire C photo).1.jobObj j).errors = _
    unfold spApp.retryUpload
    dsimp only
    split_ifs
    · rfl
    · rw [resume_jobObj]
  | cancel d =>
    show ((spQueue.cancel C d).1.jobObj j).errors = _
    by_cases hjd : j = d
    · subst hjd
      simp [spQueue.cancel]
    · simp [spQueue.cancel, Function.update_noteq hjd]
  | appCompleted photo a b =>
    show ((spApp.uploadCompleted a b C photo).jobObj j).errors = _
    unfold spApp.uploadCompleted
    dsimp only
    split_ifs <;> rfl
  | start photo => rfl
  | progress photo X => rfl
  | streamError photo q => rfl
  | response photo code H => rfl
  | duplicate photo => rfl

theorem jobFromStaging_errors (create : Nat → String → Album)
    (nest : String → String → Album) (y : String) (rid : Nat → String) (d : Staging)
    (f : List AlbumNode) (B : Job) (ps : List Photo)
    (h : (spQueue.jobFromStaging create nest y rid d f).2 = some (B, ps)) :
    B.errors = false := by
  unfold spQueue.jobFromStaging at h
  split at h
  · exact absurd h (by simp)
  · dsimp only at h
    split at h
    · split at h
      · have h1 := (Prod.mk.inj (Option.some.inj h)).1
        rw [← h1]
      · exact absurd h (by simp)
    · exact absurd h (by simp)

/-- C21: `restore` keeps the persisted jobs that satisfy every predicate, in
order; but with the start-up predicate a persisted job that is COMPLETED and
has a photo carrying an error is dropped.  The predicate reads the property
`errors` of the job, which `jobFromStaging` does not create and no event
writes, so that it keeps a job exactly when the job is not COMPLETED. -/
theorem C21_restore_drops_completed_job_with_photo_error :
    (∀ (C : Queue) (f : List JobRef) (d : List (JobRef → Bool)),
      (spQueue.restore C (some f) d).map (fun r => r.jobs)
        = some (f.filter (fun j => d.all (fun y => y j)))) ∧
    (∀ (C : Queue) (t : JobRef), (C.jobObj t).errors = false →
      spQueue.startupPredicate C t = ((C.jobObj t).status != Status.COMPLETED)) ∧
    (completedWithError.jobObj 0).status = Status.COMPLETED ∧
    (completedWithError.jobObj 0).errors = false ∧
    (completedWithError.jobObj 0).photos.any
      (fun p => ErrorTag.truthy (completedWithError.photoObj p).error) = true ∧
    (spQueue.restore completedWithError (some [0])
      [spQueue.startupPredicate completedWithError]).map (fun r => r.jobs) = some [] := by
  refine ⟨fun C f d => rfl, ?_, by decide, by decide, by decide, by decide⟩
  intro C t ht
  simp [spQueue.startupPredicate, ht]

/-! ### Enqueueing the staging draft -/

theorem foldl_update_zip (ps : List Photo) :
    ∀ (base : Nat) (h : PhotoRef → Photo),
      (∀ p, p < base →
        (ps.zip ((List.range ps.length).map (fun i => base + i))).foldl
          (fun h pr => Function.update h pr.2 pr.1) h p = h p) ∧
      (∀ i (hi : i < ps.length),
        (ps.zip ((List.range ps.length).map (fun i => base + i))).foldl
          (fun h pr => Function.update h pr.2 pr.1) h (base + i) = ps[i]) := by
  induction ps with
  | nil =>
    intro base h
    exact ⟨fun p _ => rfl, fun i hi => absurd hi (Nat.not_lt_zero i)⟩
  | cons a rest ih =>
    intro base h
    have hr : (List.range (a :: rest).length).map (fun i => base + i)
        = base :: (List.range rest.length).map (fun i => (base + 1) + i) := by
      rw [List.length_cons, List.range_succ_eq_map, List.map_cons, List.map_map]
      refine congrArg₂ List.cons rfl (List.map_congr_left ?_)
      intro i _
      simp only [Function.comp]
      omega
    rw [hr, List.zip_cons_cons, List.foldl_cons]
    dsimp only
    obtain ⟨h1, h2⟩ := ih (base + 1) (Function.update h base a)
    constructor
    · intro p hp
      rw [h1 p (by omega), Function.update_noteq (Nat.ne_of_lt hp)]
    · intro i hi
      cases i with
      | zero =>
        have e := h1 base (by omega)
        rw [Function.update_same] at e
        exact e
      | succ j =>
        have hj : j < rest.length := by simpa using hi
        have := h2 j hj
        rw [show base + (j + 1) = base + 1 + j by omega, this]
        rfl

/-- What `enqueueJob` leaves: the job is appended, the objects of the other
jobs and of the earlier photos are untouched, the new job object is `B` with
the fresh references as its photos, and the `i`-th of them holds the `i`-th
photo object. -/
theorem enqueueJob_spec (C : Queue) (B : Job) (ps : List Photo) :
    (spQueue.enqueueJob C B ps).jobs = C.jobs ++ [C.nextJob] ∧
    (∀ j, j ≠ C.nextJob → (spQueue.enqueueJob C B ps).jobObj j = C.jobObj j) ∧
    (∀ p, p < C.nextPhoto → (spQueue.enqueueJob C B ps).photoObj p = C.photoObj p) ∧
    (spQueue.enqueueJob C B ps).jobObj C.nextJob
      = { B with photos := (List.range ps.length).map (fun i => C.nextPhoto + i) } ∧
    ((List.range ps.length).map (fun i => C.nextPhoto + i)).map
      (spQueue.enqueueJob C B ps).photoObj = ps := by
  obtain ⟨h1, h2⟩ := foldl_update_zip ps C.nextPhoto C.photoObj
  refine ⟨rfl, ?_, ?_, ?_, ?_⟩
  · intro j hj
    simp [spQueue.enqueueJob, spQueue.newJob, Function.update_noteq hj]
  · intro p hp
    exact h1 p hp
  · simp [spQueue.enqueueJob, spQueue.newJob]
  · apply List.ext_getElem
    · simp
    · intro i hi1 hi2
      simp only [List.getElem_map, List.getElem_range]
      exact h2 i hi2

theorem foldl_add_size (l : List PathEntry) :
    ∀ (sizes : List Nat) (n : Nat), l.map (fun e => e.size) = sizes.map Size.bytes →
      l.foldl (fun Q pe => Size.addTo Q pe.size) (some n) = some (n + sizes.sum) := by
  induction l with
  | nil =>
    intro sizes n h
    cases sizes with
    | nil => rfl
    | cons k ks => simp at h
  | cons a rest ih =>
    intro sizes n h
    cases sizes with
    | nil => simp at h
    | cons k ks =>
      rw [List.map_cons, List.map_cons, List.cons.injEq] at h
      rw [List.foldl_cons, h.1]
      show rest.foldl (fun Q pe => Size.addTo Q pe.size) (some (n + k)) = _
      rw [ih ks (n + k) h.2, List.sum_cons, Nat.add_assoc]

/-- C22, counterexample: the scan of a folder with a JPEG file and a symbolic
link named `link.jpg` stages two valid entries, the second without a size;
the draft is enqueued, and the `totalFilesize` of the new job is `NaN`. -/
theorem C22_counterexample :
    linkStaging.checked.map (fun c => c.valid)
        = some [⟨"/a/1.jpg", Size.bytes 10⟩, ⟨"/a/link.jpg", Size.undefined⟩] ∧
      ∃ C1 : Queue,
        (spQueue.enqueueJobFromStaging sampleCreate sampleNest "job9" (fun i => toString i)
          (some []) freshJob linkStaging).2 = some (C1, spQueue.stagingTemplate) ∧
        C1.jobs = [0, 1] ∧
        (C1.jobObj 1).totalFilesize = none :=
  ⟨by decide, _, rfl, rfl, rfl⟩

/-- C22, amended: for a draft with a gallery chosen and its checked lists set,
with a watermark chosen and a base path set when there is a valid entry, and
whose valid entries each have a size (`sizes` lists them): when `getAlbums`
and `createMissingAlbums` resolve, `enqueueJobFromStaging` appends exactly one
job at the end of the queue; the objects of the other jobs and of the earlier
photos are untouched; the new job has the fresh id, status PENDING, progress
0, `totalFilesize` equal to the sum of the sizes of the valid entries, and
one photo per valid entry in the same order, each PENDING with
`transferred = 0`, the path and size of its entry and the id of the job as
`jobId`; the draft is reset to the template. -/
theorem C22_enqueue_appends_job (create : Nat → String → Album)
    (nest : String → String → Album) (y : String) (rid : Nat → String)
    (f : List AlbumNode) (C : Queue) (d : Staging) (g : String) (checked : Checked)
    (Z : Option (List AlbumPathEntry)) (sizes : List Nat)
    (hg : d.galleryOptions.gallery = some g) (hch : d.checked = some checked)
    (hsize : checked.valid.map (fun e => e.size) = sizes.map Size.bytes)
    (hready : checked.valid ≠ [] →
      d.galleryOptions.watermark.isSome = true ∧ d.basePath.isSome = true)
    (hres : (spAlbum.createMissingAlbums create nest g (spAlbum.albumPathsFromAlbums "" f)
      (spAlbum.getMissingAlbums (spAlbum.albumPathsFromAlbums "" f)
        (d.folderList.getD []))).2 = some Z) :
    ∃ C1 : Queue,
      (spQueue.enqueueJobFromStaging create nest y rid (some f) C d).2
        = some (C1, spQueue.stagingTemplate) ∧
      C1.jobs = C.jobs ++ [C.nextJob] ∧
      (∀ j, j ≠ C.nextJob → C1.jobObj j = C.jobObj j) ∧
      (∀ p, p < C.nextPhoto → C1.photoObj p = C.photoObj p) ∧
      (C1.jobObj C.nextJob).id = y ∧
      (C1.jobObj C.nextJob).status = Status.PENDING ∧
      (C1.jobObj C.nextJob).progress = some 0 ∧
      (C1.jobObj C.nextJob).totalFilesize = some sizes.sum ∧
      (C1.jobObj C.nextJob).photos
        = (List.range checked.valid.length).map (fun i => C.nextPhoto + i) ∧
      (C1.jobObj C.nextJob).photos.map
          (fun p => ((C1.photoObj p).path, (C1.photoObj p).size, (C1.photoObj p).status,
            (C1.photoObj p).transferred, (C1.photoObj p).jobId))
        = checked.valid.map (fun e => (e.path, e.size, Status.PENDING, (0 : ℚ), y)) := by
  have hps : ∃ ps : List Photo,
      spQueue.photosFromStaging y rid d checked.valid = some ps ∧
      ps.length = checked.valid.length ∧
      ps.map (fun q => (q.path, q.size, q.status, q.transferred, q.jobId))
        = checked.valid.map (fun e => (e.path, e.size, Status.PENDING, (0 : ℚ), y)) := by
    unfold spQueue.photosFromStaging
    by_cases hv : checked.valid.isEmpty = true
    · rw [if_pos hv]
      have : checked.valid = [] := List.isEmpty_iff.mp hv
      exact ⟨[], rfl, by simp [this], by simp [this]⟩
    · obtain ⟨hw, hbp⟩ := hready (fun h => hv (List.isEmpty_iff.mpr h))
      obtain ⟨w, hw⟩ := Option.isSome_iff_exists.mp hw
      obtain ⟨bp, hbp⟩ := Option.isSome_iff_exists.mp hbp
      rw [if_neg hv, hw, hbp]
      refine ⟨_, rfl, by simp, ?_⟩
      rw [List.map_map]
      have hsnd : ((List.range checked.valid.length).zip checked.valid).map Prod.snd
          = checked.valid := List.map_snd_zip _ _ (by simp)
      conv_rhs => rw [← hsnd]
      rw [List.map_map]
      rfl
  obtain ⟨ps, hps1, hps2, hps3⟩ := hps
  obtain ⟨e1, e2, e3, e4, e5⟩ := enqueueJob_spec C
    { id := y
      status := Status.PENDING
      progress := some 0
      totalFilesize := checked.valid.foldl (fun Q pe => Size.addTo Q pe.size) (some 0)
      basePath := d.basePath
      photos := []
      errors := false }
    (ps.map (fun Q =>
      { Q with
        albumId :=
          spAlbum.albumFromPhoto (Z.getD (spAlbum.albumPathsFromAlbums "" f)) Q }))
  refine ⟨_, ?_, e1, e2, e3, ?_, ?_, ?_, ?_, ?_, ?_⟩
  · simp only [spQueue.enqueueJobFromStaging, spQueue.jobFromStaging, hg, hres, hch, hps1]
    rfl
  · rw [e4]
  · rw [e4]
  · rw [e4]
  · rw [e4]
    show checked.valid.foldl (fun Q pe => Size.addTo Q pe.size) (some 0) = _
    rw [foldl_add_size checked.valid sizes 0 hsize, Nat.zero_add]
  · rw [e4]
    simp [hps2]
  · rw [e4]
    show ((List.range (ps.map _).length).map (fun i => C.nextPhoto + i)).map _ = _
    rw [← hps3]
    have := congrArg (List.map (fun q : Photo =>
      (q.path, q.size, q.status, q.transferred, q.jobId))) e5
    simp only [List.map_map] at this ⊢
    exact this

/-- C22 amended, at the sample draft (three files selected, two valid) enqueued behind
one job, the gallery having no album: the new job has the two valid files
as its photos and their 40 bytes as its total size. -/
theorem C22_enqueue_appends_job_witness :
    ∃ C1 : Queue,
      (spQueue.enqueueJobFromStaging sampleCreate sampleNest "job9" (fun i => toString i)
        (some []) freshJob sampleStaging).2 = some (C1, spQueue.stagingTemplate) ∧
      C1.jobs = [0, 1] ∧
      (C1.jobObj 1).id = "job9" ∧
      (C1.jobObj 1).status = Status.PENDING ∧
      (C1.jobObj 1).progress = some 0 ∧
      (C1.jobObj 1).totalFilesize = some 40 ∧
      (C1.jobObj 1).photos = [3, 4] ∧
      (C1.jobObj 1).photos.map
          (fun p => ((C1.photoObj p).path, (C1.photoObj p).size, (C1.photoObj p).status,
            (C1.photoObj p).transferred, (C1.photoObj p).jobId))
        = [("/a/1.jpg", 10, Status.PENDING, 0, "job9"),
            ("/a/3.jpg", 30, Status.PENDING, 0, "job9")] := by
  obtain ⟨C1, h1, h2, -, -, h5, h6, h7, h8, h9, h10⟩ :=
    C22_enqueue_appends_job sampleCreate sampleNest "job9" (fun i => toString i) []
      freshJob sampleStaging "g1"
      ⟨[⟨"/a/1.jpg", 10⟩, ⟨"/a/3.jpg", 30⟩], [⟨"/a/2.png", 20⟩], []⟩ none [10, 30]
      (by decide) (by decide) (by decide) (by decide) (by decide)
  exact ⟨C1, h1, h2, h5, h6, h7, h8, h9, h10⟩

/-! ### Resubmitting a job -/

/-- C23: resubmitting a canceled job removes it from the queue and appends a
new PENDING job whose photos are all PENDING with `transferred = 0`; the
objects of the original job and photos are left as they were; but the new
job keeps the progress 1 of the canceled job, while the mean of the
`transferred` values of its photos is 0. -/
theorem C23_resubmit_copies_progress :
    spQueueJobDetail.showResubmit canceledJob 0 = true ∧
    (spQueueJobDetail.resubmit true canceledJob 0).1.jobs = [1] ∧
    ((spQueueJobDetail.resubmit true canceledJob 0).1.jobObj 1).status = Status.PENDING ∧
    ((spQueueJobDetail.resubmit true canceledJob 0).1.jobObj 1).photos = [3, 4, 5] ∧
    (∀ p ∈ [3, 4, 5],
      ((spQueueJobDetail.resubmit true canceledJob 0).1.photoObj p).status = Status.PENDING ∧
      ((spQueueJobDetail.resubmit true canceledJob 0).1.photoObj p).transferred = 0) ∧
    ((spQueueJobDetail.resubmit true canceledJob 0).1.jobObj 0).status = Status.CANCELED ∧
    (∀ p ∈ [0, 1, 2],
      ((spQueueJobDetail.resubmit true canceledJob 0).1.photoObj p).status = Status.CANCELED ∧
      ((spQueueJobDetail.resubmit true canceledJob 0).1.photoObj p).transferred = 1) ∧
    ((spQueueJobDetail.resubmit true canceledJob 0).1.jobObj 1).progress = some 1 ∧
    spQueue.meanTransferred (spQueueJobDetail.resubmit true canceledJob 0).1 [3, 4, 5]
      = some 0 := by
  refine ⟨by decide, by decide, by decide, by decide, by decide, by decide, by decide,
    by decide, ?_⟩
  have h : ∀ p ∈ [3, 4, 5],
      ((spQueueJobDetail.resubmit true canceledJob 0).1.photoObj p).transferred = 0 := by
    decide
  rw [meanTransferred_eq _ _ (by decide)]
  simp [h]

/-! ### The common base path of a path list -/

theorem takeWhileIdx_prefix_right (y : List String) :
    ∀ (s : List String) (x : Nat), takeWhileIdx y x s <+: s := by
  intro s
  induction s with
  | nil => intro x; exact List.prefix_refl _
  | cons a rest ih =>
    intro x
    unfold takeWhileIdx
    by_cases h : y[x]? = some a
    · rw [if_pos h]
      exact List.cons_prefix_cons.mpr ⟨rfl, ih (x + 1)⟩
    · rw [if_neg h]
      exact List.nil_prefix

theorem takeWhileIdx_prefix_left (y : List String) :
    ∀ (s : List String) (x : Nat), takeWhileIdx y x s <+: y.drop x := by
  intro s
  induction s with
  | nil => intro x; exact List.nil_prefix
  | cons a rest ih =>
    intro x
    unfold takeWhileIdx
    by_cases h : y[x]? = some a
    · rw [if_pos h]
      obtain ⟨hx, ha⟩ := List.getElem?_eq_some.mp h
      rw [List.drop_eq_getElem_cons hx, ha]
      exact List.cons_prefix_cons.mpr ⟨rfl, ih (x + 1)⟩
    · rw [if_neg h]
      exact List.nil_prefix

theorem takeWhileIdx_greatest (y : List String) :
    ∀ (g s : List String) (x : Nat), g <+: y.drop x → g <+: s → g <+: takeWhileIdx y x s := by
  intro g
  induction g with
  | nil => intro s x _ _; exact List.nil_prefix
  | cons b g ih =>
    intro s x hy hs
    cases s with
    | nil => exact absurd (List.prefix_nil.mp hs) (List.cons_ne_nil _ _)
    | cons a rest =>
      obtain ⟨hba, hrest⟩ := List.cons_prefix_cons.mp hs
      subst hba
      have hx : x < y.length := by
        by_contra hlt
        rw [List.drop_eq_nil_of_le (Nat.le_of_not_lt hlt)] at hy
        exact absurd (List.prefix_nil.mp hy) (List.cons_ne_nil _ _)
      rw [List.drop_eq_getElem_cons hx] at hy
      obtain ⟨hb, hdrop⟩ := List.cons_prefix_cons.mp hy
      have hget : y[x]? = some b := by
        rw [List.getElem?_eq_getElem hx, hb]
      unfold takeWhileIdx
      rw [if_pos hget]
      exact List.cons_prefix_cons.mpr ⟨rfl, ih rest (x + 1) hdrop hrest⟩

/-- The components left by the `reduce` of `basePathFromPathList` are a
prefix of the start value and of the components of every entry. -/
theorem foldl_takeWhileIdx_below (d : List PathEntry) :
    ∀ init : List String,
      let f := d.foldl (fun y I => takeWhileIdx y 0 (dirComponents I.path)) init
      f <+: init ∧ ∀ x ∈ d, f <+: dirComponents x.path := by
  induction d with
  | nil =>
    intro init
    exact ⟨List.prefix_refl _, fun x hx => absurd hx (List.not_mem_nil x)⟩
  | cons e rest ih =>
    intro init
    have h := ih (takeWhileIdx init 0 (dirComponents e.path))
    simp only [List.foldl_cons] at h ⊢
    refine ⟨h.1.trans (takeWhileIdx_prefix_left init _ 0), ?_⟩
    intro x hx
    rcases List.mem_cons.mp hx with rfl | hx
    · exact h.1.trans (takeWhileIdx_prefix_right init _ 0)
    · exact h.2 x hx

/-- Every common prefix of the start value and of the components of all
entries is a prefix of what the `reduce` leaves. -/
theorem foldl_takeWhileIdx_greatest (d : List PathEntry) :
    ∀ (init g : List String), g <+: init → (∀ x ∈ d, g <+: dirComponents x.path) →
      g <+: d.foldl (fun y I => takeWhileIdx y 0 (dirComponents I.path)) init := by
  induction d with
  | nil => intro init g hg _; exact hg
  | cons e rest ih =>
    intro init g hg hall
    simp only [List.foldl_cons]
    refine ih _ g ?_ (fun x hx => hall x (List.mem_cons_of_mem _ hx))
    exact takeWhileIdx_greatest init g _ 0 hg (hall e (List.mem_cons_self _ _))

theorem takeWhileIdx_self (y : List String) : takeWhileIdx y 0 y = y := by
  have h1 : takeWhileIdx y 0 y <+: y := takeWhileIdx_prefix_right y y 0
  have h2 : y <+: takeWhileIdx y 0 y :=
    takeWhileIdx_greatest y y y 0 (List.prefix_refl _) (List.prefix_refl _)
  exact List.IsPrefix.eq_of_length_le h1 h2.length_le

/-- For a chain of directory names as a file system holds them (plain, neither
`.` nor `..`), `path.join("/", "", ...names)` is the absolute path of the
chain. -/
theorem joinArgs_of_plain (segs : List String) (hne : segs ≠ [])
    (hseg : ∀ n ∈ segs, plainName n = true ∧ n ≠ "." ∧ n ≠ "..") :
    path.joinArgs ("/" :: "" :: segs) = String.mk ('/' :: joinChars segs) := by
  have hpl : ∀ n ∈ segs, plainName n = true := fun n hn => (hseg n hn).1
  obtain ⟨m, ns, rfl⟩ := List.exists_cons_of_ne_nil hne
  have hfilter : ("/" :: "" :: m :: ns).filter (fun a => a != "") = "/" :: m :: ns := by
    have := filter_nonempty_plain (m :: ns) hpl
    simp only [List.filter_cons] at this ⊢
    simpa using this
  have hdata : ("/".intercalate ("/" :: m :: ns)).data = '/' :: '/' :: joinChars (m :: ns) := by
    rw [intercalate_data]
    rfl
  obtain ⟨c, hc, hcne⟩ := joinChars_getLast (m :: ns) hne hpl
  have hlast : ('/' :: '/' :: joinChars (m :: ns)).getLast? = some c := by
    have hnn := joinChars_ne_nil (m :: ns) hne hpl
    rw [show '/' :: '/' :: joinChars (m :: ns) = ['/', '/'] ++ joinChars (m :: ns) by rfl,
      List.getLast?_append_of_ne_nil _ hnn]
    exact hc
  have hsplit : (path.splitSep ('/' :: '/' :: joinChars (m :: ns))).map String.mk
      = "" :: "" :: m :: ns := by
    rw [path.splitSep, if_pos rfl, path.splitSep, if_pos rfl, splitSep_joinChars _ hne hpl]
    simp only [List.map_cons, List.map_map]
    refine congrArg₂ List.cons rfl (congrArg₂ List.cons rfl ?_)
    exact congrArg₂ List.cons rfl (List.map_id'' (fun _ => rfl) ns)
  have hsegs : path.normalizeSegs false [] ("" :: "" :: m :: ns) = m :: ns := by
    have h := normalizeSegs_clean false (m :: ns)
      (fun x hx => ⟨fun he => ((plainName_iff x).mp (hpl x hx)).1
        ((string_eq_empty_iff x).mp he), (hseg x hx).2.1, (hseg x hx).2.2⟩) []
    rw [path.normalizeSegs, if_pos (Or.inl rfl), path.normalizeSegs, if_pos (Or.inl rfl), h]
    rfl
  unfold path.joinArgs
  rw [hfilter]
  simp only []
  unfold path.normalize
  have hcb : (some c == some '/') = false := by simpa using hcne
  have hhead : (('/' :: '/' :: joinChars (m :: ns)).head? == some '/') = true := rfl
  simp only [hdata, hlast, hsplit, hcb, hhead, Bool.not_true, hsegs, List.isEmpty_cons,
    Bool.false_eq_true, if_false, if_true]
  apply String.ext
  simp only [String.data_append, intercalate_data]
  simp

/-- The base path of a single file whose path is a chain of directory names
below the root, followed by the file name: the directory of the file. -/
theorem basePath_single_file (segs : List String) (name : String) (size : Size)
    (hseg : ∀ n ∈ segs, plainName n = true ∧ n ≠ "." ∧ n ≠ "..")
    (hname : plainName name = true) :
    basePathFromPathList [⟨String.mk ('/' :: joinChars (segs ++ [name])), size⟩]
      = some (path.dirname (String.mk ('/' :: joinChars (segs ++ [name])))) := by
  have hpl : ∀ n ∈ segs, plainName n = true := fun n hn => (hseg n hn).1
  have hdir := dirname_of_plain segs name hpl hname
  show some (path.joinArgs ("/" :: [(⟨String.mk ('/' :: joinChars (segs ++ [name])), size⟩ :
    PathEntry)].foldl
      (fun (y : List String) (I : PathEntry) => takeWhileIdx y 0 (dirComponents I.path))
      (dirComponents (String.mk ('/' :: joinChars (segs ++ [name])))))) = _
  simp only [List.foldl_cons, List.foldl_nil, takeWhileIdx_self]
  unfold dirComponents
  rw [hdir]
  by_cases hs : segs = []
  · subst hs
    decide
  · rw [if_neg hs]
    have hcomp : (path.splitSep (String.mk ('/' :: joinChars segs)).data).map String.mk
        = "" :: segs := by
      show (path.splitSep ('/' :: joinChars segs)).map String.mk = _
      rw [path.splitSep, if_pos rfl, splitSep_joinChars _ hs hpl]
      simp only [List.map_cons, List.map_map]
      exact congrArg₂ List.cons rfl (List.map_id'' (fun _ => rfl) segs)
    rw [hcomp, joinArgs_of_plain segs hs hseg]

/-- C24: `basePathFromPathList` returns `null` for the empty list; for a
non-empty list it returns `path.join("/", ...f)` where the components `f` are
a prefix of the directory components of every entry, every component-wise
prefix shared by all entries is a prefix of `f` (so none is longer), and for
a single file `f` are the components of that file's directory.  For a single
file below the root whose path is made of plain names, none of them `.` or
`..`, the result is `path.dirname` of the path. -/
theorem C24_basePath_longest_common_prefix :
    basePathFromPathList [] = none ∧
    (∀ (e : PathEntry) (d : List PathEntry), ∃ f : List String,
      basePathFromPathList (e :: d) = some (path.joinArgs ("/" :: f)) ∧
      (∀ x ∈ e :: d, f <+: dirComponents x.path) ∧
      (∀ g : List String, (∀ x ∈ e :: d, g <+: dirComponents x.path) →
        g <+: f ∧ g.length ≤ f.length) ∧
      (d = [] → f = dirComponents e.path ∧
        basePathFromPathList [e] = some (path.joinArgs ("/" :: dirComponents e.path)))) ∧
    (∀ (segs : List String) (name : String) (size : Size),
      (∀ n ∈ segs, plainName n = true ∧ n ≠ "." ∧ n ≠ "..") → plainName name = true →
      basePathFromPathList [⟨String.mk ('/' :: joinChars (segs ++ [name])), size⟩]
        = some (path.dirname (String.mk ('/' :: joinChars (segs ++ [name]))))) ∧
    basePathFromPathList [⟨"/a/b/x.jpg", 1⟩] = some "/a/b" ∧
    basePathFromPathList [⟨"/a/b/x.jpg", 1⟩, ⟨"/a/c/y.jpg", 2⟩] = some "/a" := by
  refine ⟨rfl, ?_, fun segs name size hseg hname => basePath_single_file segs name size hseg hname,
    by decide, by decide⟩
  intro e d
  refine ⟨(e :: d).foldl
    (fun (y : List String) (I : PathEntry) => takeWhileIdx y 0 (dirComponents I.path))
    (dirComponents e.path), rfl, ?_, ?_, ?_⟩
  · exact (foldl_takeWhileIdx_below (e :: d) (dirComponents e.path)).2
  · intro g hg
    have h := foldl_takeWhileIdx_greatest (e :: d) (dirComponents e.path) g
      (hg e (List.mem_cons_self _ _)) hg
    exact ⟨h, h.length_le⟩
  · intro hd
    subst hd
    have hs : [e].foldl
        (fun (y : List String) (I : PathEntry) => takeWhileIdx y 0 (dirComponents I.path))
        (dirComponents e.path) = dirComponents e.path := by
      simp only [List.foldl_cons, List.foldl_nil]
      exact takeWhileIdx_self _
    refine ⟨hs, ?_⟩
    show some (path.joinArgs ("/" :: [e].foldl _ (dirComponents e.path))) = _
    rw [hs]

/-! ### The offline monitor -/

theorem monitor_append (a b : List Bool) :
    ∀ (E : Nat) (C : Queue),
      (spApp.monitor E C (a ++ b)).1
          = (spApp.monitor (spApp.monitor E C a).1 (spApp.monitor E C a).2.1 b).1 ∧
      (spApp.monitor E C (a ++ b)).2.1
          = (spApp.monitor (spApp.monitor E C a).1 (spApp.monitor E C a).2.1 b).2.1 ∧
      (spApp.monitor E C (a ++ b)).2.2
          = (spApp.monitor E C a).2.2
            ++ (spApp.monitor (spApp.monitor E C a).1 (spApp.monitor E C a).2.1 b).2.2 := by
  induction a with
  | nil => intro E C; exact ⟨rfl, rfl, rfl⟩
  | cons N rest ih =>
    intro E C
    have h := ih (spApp.isOnline E C N).1 (spApp.isOnline E C N).2.1
    simp only [List.cons_append, spApp.monitor]
    exact ⟨h.1, h.2.1, congrArg (List.cons (spApp.isOnline E C N).2.2) h.2.2⟩

theorem monitor_online (E : Nat) (C : Queue) :
    (spApp.monitor E C [true]).1 = 0 := by
  simp [spApp.monitor, spApp.isOnline]

theorem monitor_offline_run (k : Nat) :
    ∀ (E : Nat) (C : Queue),
      (spApp.monitor E C (List.replicate k false)).1 = E + k ∧
      (spApp.monitor E C (List.replicate (k + 1) false)).2.2.getLast?
        = some (decide (E + k + 1 = 4)) := by
  induction k with
  | zero =>
    intro E C
    refine ⟨rfl, ?_⟩
    by_cases h : E + 1 = 4 <;> simp [spApp.monitor, spApp.isOnline, h]
  | succ k ih =>
    intro E C
    have hE : (spApp.isOnline E C false).1 = E + 1 := by
      by_cases h : E + 1 = 4 <;> simp [spApp.isOnline, h]
    have h := ih (E + 1) (spApp.isOnline E C false).2.1
    constructor
    · rw [List.replicate_succ]
      show (spApp.monitor (spApp.isOnline E C false).1 (spApp.isOnline E C false).2.1
        (List.replicate k false)).1 = _
      rw [hE, h.1]
      omega
    · rw [List.replicate_succ]
      show ((spApp.isOnline E C false).2.2 ::
        (spApp.monitor (spApp.isOnline E C false).1 (spApp.isOnline E C false).2.1
          (List.replicate (k + 1) false)).2.2).getLast? = _
      rw [hE]
      have h2 := h.2
      cases hm : (spApp.monitor (E + 1) (spApp.isOnline E C false).2.1
          (List.replicate (k + 1) false)).2.2 with
      | nil => rw [hm] at h2; simp at h2
      | cons x xs =>
        rw [hm] at h2
        rw [List.getLast?_cons_cons, h2]
        have : E + 1 + k + 1 = E + (k + 1) + 1 := by omega
        rw [this]

/-- C25, counterexample: at start-up a single offline sample triggers the
pause, although fewer than four consecutive offline samples were observed. -/
theorem C25_counterexample :
    (spApp.monitor spApp.offlineCountStart emptyQueue [false]).2.2 = [true] ∧
    (spApp.monitor spApp.offlineCountStart emptyQueue [false]).2.1.isPaused = true := by
  decide

/-- C25, amended: the handler pauses the queue exactly when its counter
reaches four, the counter being 0 after an online sample and one more after
every offline sample.  So after an online sample the `k`-th consecutive
offline sample triggers the pause if and only if `k = 4`; the counter starts
at 3, so with no online sample since start-up the `k`-th offline sample
triggers the pause if and only if `k = 1`. -/
theorem C25_pause_when_counter_reaches_four (C : Queue) (pre : List Bool) (k : Nat) :
    (∀ (E : Nat) (D : Queue) (N : Bool),
      (spApp.isOnline E D N).2.2 = decide (N = false ∧ E = 3) ∧
      (spApp.isOnline E D N).2.1
        = (if (spApp.isOnline E D N).2.2 then spQueue.pause D else D) ∧
      (spApp.isOnline E D true).1 = 0 ∧ (spApp.isOnline E D false).1 = E + 1) ∧
    (spApp.monitor spApp.offlineCountStart C (pre ++ [true])).1 = 0 ∧
    (spApp.monitor spApp.offlineCountStart C
      (pre ++ [true] ++ List.replicate k false)).1 = k ∧
    (spApp.monitor spApp.offlineCountStart C
      (pre ++ [true] ++ List.replicate (k + 1) false)).2.2.getLast?
        = some (decide (k + 1 = 4)) ∧
    (spApp.monitor spApp.offlineCountStart C (List.replicate (k + 1) false)).2.2.getLast?
        = some (decide (k + 1 = 1)) := by
  have h0 : (spApp.monitor spApp.offlineCountStart C (pre ++ [true])).1 = 0 := by
    rw [(monitor_append pre [true] _ C).1]
    exact monitor_online _ _
  refine ⟨?_, h0, ?_, ?_, ?_⟩
  · intro E D N
    have hoff : (spApp.isOnline E D false).1 = E + 1 := by
      by_cases h : E + 1 = 4 <;> simp [spApp.isOnline, h]
    refine ⟨?_, ?_, by simp [spApp.isOnline], hoff⟩
    · cases N
      · by_cases h : E = 3
        · subst h; simp [spApp.isOnline]
        · have h4 : ¬ E + 1 = 4 := by omega
          simp [spApp.isOnline, h, h4]
      · simp [spApp.isOnline]
    · cases N
      · by_cases h : E + 1 = 4 <;> simp [spApp.isOnline, h]
      · simp [spApp.isOnline]
  · rw [(monitor_append (pre ++ [true]) _ _ C).1, h0]
    rw [(monitor_offline_run k 0 _).1]
    omega
  · rw [(monitor_append (pre ++ [true]) _ _ C).2.2, h0]
    rw [List.getLast?_append, (monitor_offline_run k 0 _).2]
    simp
  · rw [(monitor_offline_run k spApp.offlineCountStart C).2]
    have : (spApp.offlineCountStart + k + 1 = 4) = (k + 1 = 1) := by
      simp [spApp.offlineCountStart]
    simp only [this]

/-! ### Responses that report an error -/

/-- C26: a response other than 504 whose status code is above 399 and whose
body cannot be parsed (`H = null`) leaves the photo COMPLETED with
`transferred = 1`, but what is stored as its error is `null`: the photo
carries no error tag, the filter `photosError` does not select it, and,
unless it is a duplicate, the filter `photosComplete` does. -/
theorem C26_error_status_unparsed_body_leaves_no_tag (h : PhotoRef → Photo) (P : PhotoRef)
    (statusCode : Nat) (h504 : statusCode ≠ 504) (herr : statusCode > 399) :
    ((spApi.onResponse h P statusCode none).1 P).status = Status.COMPLETED ∧
    ((spApi.onResponse h P statusCode none).1 P).transferred = 1 ∧
    ((spApi.onResponse h P statusCode none).1 P).error = some (ErrorTag.body none) ∧
    ErrorTag.truthy ((spApi.onResponse h P statusCode none).1 P).error = false ∧
    spQueueJobDetail.isError ((spApi.onResponse h P statusCode none).1 P) = false ∧
    spQueueJobDetail.isComplete ((spApi.onResponse h P statusCode none).1 P)
      = !(h P).duplicate := by
  have hr : (spApi.onResponse h P statusCode none).1 P =
      { h P with
        status := Status.COMPLETED
        transferred := 1
        error := some (ErrorTag.body none) } := by
    simp [spApi.onResponse, h504, herr]
  rw [hr]
  simp [ErrorTag.truthy, spQueueJobDetail.isError, spQueueJobDetail.isComplete]

/-- C26 at a response with status code 500 and a body that is not JSON, for
the first photo of a fresh job. -/
theorem C26_error_status_unparsed_body_leaves_no_tag_witness :
    500 ≠ 504 ∧ 500 > 399 ∧
    ((spApi.onResponse freshJob.photoObj 0 500 none).1 0).status = Status.COMPLETED ∧
    ErrorTag.truthy ((spApi.onResponse freshJob.photoObj 0 500 none).1 0).error = false ∧
    spQueueJobDetail.isComplete ((spApi.onResponse freshJob.photoObj 0 500 none).1 0)
      = true :=
  have h := C26_error_status_unparsed_body_leaves_no_tag freshJob.photoObj 0 500
    (by decide) (by decide)
  ⟨by decide, by decide, h.1, h.2.2.2.1, by rw [h.2.2.2.2.2]; decide⟩

/-! ### Cancel and the status of the job -/

theorem cancel_status (C : Queue) (d j : JobRef) :
    ((spQueue.cancel C d).1.jobObj j).status
      = if j = d then Status.CANCELED else (C.jobObj j).status := by
  by_cases h : j = d
  · subst h; simp [spQueue.cancel]
  · simp [spQueue.cancel, Function.update_noteq h, h]

theorem cancel_jobs (C : Queue) (d : JobRef) : (spQueue.cancel C d).1.jobs = C.jobs := rfl

theorem foldl_cancel_status (l : List JobRef) :
    ∀ (s : Queue × Effects) (j : JobRef),
      ((l.foldl (fun s t => ((spQueue.cancel s.1 t).1, s.2.append (spQueue.cancel s.1 t).2))
        s).1.jobObj j).status
        = if j ∈ l then Status.CANCELED else (s.1.jobObj j).status := by
  induction l with
  | nil => intro s j; simp
  | cons t rest ih =>
    intro s j
    rw [List.foldl_cons, ih]
    by_cases hr : j ∈ rest
    · simp [hr]
    · by_cases ht : j = t
      · subst ht; simp [hr, cancel_status]
      · simp [hr, ht, cancel_status]

/-- C27: `cancel` sets the status of its job to CANCELED whatever the status
was, and the cancel-all action of the limit-reached dialog does so for every
job of the queue: a COMPLETED job becomes CANCELED.  The cancel-all action of
the pause dialog, which filters the jobs first, leaves it COMPLETED. -/
theorem C27_cancel_overwrites_completed :
    (∀ (C : Queue) (d : JobRef), ((spQueue.cancel C d).1.jobObj d).status = Status.CANCELED) ∧
    (∀ (C : Queue) (j : JobRef), j ∈ C.jobs →
      ((spLimitReached.cancelAll C).1.jobObj j).status = Status.CANCELED) ∧
    (doneAndPending.jobObj 0).status = Status.COMPLETED ∧
    ((spQueue.cancel doneAndPending 0).1.jobObj 0).status = Status.CANCELED ∧
    ((spLimitReached.cancelAll doneAndPending).1.jobObj 0).status = Status.CANCELED ∧
    ((spQueuePause.confirmCancelAll true doneAndPending doneAndPending.jobs).1.jobObj 0).status
      = Status.COMPLETED := by
  refine ⟨?_, ?_, by decide, by decide, by decide, by decide⟩
  · intro C d
    rw [cancel_status, if_pos rfl]
  · intro C j hj
    show ((C.jobs.foldl _ (C, Effects.none)).1.jobObj j).status = _
    rw [foldl_cancel_status, if_pos hj]

/-! ### Completion of a job and the state of its photos -/

theorem onProgress_range (h : PhotoRef → Photo) (P : PhotoRef) (X : ℚ)
    (hX : 0 ≤ X ∧ X ≤ 1)
    (hr : ∀ p, 0 ≤ (h p).transferred ∧ (h p).transferred ≤ 1) :
    ∀ p, 0 ≤ (spApi.onProgress h P X p).transferred
      ∧ (spApi.onProgress h P X p).transferred ≤ 1 := by
  intro p
  unfold spApi.onProgress
  by_cases hp : p = P
  · subst hp
    rw [Function.update_same]
    exact hX
  · rw [Function.update_noteq hp]
    exact hr p

theorem onResponse_range (h : PhotoRef → Photo) (P : PhotoRef) (statusCode : Nat)
    (H : Option Body)
    (hr : ∀ p, 0 ≤ (h p).transferred ∧ (h p).transferred ≤ 1) :
    ∀ p, 0 ≤ ((spApi.onResponse h P statusCode H).1 p).transferred
      ∧ ((spApi.onResponse h P statusCode H).1 p).transferred ≤ 1 := by
  intro p
  have key : ∀ (c : Prop) [Decidable c] (a b : (PhotoRef → Photo) × spApi.Broadcast),
      (0 ≤ (a.1 p).transferred ∧ (a.1 p).transferred ≤ 1) →
      (0 ≤ (b.1 p).transferred ∧ (b.1 p).transferred ≤ 1) →
      (0 ≤ ((if c then a else b).1 p).transferred
        ∧ ((if c then a else b).1 p).transferred ≤ 1) := by
    intro c _ a b ha hb
    split_ifs
    · exact ha
    · exact hb
  unfold spApi.onResponse
  dsimp only
  refine key _ _ _ ?_ (key _ _ _ ?_ ?_)
  all_goals
    by_cases hp : p = P
    · subst hp
      simp only [Function.update_same]
      first
        | exact hr p
        | norm_num
    · simp only [Function.update_noteq hp]
      exact hr p

/-- The events of a transfer keep every `transferred` between 0 and 1. -/
theorem step_transfer_range (C : Queue) (op : Op) (hop : transferEvent op = true)
    (hr : ∀ p, 0 ≤ (C.photoObj p).transferred ∧ (C.photoObj p).transferred ≤ 1) :
    ∀ p, 0 ≤ ((step C op).photoObj p).transferred
      ∧ ((step C op).photoObj p).transferred ≤ 1 := by
  cases op with
  | activate => exact hr
  | start photo =>
    intro p
    show 0 ≤ (spApi.uploadStart C.photoObj photo p).transferred
      ∧ (spApi.uploadStart C.photoObj photo p).transferred ≤ 1
    unfold spApi.uploadStart
    by_cases hp : p = photo
    · subst hp
      rw [Function.update_same]
      exact hr p
    · rw [Function.update_noteq hp]
      exact hr p
  | progress photo X =>
    have hX : 0 ≤ X ∧ X ≤ 1 := by
      simpa [transferEvent] using hop
    exact onProgress_range C.photoObj photo X hX hr
  | response photo code H => exact onResponse_range C.photoObj photo code H hr
  | duplicate photo =>
    intro p
    show 0 ≤ ((spApi.onDuplicate C.photoObj photo).1 p).transferred
      ∧ ((spApi.onDuplicate C.photoObj photo).1 p).transferred ≤ 1
    unfold spApi.onDuplicate
    by_cases hp : p = photo
    · subst hp
      simp only [Function.update_same]
      norm_num
    · simp only [Function.update_noteq hp]
      exact hr p
  | complete photo fire =>
    rw [step_complete_photoObj]
    exact hr
  | enqueue B ps => exact absurd hop (by simp [transferEvent])
  | pause => exact absurd hop (by simp [transferEvent])
  | resume fire => exact absurd hop (by simp [transferEvent])
  | retry photo fire => exact absurd hop (by simp [transferEvent])
  | cancel d => exact absurd hop (by simp [transferEvent])
  | appCompleted photo a b => exact absurd hop (by simp [transferEvent])
  | streamError photo q => exact absurd hop (by simp [transferEvent])

theorem run_transfer_range (ops : List Op) :
    ∀ C : Queue, (∀ op ∈ ops, transferEvent op = true) →
      (∀ p, 0 ≤ (C.photoObj p).transferred ∧ (C.photoObj p).transferred ≤ 1) →
      ∀ p, 0 ≤ ((run C ops).photoObj p).transferred
        ∧ ((run C ops).photoObj p).transferred ≤ 1 := by
  induction ops with
  | nil => intro C _ hr; exact hr
  | cons op rest ih =>
    intro C hops hr
    show ∀ p, 0 ≤ ((run (step C op) rest).photoObj p).transferred
      ∧ ((run (step C op) rest).photoObj p).transferred ≤ 1
    exact ih (step C op) (fun o ho => hops o (List.mem_cons_of_mem _ ho))
      (step_transfer_range C op (hops op (List.mem_cons_self _ _)) hr)

theorem sum_eq_length_iff_all_one (l : List ℚ) (h1 : ∀ x ∈ l, x ≤ 1) :
    l.sum = l.length ↔ ∀ x ∈ l, x = 1 := by
  induction l with
  | nil => simp
  | cons a rest ih =>
    have hle : rest.sum ≤ rest.length := by
      have h := List.sum_le_card_nsmul rest 1 (fun x hx => h1 x (List.mem_cons_of_mem _ hx))
      simpa using h
    have ha : a ≤ 1 := h1 a (List.mem_cons_self _ _)
    have ih' := ih (fun x hx => h1 x (List.mem_cons_of_mem _ hx))
    constructor
    · intro hs
      rw [List.sum_cons, List.length_cons] at hs
      push_cast at hs
      have ha1 : a = 1 := by linarith
      have hrest : rest.sum = rest.length := by linarith
      intro x hx
      rcases List.mem_cons.mp hx with rfl | hx
      · exact ha1
      · exact ih'.mp hrest x hx
    · intro hall
      rw [List.sum_cons, List.length_cons]
      push_cast
      rw [hall a (List.mem_cons_self _ _),
        ih'.mpr (fun x hx => hall x (List.mem_cons_of_mem _ hx))]
      ring

theorem sentNotAnswered_find :
    (run freshJob sentNotAnswered).jobs.find?
      (fun j => ((run freshJob sentNotAnswered).jobObj j).id
        == ((run freshJob sentNotAnswered).photoObj 2).jobId) = some 0 := by
  decide

theorem sentNotAnswered_events : ∀ op ∈ sentNotAnswered, transferEvent op = true := by
  simp [sentNotAnswered, transferEvent]
  norm_num

theorem sentNotAnswered_status :
    ((run freshJob sentNotAnswered).photoObj 0).status = Status.IN_PROGRESS ∧
    ((run freshJob sentNotAnswered).photoObj 1).status = Status.IN_PROGRESS ∧
    ((run freshJob sentNotAnswered).photoObj 2).status = Status.COMPLETED := by
  refine ⟨?_, ?_, by decide⟩
  · simp [run, sentNotAnswered, step, spApi.onProgress, spApi.uploadStart, spApi.onResponse,
      activateNext, Function.update, okBody]
    norm_num
  · simp [run, sentNotAnswered, step, spApi.onProgress, spApi.uploadStart, spApi.onResponse,
      activateNext, Function.update, okBody]
    norm_num

theorem fresh_range :
    ∀ p, 0 ≤ (freshJob.photoObj p).transferred ∧ (freshJob.photoObj p).transferred ≤ 1 := by
  intro p
  simp [freshJob, examplePhoto]

theorem statusFromProgress_completed_iff (q : ℚ) (h0 : 0 ≤ q) (h1 : q ≤ 1) :
    ((statusFromProgress (some q)).1 = Status.COMPLETED ↔ q = 1) ∧
    ((statusFromProgress (some q)).2 = true ↔ q = 1) := by
  rw [statusFromProgress_some q h0 h1]
  by_cases hq0 : q = 0
  · have hq1 : ¬ q = 1 := by rw [hq0]; norm_num
    rw [if_pos hq0]
    exact ⟨⟨fun h => absurd h (by decide), fun h => absurd h hq1⟩,
      ⟨fun h => absurd h (by decide), fun h => absurd h hq1⟩⟩
  · rw [if_neg hq0]
    by_cases hq1 : q = 1
    · rw [if_pos hq1]
      exact ⟨⟨fun _ => hq1, fun _ => rfl⟩, ⟨fun _ => hq1, fun _ => rfl⟩⟩
    · rw [if_neg hq1]
      exact ⟨⟨fun h => absurd h (by decide), fun h => absurd h hq1⟩,
        ⟨fun h => absurd h (by decide), fun h => absurd h hq1⟩⟩

/-- What the completion handler does to a PENDING or IN_PROGRESS job with
photos whose `transferred` lie between 0 and 1: the job becomes COMPLETED,
and the signal is sent, exactly when every photo has `transferred = 1`. -/
theorem uploadCompleteHandler_completed_iff (fire : Bool) (C : Queue) (photo : PhotoRef)
    (y : JobRef)
    (hfind : C.jobs.find? (fun j => (C.jobObj j).id == (C.photoObj photo).jobId) = some y)
    (hne : (C.jobObj y).photos ≠ [])
    (hact : (C.jobObj y).status = Status.PENDING ∨ (C.jobObj y).status = Status.IN_PROGRESS)
    (hrange : ∀ p, 0 ≤ (C.photoObj p).transferred ∧ (C.photoObj p).transferred ≤ 1) :
    ∃ r, uploadCompleteHandler fire C photo = some r ∧
      (r.1.jobObj y).photos = (C.jobObj y).photos ∧
      r.1.photoObj = C.photoObj ∧
      ((r.1.jobObj y).status = Status.COMPLETED ↔
        ∀ p ∈ (C.jobObj y).photos, (C.photoObj p).transferred = 1) ∧
      (r.2.signals = [y] ↔
        ∀ p ∈ (C.jobObj y).photos, (C.photoObj p).transferred = 1) := by
  obtain ⟨r, hr, hp, hj, hs⟩ := uploadCompleteHandler_found fire C photo y hfind
  obtain ⟨h0, h1⟩ := mean_mem_unit C _ hne (fun p _ => hrange p)
  have hlen : ((C.jobObj y).photos.length : ℚ) ≠ 0 := by
    have : 0 < (C.jobObj y).photos.length := List.length_pos.mpr hne
    exact_mod_cast this.ne'
  have hall : ((C.jobObj y).photos.map (fun p => (C.photoObj p).transferred)).sum
      / (C.jobObj y).photos.length = 1 ↔
      ∀ p ∈ (C.jobObj y).photos, (C.photoObj p).transferred = 1 := by
    rw [div_eq_one_iff_eq hlen]
    have h := sum_eq_length_iff_all_one
      ((C.jobObj y).photos.map (fun p => (C.photoObj p).transferred))
      (by
        intro x hx
        obtain ⟨p, _, rfl⟩ := List.mem_map.mp hx
        exact (hrange p).2)
    rw [List.length_map] at h
    rw [h]
    constructor
    · intro hx p hp'
      exact hx _ (List.mem_map.mpr ⟨p, hp', rfl⟩)
    · intro hx x hx'
      obtain ⟨p, hp', rfl⟩ := List.mem_map.mp hx'
      exact hx p hp'
  obtain ⟨hc1, hc2⟩ := statusFromProgress_completed_iff _ h0 h1
  rw [if_pos hact, meanTransferred_eq C _ hne] at hj hs
  refine ⟨r, hr, by rw [hj]; simp, hp, ?_, ?_⟩
  · rw [hj, ← hall, ← hc1]
    simp only [Function.update_same]
  · rw [hs, ← hall, ← hc2]
    cases (statusFromProgress (some (((C.jobObj y).photos.map
      (fun p => (C.photoObj p).transferred)).sum / (C.jobObj y).photos.length))).2 <;> simp

/-- C28, counterexample: from a fresh job with three photos, after two photos
were sent in full and the third was answered, the completion event of the
third photo makes the handler set the job COMPLETED and send the signal,
while the first two photos are IN_PROGRESS. -/
theorem C28_counterexample :
    ∃ r, uploadCompleteHandler true (run freshJob sentNotAnswered) 2 = some r ∧
      (r.1.jobObj 0).status = Status.COMPLETED ∧
      r.2.signals = [0] ∧
      (r.1.jobObj 0).photos = [0, 1, 2] ∧
      (r.1.photoObj 0).status = Status.IN_PROGRESS ∧
      (r.1.photoObj 1).status = Status.IN_PROGRESS := by
  obtain ⟨r, hr, hph, hpo, hst, hsig⟩ :=
    uploadCompleteHandler_completed_iff true (run freshJob sentNotAnswered) 2 0
      sentNotAnswered_find (by decide) (Or.inl (by decide))
      (run_transfer_range _ _ sentNotAnswered_events fresh_range)
  have hall : ∀ p ∈ ((run freshJob sentNotAnswered).jobObj 0).photos,
      ((run freshJob sentNotAnswered).photoObj p).transferred = 1 := by
    decide
  refine ⟨r, hr, hst.mpr hall, hsig.mpr hall, ?_, ?_, ?_⟩
  · rw [hph]
    decide
  · rw [hpo]
    exact sentNotAnswered_status.1
  · rw [hpo]
    exact sentNotAnswered_status.2.1

/-- C28, amended: in every state reached through transfer events from a
queue whose photos all have `transferred` between 0 and 1 (as after an
enqueue, where it is 0), when `uploadCompleteHandler` finds the job of the
completing photo PENDING or IN_PROGRESS and with a photo, it sets the job
COMPLETED, and sends the job-complete signal, if and only if every photo of
the job has `transferred = 1`; the status of these photos plays no part. -/
theorem C28_completed_when_all_transferred (C0 : Queue) (ops : List Op) (fire : Bool)
    (photo : PhotoRef) (y : JobRef)
    (h0 : ∀ p, 0 ≤ (C0.photoObj p).transferred ∧ (C0.photoObj p).transferred ≤ 1)
    (hops : ∀ op ∈ ops, transferEvent op = true)
    (hfind : (run C0 ops).jobs.find?
      (fun j => ((run C0 ops).jobObj j).id == ((run C0 ops).photoObj photo).jobId) = some y)
    (hne : ((run C0 ops).jobObj y).photos ≠ [])
    (hact : ((run C0 ops).jobObj y).status = Status.PENDING
      ∨ ((run C0 ops).jobObj y).status = Status.IN_PROGRESS) :
    ∃ r, uploadCompleteHandler fire (run C0 ops) photo = some r ∧
      ((r.1.jobObj y).status = Status.COMPLETED ↔
        ∀ p ∈ (r.1.jobObj y).photos, (r.1.photoObj p).transferred = 1) ∧
      (r.2.signals = [y] ↔
        ∀ p ∈ (r.1.jobObj y).photos, (r.1.photoObj p).transferred = 1) := by
  obtain ⟨r, hr, hph, hpo, hst, hsig⟩ :=
    uploadCompleteHandler_completed_iff fire (run C0 ops) photo y hfind hne hact
      (run_transfer_range ops C0 hops h0)
  refine ⟨r, hr, ?_, ?_⟩
  · rw [hph, hpo]
    exact hst
  · rw [hph, hpo]
    exact hsig

/-- C28 amended, at the fresh job whose first two photos were sent in full
and whose third photo was answered: the job becomes COMPLETED, as every
photo has `transferred = 1`. -/
theorem C28_completed_when_all_transferred_witness :
    ∃ r, uploadCompleteHandler true (run freshJob sentNotAnswered) 2 = some r ∧
      ((r.1.jobObj 0).status = Status.COMPLETED ↔
        ∀ p ∈ (r.1.jobObj 0).photos, (r.1.photoObj p).transferred = 1) ∧
      (r.2.signals = [0] ↔
        ∀ p ∈ (r.1.jobObj 0).photos, (r.1.photoObj p).transferred = 1) :=
  C28_completed_when_all_transferred freshJob sentNotAnswered true 2 0 fresh_range
    sentNotAnswered_events sentNotAnswered_find (by decide) (Or.inl (by decide))

/-! ### The base path of the staging draft -/

/-- C29, counterexample: after a selection of files in `/old` that was not
enqueued, a selection of a file in `/new` is staged with the base path
`/old`, while the common directory of the new path list is `/new`; and an
empty path list is staged with `/old` instead of `null`. -/
theorem C29_counterexample :
    (spQueue.pathListToStaging sniffByName
      (spQueue.pathListFromFileList
        (spUploadNew.selectFiles sniffByName spQueue.stagingTemplate "/old" [("a.jpg", 10)])
        "/new" [("b.jpg", 5)]).1 [⟨"/new/b.jpg", 5⟩]).basePath = some "/old" ∧
    (spQueue.pathListFromFileList
        (spUploadNew.selectFiles sniffByName spQueue.stagingTemplate "/old" [("a.jpg", 10)])
        "/new" [("b.jpg", 5)]).2.1 = [⟨"/new/b.jpg", 5⟩] ∧
    spQueue.basePathFromPathList [⟨"/new/b.jpg", 5⟩] = some "/new" ∧
    (spQueue.pathListToStaging sniffByName
      (spUploadNew.selectFiles sniffByName spQueue.stagingTemplate "/old" [("a.jpg", 10)])
      []).basePath = some "/old" := by
  decide

/-- C29, amended: for a draft whose base path is not set (a fresh draft or
one that was reset), `pathListToStaging(pathList).basePath` is
`basePathFromPathList(pathList)`, the common directory prefix of the path
list, and `null` when the path list is empty; after a folder selection it is
the selected folder, which `maybeGetPathListFromFolder` stores in the
draft. -/
theorem C29_basePath_of_fresh_draft (sniff : String → Sniff) (staging : Staging)
    (d : List PathEntry) (hfresh : spQueue.truthyString staging.basePath = false) :
    (spQueue.pathListToStaging sniff staging d).basePath = spQueue.basePathFromPathList d ∧
    (spQueue.pathListToStaging sniff staging []).basePath = none ∧
    spQueue.truthyString spQueue.resetStaging.basePath = false ∧
    ∀ (junk : String → Bool) (first : List TreeError → TreeError) (folder : String)
      (tree : Node), folder ≠ "" →
      (spQueue.pathListToStaging sniff
        (spQueue.maybeGetPathListFromFolder junk first staging folder tree).1 d).basePath
        = some folder := by
  refine ⟨?_, ?_, rfl, ?_⟩
  · simp [spQueue.pathListToStaging, hfresh]
  · simp [spQueue.pathListToStaging, hfresh, spQueue.basePathFromPathList]
  · intro junk first folder tree hne
    simp [spQueue.pathListToStaging, spQueue.maybeGetPathListFromFolder,
      spQueue.truthyString, hne]

/-- C29 amended, at the fresh draft and two files below `/a`. -/
theorem C29_basePath_of_fresh_draft_witness :
    spQueue.truthyString spQueue.stagingTemplate.basePath = false ∧
    (spQueue.pathListToStaging sniffByName spQueue.stagingTemplate
      [⟨"/a/b/x.jpg", 1⟩, ⟨"/a/c/y.jpg", 2⟩]).basePath = some "/a" :=
  ⟨rfl, (C29_basePath_of_fresh_draft sniffByName spQueue.stagingTemplate
    [⟨"/a/b/x.jpg", 1⟩, ⟨"/a/c/y.jpg", 2⟩] rfl).1.trans (by decide)⟩

/-! ### The window after a job is cleared -/

/-- C30: a PENDING job whose photos are in the active window can be cleared;
the window then holds photos of a job that is no longer in the queue, the
completion handler fails on the missing job when such a photo completes, and
the slot of the completed photo is not released. -/
theorem C30_clear_leaves_photos_in_window :
    spQueueJobDetail.showClear (spQueue.activateNext freshJob).1 0 = true ∧
    (spQueueJobDetail.clear (spQueue.activateNext freshJob).1 0).jobs = [] ∧
    (spQueueJobDetail.clear (spQueue.activateNext freshJob).1 0).active = [0, 1, 2] ∧
    ((step (spQueueJobDetail.clear (spQueue.activateNext freshJob).1 0)
      (Op.response 0 200 (some okBody))).photoObj 0).status = Status.COMPLETED ∧
    (spQueue.uploadCompleteHandler true
      (step (spQueueJobDetail.clear (spQueue.activateNext freshJob).1 0)
        (Op.response 0 200 (some okBody))) 0).isNone = true ∧
    (run (spQueueJobDetail.clear (spQueue.activateNext freshJob).1 0)
      [Op.response 0 200 (some okBody), Op.complete 0 true]).active = [0, 1, 2] ∧
    (spSettingsBody.deauthorize (spQueue.activateNext freshJob).1).jobs = [] ∧
    (spSettingsBody.deauthorize (spQueue.activateNext freshJob).1).active = [0, 1, 2] := by
  decide

end Federation
